import Mathlib

/-!
# Tunnel decapsulation in the packet analysis core

A shallow embedding of the GRE analyzer (`packet_analysis/protocol/gre/GRE.cc`),
the IP tunnel analyzer and its inactivity timer
(`packet_analysis/protocol/iptunnel/IPTunnel.cc`), the VXLAN analyzer
(`analyzer/protocol/vxlan/VXLAN.cc`) and of `Packet::Init`
(`iosource/Packet.cc`), followed by theorems about them.

Conventions of the embedding.

* Byte buffers are lists of naturals; a read of the byte at an offset takes the
  value modulo 256. `size_t` values are naturals and the one subtraction on
  them is written modulo `2^64`.
* A finite C++ `double` is an integer multiple of `2^-1074`. Times and
  intervals (seconds) are represented by that integer, comparisons of doubles
  are comparisons of these integers, and sums, differences, products and
  quotients of doubles are rounded to 53 significant binary digits, to nearest
  with ties to even, as in IEEE 754 binary64 (section "C++ doubles").
* Collaborators that are not part of the analyzers (the session layer, the
  reporter, the timer manager, the downstream pipeline) are represented by the
  log of calls made to them, kept in `World`, and by result oracles in `Env`.
-/

namespace Zeek

/-! ## Addresses, tunnel hops and the encapsulation stack -/

/-- An `IPAddr`, as the 128-bit number its bytes spell; `operator<` compares
the bytes lexicographically, which is the order of these numbers. -/
abbrev IPAddr := Nat

/-- The enum `BifEnum::Tunnel::Type`. -/
inductive TunnelType where
  | NONE | IP | AYIYA | TEREDO | SOCKS | GTPv1 | HTTP | GRE | VXLAN
deriving DecidableEq

/-- Modelled from the spec: `TunnelEncapsulation.h` is not among the sources.
An `EncapsulatingConn` records source address, destination address and tunnel
type of one hop, and carries the UID drawn when it is constructed. -/
structure EncapsulatingConn where
  src_addr : IPAddr
  dst_addr : IPAddr
  type : TunnelType
  uid : Nat
deriving DecidableEq

/-- Modelled from the spec: `TunnelEncapsulation.h` is not among the sources.
An `EncapsulationStack` is the ordered sequence of hops, outermost first. -/
abbrev EncapsulationStack := List EncapsulatingConn

/-- The method `EncapsulationStack::Depth`. -/
def EncapsulationStack.Depth (s : EncapsulationStack) : Nat := s.length

/-- The method `EncapsulationStack::Add`: the hop goes to the end. -/
def EncapsulationStack.Add (s : EncapsulationStack) (c : EncapsulatingConn) :
    EncapsulationStack := s ++ [c]

/-- The view `IP_Hdr` of an IP header: the accessors the analyzers call and
the bytes the header pointer designates. -/
structure IP_Hdr where
  SrcAddr : IPAddr
  DstAddr : IPAddr
  TotalLen : Nat
  ip4 : Bool
  hdr : List Nat
deriving DecidableEq

/-! ## C++ doubles -/

/-- The number of binary digits of a natural number, computed in at most
`fuel` steps: 64 digits at a time while the number has more than 64 digits,
then one digit at a time. -/
def binary64.bitLengthAux : Nat → Nat → Nat
  | 0, _ => 0
  | fuel + 1, n =>
    if n = 0 then 0
    else if n < 2 ^ 64 then binary64.bitLengthAux fuel (n / 2) + 1
    else binary64.bitLengthAux fuel (n / 2 ^ 64) + 64

/-- The number of binary digits of a natural number: 0 for 0, and `k` when
`2^(k-1) <= n < 2^k`. -/
def binary64.bitLength (n : Nat) : Nat := binary64.bitLengthAux n n

/-- The double `1.0`. A finite C++ `double` (IEEE 754 binary64) is an integer
multiple of `2^-1074`, the smallest positive double; it is represented by that
integer, so `1.0` is `2^1074`. Finite doubles have a magnitude below `2^1024`,
that is below `2^2098` in this representation; infinities and NaN have no
representation. -/
def binary64.one : Nat := 1 <<< 1074

/-- Rounding of the exact non-negative value `num / den` (in units of
`2^-1074`) to a double: to nearest, ties to even, keeping 53 significant binary
digits. Below `2^53` units the doubles are the integers, so the value is rounded
to an integer; above, `shift` low digits are rounded away. -/
def binary64.roundNat (num den : Nat) : Nat :=
  let q := num / den
  let shift := binary64.bitLength q - 53
  let ulp := den <<< shift
  let m := num / ulp
  let r := num % ulp
  let m := if 2 * r > ulp ∨ (2 * r = ulp ∧ m % 2 = 1) then m + 1 else m
  m <<< shift

/-- Rounding of the exact value `num / den` to a double, for either sign. -/
def binary64.round (num : Int) (den : Nat) : Int :=
  if num < 0 then - (binary64.roundNat num.natAbs den : Int)
  else (binary64.roundNat num.natAbs den : Int)

/-- The sum `a + b` of two doubles. -/
def binary64.add (a b : Int) : Int := binary64.round (a + b) 1

/-- The difference `a - b` of two doubles. -/
def binary64.sub (a b : Int) : Int := binary64.round (a - b) 1

/-- The product `a * b` of two doubles. -/
def binary64.mul (a b : Int) : Int := binary64.round (a * b) binary64.one

/-- The quotient `a / b` of two doubles, `b` not zero. -/
def binary64.div (a b : Int) : Int :=
  if b < 0 then binary64.round (- (a * binary64.one)) b.natAbs
  else binary64.round (a * binary64.one) b.natAbs

/-- The conversion of an integer to a double, as in `(double) k`. -/
def binary64.ofInt (k : Int) : Int := binary64.round (k * binary64.one) 1

/-- The conversion of a double to an integer, as in `(time_t) x`: the
fraction is cut off. -/
def binary64.toInt (x : Int) : Int := x.tdiv binary64.one

/-- The integers that represent a double: those with at most 53 significant
binary digits. (The bound on the magnitude of a finite double is not part of
this test.) -/
def binary64.isDouble (x : Int) : Prop :=
  (1 <<< (binary64.bitLength x.natAbs - 53)) ∣ x.natAbs

instance binary64.decidableIsDouble (x : Int) : Decidable (binary64.isDouble x) := by
  unfold binary64.isDouble
  infer_instance

/-! ## Packets -/

/-- The struct `pkt_timeval`. -/
structure pkt_timeval where
  tv_sec : Int
  tv_usec : Int
deriving DecidableEq

/-- The enum `Layer3Proto`. -/
inductive Layer3Proto where
  | L3_UNKNOWN | L3_IPV4 | L3_IPV6 | L3_ARP
deriving DecidableEq

/-- The member `Packet::key_store`, a `std::map<std::string, std::any>`. Each
key the analyzers use is only ever written with one C++ type, so the store is
one optional slot per key; `none` is an absent key (for `encap` also a null
stack pointer). -/
structure KeyStore where
  encap : Option EncapsulationStack
  ip_hdr : Option IP_Hdr
  proto : Option Int
  tunnel_type : Option TunnelType
  gre_version : Option Int
  gre_link_type : Option Int
  encap_inner_ip : Option IP_Hdr
deriving DecidableEq

/-- The empty key store of a newly constructed packet. -/
def KeyStore.empty : KeyStore :=
  ⟨none, none, none, none, none, none, none⟩

/-- The class `Packet`. -/
structure Packet where
  link_type : Int
  ts : pkt_timeval
  cap_len : Nat
  len : Nat
  tag : String
  copy : Bool
  data : Option (List Nat)
  session_analysis : Bool
  dump_packet : Bool
  time : Int
  hdr_size : Nat
  eth_type : Nat
  vlan : Nat
  inner_vlan : Nat
  l2_src : Option (List Nat)
  l2_dst : Option (List Nat)
  l2_valid : Bool
  l2_checksummed : Bool
  l3_proto : Layer3Proto
  l3_checksummed : Bool
  key_store : KeyStore
deriving DecidableEq

/-- The constant `DLT_EN10MB` of `pcap.h`. -/
def DLT_EN10MB : Int := 1

/-- The constant `DLT_RAW` of `pcap.h`. -/
def DLT_RAW : Int := 12

/-- The constant `IPPROTO_IPV4` of `netinet/in.h`. -/
def IPPROTO_IPV4 : Int := 4

/-- The constant `IPPROTO_IPV6` of `netinet/in.h`. -/
def IPPROTO_IPV6 : Int := 41

/-- The method `Packet::Init` (Packet.cc lines 25-71). -/
def Packet.Init (p : Packet) (arg_link_type : Int) (arg_ts : pkt_timeval)
    (arg_caplen arg_len : Nat) (arg_data : Option (List Nat)) (arg_copy : Bool)
    (arg_tag : String) : Packet :=
  let data : Option (List Nat) :=
    match arg_data with
    | some d => if arg_copy then some (d.take arg_caplen) else some d
    | none => none
  { p with
    link_type := arg_link_type
    ts := arg_ts
    cap_len := arg_caplen
    len := arg_len
    tag := arg_tag
    copy := arg_copy
    data := data
    session_analysis := false
    dump_packet := false
    time := binary64.add (binary64.ofInt arg_ts.tv_sec)
      (binary64.div (binary64.ofInt arg_ts.tv_usec) (binary64.ofInt 1000000))
    hdr_size := 0
    eth_type := 0
    vlan := 0
    inner_vlan := 0
    l2_src := none
    l2_dst := none
    l2_valid := data.isSome
    l2_checksummed := false
    l3_proto := Layer3Proto.L3_UNKNOWN
    l3_checksummed := false }

/-- A stack-allocated `Packet p;` before its `Init` call: no data, no MAC
pointers and an empty key store. -/
def Packet.fresh : Packet :=
  { link_type := 0, ts := ⟨0, 0⟩, cap_len := 0, len := 0, tag := "", copy := false,
    data := none, session_analysis := false, dump_packet := false, time := 0,
    hdr_size := 0, eth_type := 0, vlan := 0, inner_vlan := 0, l2_src := none,
    l2_dst := none, l2_valid := false, l2_checksummed := false,
    l3_proto := Layer3Proto.L3_UNKNOWN, l3_checksummed := false,
    key_store := KeyStore.empty }

/-! ## The environment of the analyzers -/

/-- One call of `sessions->Weird(name, ip_hdr, encap, addl)`. -/
structure Weird where
  name : String
  addl : String
deriving DecidableEq

/-- A call that hands a packet on to the rest of the pipeline. -/
inductive PipelineCall where
  | ForwardPacket (len : Nat) (data : List Nat) (packet : Packet)
  | ProcessInnerPacket (packet : Packet)
deriving DecidableEq

/-- The pair type `IPTunnelAnalyzer::IPPair`. -/
abbrev IPPair := IPAddr × IPAddr

/-- The pair type `IPTunnelAnalyzer::TunnelActivity`. -/
abbrev TunnelActivity := EncapsulatingConn × Int

/-- The map type `IPTunnelAnalyzer::IPTunnelMap`, as an association list. -/
abbrev IPTunnelMap := List (IPPair × TunnelActivity)

/-- The method `std::map::find`. -/
def IPTunnelMap.find (m : IPTunnelMap) (k : IPPair) : Option TunnelActivity :=
  m.lookup k

/-- The assignment `m[k] = v`. -/
def IPTunnelMap.assign : IPTunnelMap → IPPair → TunnelActivity → IPTunnelMap
  | [], k, v => [(k, v)]
  | (k', v') :: m, k, v =>
    if k' = k then (k, v) :: m else (k', v') :: IPTunnelMap.assign m k v

/-- The method `std::map::erase` by key. -/
def IPTunnelMap.erase (m : IPTunnelMap) (k : IPPair) : IPTunnelMap :=
  m.filter (fun e => decide (e.1 ≠ k))

/-- The number of entries stored under a key. -/
def IPTunnelMap.count (m : IPTunnelMap) (k : IPPair) : Nat :=
  (m.filter (fun e => decide (e.1 = k))).length

/-- An `IPTunnelTimer` queued in the timer manager: its firing time and the
pair it watches. -/
structure IPTunnelTimer where
  time : Int
  tunnel_idx : IPPair
deriving DecidableEq

/-- The script-level constants and the result oracles of the collaborators. -/
structure Env where
  enable_ip : Bool
  enable_gre : Bool
  max_depth : Nat
  ip_tunnel_timeout : Int
  ParseIPPacket : Nat → List Nat → Int → Int × IP_Hdr
  ForwardPacket : Nat → List Nat → Packet → Bool
  ProcessInnerPacket : Packet → Bool

/-- The mutable state around the analyzers: the tunnel map, the pending tunnel
timers, the clocks, the UID source, and the logs of weirds, internal errors,
pipeline calls and byte offsets read. -/
structure World where
  ip_tunnels : IPTunnelMap
  timers : List IPTunnelTimer
  network_time : Int
  processing_start_time : Int
  uid_counter : Nat
  weirds : List Weird
  internal_errors : List String
  calls : List PipelineCall
  reads : List Nat

/-- Record a `sessions->Weird` call. -/
def World.Weird (w : World) (name : String) (addl : String) : World :=
  { w with weirds := w.weirds ++ [⟨name, addl⟩] }

/-- Modelled from the spec: `Reporter::InternalError` is not among the sources.
A violated key store invariant is logged at error severity and the caller goes
on to drop the packet; the process is not stopped. The call is recorded. -/
def World.InternalError (w : World) (msg : String) : World :=
  { w with internal_errors := w.internal_errors ++ [msg] }

/-- Record a call into the pipeline. -/
def World.call (w : World) (c : PipelineCall) : World :=
  { w with calls := w.calls ++ [c] }

/-- Record the offsets of bytes read through the data pointer. -/
def World.read (w : World) (offs : List Nat) : World :=
  { w with reads := w.reads ++ offs }

/-- The byte at an offset of a buffer. -/
def byteAt (data : List Nat) (off : Nat) : Nat := data.getD off 0 % 256

/-- The expression `ntohs(*((uint16_t*)(data + off)))`. -/
def ntohs16 (data : List Nat) (off : Nat) : Nat :=
  byteAt data off * 256 + byteAt data (off + 1)

/-! ## The GRE analyzer (GRE.cc) -/

/-- The function `gre_header_len` (GRE.cc lines 13-36). -/
def gre_header_len (flags : Nat) : Nat :=
  let len := 4
  let len := if flags &&& 0x8000 ≠ 0 then len + 4 else len
  let len := if flags &&& 0x2000 ≠ 0 then len + 4 else len
  let len := if flags &&& 0x1000 ≠ 0 then len + 4 else len
  let len := if flags &&& 0x0080 ≠ 0 then len + 4 else len
  len

/-- The locals of `GREAnalyzer::AnalyzePacket` that its version 0 block may
rewrite. -/
structure GRELocals where
  proto_typ : Nat
  eth_len : Nat
  erspan_len : Nat
  gre_link_type : Int
deriving DecidableEq

/-- The block `if ( gre_version == 0 )` of `GREAnalyzer::AnalyzePacket`
(GRE.cc lines 88-154); `none` stands for its `return false`. -/
def GREAnalyzer.version0 (w : World) (len : Nat) (data : List Nat)
    (gre_len proto_typ : Nat) : Option GRELocals × World :=
  if proto_typ = 0x6558 then
    -- transparent ethernet bridging
    if len > gre_len + 14 then
      let eth_len := 14
      (some ⟨ntohs16 data (gre_len + eth_len - 2), eth_len, 0, DLT_EN10MB⟩,
        w.read [gre_len + eth_len - 2, gre_len + eth_len - 2 + 1])
    else
      (none, w.Weird "truncated_GRE" "")
  else if proto_typ = 0x88be then
    -- ERSPAN type II
    if len > gre_len + 14 + 8 then
      let erspan_len := 8
      let eth_len := 14
      (some ⟨ntohs16 data (gre_len + erspan_len + eth_len - 2), eth_len, erspan_len,
          DLT_EN10MB⟩,
        w.read [gre_len + erspan_len + eth_len - 2, gre_len + erspan_len + eth_len - 2 + 1])
    else
      (none, w.Weird "truncated_GRE" "")
  else if proto_typ = 0x22eb then
    -- ERSPAN type III
    if len > gre_len + 14 + 12 then
      let erspan_len := 12
      let eth_len := 14
      let flags := byteAt data (gre_len + erspan_len - 1)
      let w := w.read [gre_len + erspan_len - 1]
      let have_opt_header : Bool := decide (flags &&& 0x01 = 0x01)
      if have_opt_header then
        if len > gre_len + erspan_len + 8 + eth_len then
          let erspan_len := erspan_len + 8
          (some ⟨ntohs16 data (gre_len + erspan_len + eth_len - 2), eth_len, erspan_len,
              DLT_EN10MB⟩,
            w.read [gre_len + erspan_len + eth_len - 2,
              gre_len + erspan_len + eth_len - 2 + 1])
        else
          (none, w.Weird "truncated_GRE" "")
      else
        (some ⟨ntohs16 data (gre_len + erspan_len + eth_len - 2), eth_len, erspan_len,
            DLT_EN10MB⟩,
          w.read [gre_len + erspan_len + eth_len - 2,
            gre_len + erspan_len + eth_len - 2 + 1])
    else
      (none, w.Weird "truncated_GRE" "")
  else
    (some ⟨proto_typ, 0, 0, DLT_RAW⟩, w)

/-- The four key store assignments of `GREAnalyzer::AnalyzePacket`
(GRE.cc lines 208-213). -/
def GREAnalyzer.deposit (packet : Packet) (gre_version : Nat) (gre_link_type : Int)
    (proto : Int) : Packet :=
  { packet with key_store :=
    { packet.key_store with
      tunnel_type := some TunnelType.GRE
      gre_version := some (gre_version : Int)
      gre_link_type := some gre_link_type
      proto := some proto } }

/-- The end of `GREAnalyzer::AnalyzePacket` (GRE.cc lines 202-217): strip the
headers, deposit the four keys and forward. -/
def GREAnalyzer.deliver (env : Env) (w : World) (len : Nat) (data : List Nat)
    (packet : Packet) (proto : Int) (gre_version : Nat) (gre_len ppp_len : Nat)
    (l : GRELocals) : Bool × Packet × World :=
  let data' := data.drop (gre_len + ppp_len + l.erspan_len)
  let len' := (len + 2 ^ 64 - (gre_len + ppp_len + l.erspan_len)) % 2 ^ 64
  let packet' := GREAnalyzer.deposit packet gre_version l.gre_link_type proto
  -- the result of ForwardPacket is discarded
  let _forwarded := env.ForwardPacket len' data' packet'
  (true, packet', w.call (PipelineCall.ForwardPacket len' data' packet'))

/-- The part of `GREAnalyzer::AnalyzePacket` after the version blocks
(GRE.cc lines 167-200), ending in `deliver`. -/
def GREAnalyzer.finish (env : Env) (w : World) (len : Nat) (data : List Nat)
    (packet : Packet) (proto : Int) (flags_ver : Nat) (gre_version : Nat)
    (gre_len ppp_len : Nat) (l : GRELocals) : Bool × Packet × World :=
  if flags_ver &&& 0x4000 ≠ 0 then
    (false, packet, w.Weird "gre_routing" "")
  else if flags_ver &&& 0x0078 ≠ 0 then
    (false, packet, w.Weird "unknown_gre_flags" "")
  else if len < gre_len + ppp_len + l.eth_len + l.erspan_len then
    (false, packet, w.Weird "truncated_GRE" "")
  else if gre_version = 1 then
    let ppp_proto := ntohs16 data (gre_len + 2)
    let w := w.read [gre_len + 2, gre_len + 2 + 1]
    if ppp_proto ≠ 0x0021 ∧ ppp_proto ≠ 0x0057 then
      (false, packet, w.Weird "non_ip_packet_in_encap" "")
    else
      GREAnalyzer.deliver env w len data packet
        (if ppp_proto = 0x0021 then IPPROTO_IPV4 else IPPROTO_IPV6)
        gre_version gre_len ppp_len l
  else
    GREAnalyzer.deliver env w len data packet proto gre_version gre_len ppp_len l

/-- The method `GREAnalyzer::AnalyzePacket` (GRE.cc lines 43-218). It returns
the boolean result, the packet with its key store as left by the analyzer, and
the world. -/
def GREAnalyzer.AnalyzePacket (env : Env) (w : World) (len : Nat) (data : List Nat)
    (packet : Packet) : Bool × Packet × World :=
  match packet.key_store.ip_hdr with
  | none =>
    (false, packet, w.InternalError "GREAnalyzer: ip_hdr not found in packet keystore")
  | some _ip_hdr =>
    let proto : Int := -1
    -- lines 60-62: the cast is applied to the local `proto`, not to `it->second`
    let proto : Int :=
      match packet.key_store.proto with
      | some _ => proto
      | none => proto
    if ! env.enable_gre then
      (false, packet, w.Weird "GRE_tunnel" "")
    else
      let flags_ver := ntohs16 data 0
      let proto_typ := ntohs16 data 2
      let w := w.read [0, 1, 2, 3]
      let gre_version := flags_ver &&& 0x0007
      let gre_len := gre_header_len flags_ver
      let ppp_len := if gre_version = 1 then 4 else 0
      if gre_version ≠ 0 ∧ gre_version ≠ 1 then
        (false, packet, w.Weird "unknown_gre_version" (toString gre_version))
      else if gre_version = 0 then
        match GREAnalyzer.version0 w len data gre_len proto_typ with
        | (none, w) => (false, packet, w)
        | (some l, w) =>
          GREAnalyzer.finish env w len data packet proto flags_ver gre_version gre_len ppp_len l
      else
        -- gre_version == 1
        if proto_typ ≠ 0x880b then
          -- Enhanced GRE payload must be PPP.
          (false, packet, w.Weird "egre_protocol_type" (toString proto_typ))
        else
          GREAnalyzer.finish env w len data packet proto flags_ver gre_version gre_len ppp_len
            ⟨proto_typ, 0, 0, DLT_RAW⟩

/-- The full header length of a GRE packet in the words of the specification:
the GRE header, plus the 4-byte PPP header for version 1, plus the ERSPAN
framing and the 14-byte Ethernet header for protocol types 0x6558, 0x88be and
0x22eb (with the 8-byte ERSPAN-III subheader when the low bit of the byte at
`gre_header_len + 11` is set). To be compared with the checks of
`GREAnalyzer::AnalyzePacket`. -/
def GREAnalyzer.claimedHeaderLen (data : List Nat) : Nat :=
  gre_header_len (ntohs16 data 0)
    + (if ntohs16 data 0 &&& 0x0007 = 1 then 4 else 0)
    + (if ntohs16 data 2 = 0x6558 then 14
      else if ntohs16 data 2 = 0x88be then 8 + 14
      else if ntohs16 data 2 = 0x22eb then
        (if byteAt data (gre_header_len (ntohs16 data 0) + 11) &&& 0x01 = 0x01
          then 12 + 8 + 14 else 12 + 14)
      else 0)

/-! ## The IP tunnel analyzer and its timer (IPTunnel.cc) -/

/-- The call `timer_mgr->Add(timer)`. -/
def World.addTimer (w : World) (timer : IPTunnelTimer) : World :=
  { w with timers := w.timers ++ [timer] }

/-- The constructor `IPTunnelTimer::IPTunnelTimer` (IPTunnel.cc lines 209-214):
the timer fires at the double sum `t + ip_tunnel_timeout`. -/
def IPTunnelTimer.create (env : Env) (t : Int) (p : IPPair) : IPTunnelTimer :=
  ⟨binary64.add t env.ip_tunnel_timeout, p⟩

/-- The method `IPTunnelTimer::Dispatch` (IPTunnel.cc lines 216-234). -/
def IPTunnelTimer.Dispatch (env : Env) (w : World) (self : IPTunnelTimer) (t : Int)
    (is_expire : Bool) : World :=
  match w.ip_tunnels.find self.tunnel_idx with
  | none => w
  | some it =>
    let last_active := it.2
    let inactive_time := if t > last_active then binary64.sub t last_active else 0
    if inactive_time ≥ env.ip_tunnel_timeout then
      -- tunnel activity timed out, delete it from map
      { w with ip_tunnels := w.ip_tunnels.erase self.tunnel_idx }
    else if ! is_expire then
      -- tunnel activity did not time out, schedule another timer
      w.addTimer (IPTunnelTimer.create env t self.tunnel_idx)
    else
      w

/-- The timestamp built from `run_state::network_time` when no outer packet is
given (IPTunnel.cc lines 138-140 and 184-186). -/
def timevalOfNetworkTime (network_time : Int) : pkt_timeval :=
  let tv_sec := binary64.toInt network_time
  let tv_usec := binary64.toInt
    (binary64.mul (binary64.sub network_time (binary64.ofInt tv_sec)) (binary64.ofInt 1000000))
  ⟨tv_sec, tv_usec⟩

/-- The overload of `IPTunnelAnalyzer::ProcessEncapsulatedPacket` for an inner
IP header (IPTunnel.cc lines 124-167). -/
def IPTunnelAnalyzer.ProcessEncapsulatedPacket (env : Env) (w : World) (_t : Int)
    (pkt : Option Packet) (inner : IP_Hdr) (prev : Option EncapsulationStack)
    (ec : EncapsulatingConn) : Bool × World :=
  let len := inner.TotalLen % 2 ^ 32
  let caplen := len
  let ts : pkt_timeval :=
    match pkt with
    | some pkt => pkt.ts
    | none => timevalOfNetworkTime w.network_time
  let data := if inner.ip4 then inner.hdr else inner.hdr
  let outer : EncapsulationStack :=
    match prev with
    | some prev => prev
    | none => []
  let outer := outer.Add ec
  -- Construct fake packet for DoNextPacket
  let p := Packet.fresh.Init DLT_RAW ts caplen len (some data) false ""
  let p := { p with key_store := { p.key_store with encap := some outer } }
  let p := { p with key_store := { p.key_store with encap_inner_ip := some inner } }
  -- Forward the packet back to the IP analyzer.
  let return_val := env.ForwardPacket len data p
  (return_val, w.call (PipelineCall.ForwardPacket len data p))

/-- The overload of `IPTunnelAnalyzer::ProcessEncapsulatedPacket` for a payload
with a link-layer header (IPTunnel.cc lines 172-205). -/
def IPTunnelAnalyzer.ProcessEncapsulatedPacketL2 (env : Env) (w : World) (_t : Int)
    (pkt : Option Packet) (caplen len : Nat) (data : List Nat) (link_type : Int)
    (prev : Option EncapsulationStack) (ec : EncapsulatingConn) : Bool × World :=
  let ts : pkt_timeval :=
    match pkt with
    | some pkt => pkt.ts
    | none => timevalOfNetworkTime w.network_time
  let outer : EncapsulationStack :=
    match prev with
    | some prev => prev
    | none => []
  let outer := outer.Add ec
  -- Construct fake packet for DoNextPacket
  let p := Packet.fresh.Init link_type ts caplen len (some data) false ""
  let p := { p with key_store := { p.key_store with encap := some outer } }
  -- Process the packet as if it was a brand new packet by passing it back
  -- to the packet manager.
  let return_val := env.ProcessInnerPacket p
  (return_val, w.call (PipelineCall.ProcessInnerPacket p))

/-- The key of `ip_tunnels` for an outer header (IPTunnel.cc lines 93-97). -/
def IPTunnelAnalyzer.tunnel_idx (ip_hdr : IP_Hdr) : IPPair :=
  if ip_hdr.SrcAddr < ip_hdr.DstAddr then
    (ip_hdr.SrcAddr, ip_hdr.DstAddr)
  else
    (ip_hdr.DstAddr, ip_hdr.SrcAddr)

/-- The lookup and update of `ip_tunnels` in `IPTunnelAnalyzer::AnalyzePacket`
(IPTunnel.cc lines 99-109). -/
def IPTunnelAnalyzer.touch (env : Env) (w : World) (ip_hdr : IP_Hdr)
    (tunnel_type : TunnelType) : World :=
  let tunnel_idx := IPTunnelAnalyzer.tunnel_idx ip_hdr
  match w.ip_tunnels.find tunnel_idx with
  | none =>
    let ec : EncapsulatingConn := ⟨ip_hdr.SrcAddr, ip_hdr.DstAddr, tunnel_type, w.uid_counter⟩
    let w := { w with uid_counter := w.uid_counter + 1 }
    let w := { w with ip_tunnels := w.ip_tunnels.assign tunnel_idx (ec, w.network_time) }
    w.addTimer (IPTunnelTimer.create env w.network_time tunnel_idx)
  | some tunnel_it =>
    { w with ip_tunnels := w.ip_tunnels.assign tunnel_idx (tunnel_it.1, w.network_time) }

/-- The expression `ip_tunnels[tunnel_idx].first`; `operator[]` yields a
default-constructed value for an absent key. -/
def IPTunnelMap.first (m : IPTunnelMap) (k : IPPair) : EncapsulatingConn :=
  match m.find k with
  | some e => e.1
  | none => ⟨0, 0, TunnelType.NONE, 0⟩

/-- The weird, if any, for a result of `ParseIPPacket` (IPTunnel.cc lines 76-81). -/
def IPTunnelAnalyzer.reportInner (w : World) (result : Int) : World :=
  if result = -2 then w.Weird "invalid_inner_IP_version" ""
  else if result < 0 then w.Weird "truncated_inner_IP" ""
  else if result > 0 then w.Weird "inner_IP_payload_length_mismatch" ""
  else w

/-- The tunnel type `IPTunnelAnalyzer::AnalyzePacket` reads from a key store,
`Tunnel::IP` when the key is absent (IPTunnel.cc lines 47-50). -/
def KeyStore.tunnelTypeOrIP (ks : KeyStore) : TunnelType :=
  match ks.tunnel_type with
  | some v => v
  | none => TunnelType.IP

/-- The method `IPTunnelAnalyzer::AnalyzePacket` (IPTunnel.cc lines 21-119). -/
def IPTunnelAnalyzer.AnalyzePacket (env : Env) (w : World) (len : Nat) (data : List Nat)
    (packet : Packet) : Bool × World :=
  let encapsulation := packet.key_store.encap
  match packet.key_store.ip_hdr with
  | none =>
    (false, w.InternalError "IPTunnelAnalyzer: ip_hdr not found in packet keystore")
  | some ip_hdr =>
    let proto : Int := match packet.key_store.proto with
      | some v => v
      | none => -1
    let gre_version : Int := match packet.key_store.gre_version with
      | some v => v
      | none => -1
    let tunnel_type : TunnelType := packet.key_store.tunnelTypeOrIP
    let gre_link_type : Int := match packet.key_store.gre_link_type with
      | some v => v
      | none => DLT_RAW
    if ! env.enable_ip then
      (false, w.Weird "IP_tunnel" "")
    else if encapsulation.isSome ∧ (encapsulation.getD []).Depth ≥ env.max_depth then
      (false, w.Weird "exceeded_tunnel_max_depth" "")
    else if gre_version ≠ 0 then
      -- Check for a valid inner packet first.
      let (result, inner) := env.ParseIPPacket len data proto
      let w := IPTunnelAnalyzer.reportInner w result
      if result ≠ 0 then
        (false, w)
      else
        let w := IPTunnelAnalyzer.touch env w ip_hdr tunnel_type
        let r := IPTunnelAnalyzer.ProcessEncapsulatedPacket env w w.processing_start_time
          (some packet) inner encapsulation
          (w.ip_tunnels.first (IPTunnelAnalyzer.tunnel_idx ip_hdr))
        (true, r.2)
    else
      let w := IPTunnelAnalyzer.touch env w ip_hdr tunnel_type
      let r := IPTunnelAnalyzer.ProcessEncapsulatedPacketL2 env w w.processing_start_time
        (some packet) (len % 2 ^ 32) (len % 2 ^ 32) data gre_link_type encapsulation
        (w.ip_tunnels.first (IPTunnelAnalyzer.tunnel_idx ip_hdr))
      (true, r.2)

/-! ## The VXLAN analyzer (VXLAN.cc) -/

/-- The parts of a `Connection` that `VXLAN_Analyzer::DeliverPacket` uses: the
endpoints and UID from which `EncapsulatingConn(Conn(), type)` is built, and the
stack behind `Conn()->GetEncapsulation()` (`none` is a null pointer). The
getter hands out the stack of the connection itself, not a copy: the analyzer
frees only a stack it allocated (`delete_outer`). -/
structure Connection where
  orig_addr : IPAddr
  resp_addr : IPAddr
  uid : Nat
  encapsulation : Option EncapsulationStack
deriving DecidableEq

/-- The script-level constant, the presence of a `vxlan_packet` event handler,
and the result oracles of the collaborators of the VXLAN analyzer:
`packet_mgr->ProcessPacket` yields the packet as the pipeline leaves it. -/
structure VXLANEnv where
  max_depth : Nat
  vxlan_packet : Bool
  ProcessPacket : Packet → Packet
  ParseIPPacket : Int → List Nat → Int → Int × IP_Hdr

/-- The state around the VXLAN analyzer: its connection, the clock, and the
logs of protocol violations, protocol confirmations, reporter weirds, packets
handed to `packet_mgr->ProcessPacket`, and `vxlan_packet` events (inner header
and VNI). -/
structure VXLANWorld where
  conn : Connection
  current_timestamp : Int
  violations : List String
  confirmations : Nat
  weirds : List String
  processed : List Packet
  events : List (IP_Hdr × Nat)
deriving DecidableEq

/-- Record a `ProtocolViolation` call. -/
def VXLANWorld.ProtocolViolation (w : VXLANWorld) (reason : String) : VXLANWorld :=
  { w with violations := w.violations ++ [reason] }

/-- Record a `reporter->Weird(Conn(), name)` call. -/
def VXLANWorld.Weird (w : VXLANWorld) (name : String) : VXLANWorld :=
  { w with weirds := w.weirds ++ [name] }

/-- The conversion of an `int` argument to a `uint32_t` parameter. -/
def toUInt32 (x : Int) : Nat := (x % 2 ^ 32).toNat

/-- The expression `(data[4] << 16) + (data[5] << 8) + (data[6] << 0)`
(VXLAN.cc line 69). -/
def vxlan_vni (data : List Nat) : Nat :=
  (byteAt data 4 <<< 16) + (byteAt data 5 <<< 8) + (byteAt data 6 <<< 0)

/-- The tail of `VXLAN_Analyzer::DeliverPacket` after the inner packet went
through the pipeline (VXLAN.cc lines 83-130); `data`, `len` and `caplen` are
already past the VXLAN header. -/
def VXLAN_Analyzer.afterInner (env : VXLANEnv) (w : VXLANWorld) (pkt : Packet)
    (len : Int) (data : List Nat) (vni : Nat) : VXLANWorld :=
  if ! pkt.l2_valid then
    w.ProtocolViolation "VXLAN invalid inner ethernet frame"
  else
    let data := data.drop pkt.hdr_size
    let len := len - pkt.hdr_size
    let parsed : Option (Int × IP_Hdr) :=
      match pkt.l3_proto with
      | Layer3Proto.L3_IPV4 => some (env.ParseIPPacket len data IPPROTO_IPV4)
      | Layer3Proto.L3_IPV6 => some (env.ParseIPPacket len data IPPROTO_IPV6)
      | _ => none
    match parsed with
    | none => w
    | some (res, inner_hdr) =>
      if res < 0 then
        w.ProtocolViolation "Truncated VXLAN or invalid inner IP"
      else
        let w := { w with confirmations := w.confirmations + 1 }
        if env.vxlan_packet then
          { w with events := w.events ++ [(inner_hdr, vni)] }
        else
          w

/-- The method `VXLAN_Analyzer::DeliverPacket` (VXLAN.cc lines 29-130). -/
def VXLAN_Analyzer.DeliverPacket (env : VXLANEnv) (w : VXLANWorld) (len : Int)
    (data : List Nat) (caplen : Int) : VXLANWorld :=
  -- Outer Ethernet, IP, and UDP layers already skipped.
  -- Also, generic UDP analyzer already checked/guarantees caplen >= len.
  let vxlan_len : Int := 8
  if len < vxlan_len then
    w.ProtocolViolation "VXLAN header truncation"
  else if byteAt data 0 &&& 0x08 = 0 then
    w.ProtocolViolation "VXLAN 'I' flag not set"
  else
    let outer := w.conn.encapsulation
    if outer.isSome ∧ (outer.getD []).Depth ≥ env.max_depth then
      w.Weird "tunnel_depth"
    else
      let inner : EncapsulatingConn :=
        ⟨w.conn.orig_addr, w.conn.resp_addr, TunnelType.VXLAN, w.conn.uid⟩
      -- `outer->Add(inner)`: with a stack of the connection, `outer` points to
      -- that stack, so the hop is added to it; otherwise to a new stack
      let stack : EncapsulationStack :=
        match outer with
        | some s => s.Add inner
        | none => EncapsulationStack.Add [] inner
      let w : VXLANWorld :=
        match outer with
        | some _ => { w with conn := { w.conn with encapsulation := some stack } }
        | none => w
      let vni := vxlan_vni data
      -- Skip over the VXLAN header and create a new packet.
      let data := data.drop 8
      let caplen := caplen - vxlan_len
      let len := len - vxlan_len
      let ts := timevalOfNetworkTime w.current_timestamp
      let pkt := Packet.fresh.Init DLT_EN10MB ts (toUInt32 caplen) (toUInt32 len) (some data)
        false ""
      let pkt := { pkt with key_store := { pkt.key_store with encap := some stack } }
      let w := { w with processed := w.processed ++ [pkt] }
      let pkt := env.ProcessPacket pkt
      VXLAN_Analyzer.afterInner env w pkt len data vni

/-! ## The fragment reassembler (Frag.h) -/

/-- Modelled from the spec: the body of `FragReassembler::AddFragment` is not
among the sources, which hold the declarations of `Frag.h` only. This is a
fragment as `AddFragment` reads it from `ip` and `pkt`: the offset of its
payload, the payload bytes, the more-fragments flag and the protocol header
prefix. -/
structure Fragment where
  offset : Nat
  payload : List Nat
  more_fragments : Bool
  proto_hdr : List Nat
deriving DecidableEq

/-- Modelled from the spec: a block of the offset-ordered block map, the bytes
stored for the range `[seq, seq + length)`. -/
structure DataBlock where
  seq : Nat
  block : List Nat
deriving DecidableEq

/-- The end of the range of a block. -/
def DataBlock.upper (b : DataBlock) : Nat := b.seq + b.block.length

/-- Modelled from the spec: the reassembled datagram, the captured header and
the contiguous payload. -/
structure ReassembledPkt where
  hdr : List Nat
  payload : List Nat
deriving DecidableEq

/-- Modelled from the spec: the state of a `FragReassembler`, with the members
of `Frag.h` the contract of `AddFragment` speaks of. `frag_size` is unknown
until the last fragment arrives, `reassembled_pkt` is filled only on
completion, `expire_timer` tells whether the expiry timer is still scheduled. -/
structure FragReassembler where
  proto_hdr : Option (List Nat)
  reassembled_pkt : Option ReassembledPkt
  frag_size : Option Nat
  block_list : List DataBlock
  expire_timer : Bool
  weirds : List Weird
deriving DecidableEq

/-- Modelled from the spec: a reassembler as `FragmentManager::NextFragment`
creates it, with no block, an unknown size and its expiry timer scheduled. -/
def FragReassembler.fresh : FragReassembler :=
  { proto_hdr := none, reassembled_pkt := none, frag_size := none, block_list := [],
    expire_timer := true, weirds := [] }

/-- Modelled from the spec: `FragReassembler::Weird` hands the anomaly to the
reporter; the call is recorded. -/
def FragReassembler.Weird (r : FragReassembler) (name : String) : FragReassembler :=
  { r with weirds := r.weirds ++ [⟨name, ""⟩] }

/-- Modelled from the spec: the test of the `Overlap` hook, whether the bytes
that an incoming range `[seq, seq + length)` shares with a stored block differ
from the stored ones. -/
def DataBlock.differs (b : DataBlock) (seq : Nat) (data : List Nat) : Bool :=
  let lo := max b.seq seq
  let hi := min b.upper (seq + data.length)
  decide (lo < hi) &&
    decide ((b.block.drop (lo - b.seq)).take (hi - lo) ≠ (data.drop (lo - seq)).take (hi - lo))

/-- Modelled from the spec: insertion of a payload into the offset-ordered
block map. Bytes of a range that is already stored are kept as they are (the
first writer wins); only the parts of the incoming payload that fall into holes
are stored. -/
def DataBlock.insert : List DataBlock → Nat → List Nat → List DataBlock
  | [], seq, data => if data = [] then [] else [⟨seq, data⟩]
  | b :: bs, seq, data =>
    if data = [] then
      b :: bs
    else if seq + data.length ≤ b.seq then
      ⟨seq, data⟩ :: b :: bs
    else if b.upper ≤ seq then
      b :: DataBlock.insert bs seq data
    else
      let before := data.take (b.seq - seq)
      let after := data.drop (b.upper - seq)
      (if before = [] then [] else [⟨seq, before⟩]) ++
        b :: DataBlock.insert bs (max b.upper seq) after

/-- Modelled from the spec: whether the union of the stored ranges, read from
`pos` on, is exactly `[pos, n)`. -/
def DataBlock.covers : List DataBlock → Nat → Nat → Bool
  | [], pos, n => decide (pos = n)
  | b :: bs, pos, n => decide (b.seq = pos) && DataBlock.covers bs b.upper n

/-- The stored bytes in offset order. -/
def DataBlock.contents (bs : List DataBlock) : List Nat :=
  (bs.map (fun b => b.block)).flatten

/-- Modelled from the spec: the completion check made on insertion. A
reassembler is complete iff `frag_size` is known and the union of the stored
ranges is exactly `[0, frag_size)`; on completion `reassembled_pkt` is
materialised from the captured header and the contiguous payload and the expiry
timer is cancelled. -/
def FragReassembler.BlockInserted (r : FragReassembler) : FragReassembler :=
  match r.frag_size with
  | none => r
  | some n =>
    if DataBlock.covers r.block_list 0 n then
      { r with
        reassembled_pkt := some ⟨r.proto_hdr.getD [], DataBlock.contents r.block_list⟩
        expire_timer := false }
    else
      r

/-- Modelled from the spec: the contract of `FragReassembler::AddFragment`,
step by step. The fragment at offset 0 gives the header of the reassembled
packet; the fragment with the more-fragments flag clear gives `frag_size`; an
overlap whose bytes differ raises `fragment_inconsistency`; the payload goes
into the block map; then the completion check runs. -/
def FragReassembler.AddFragment (r : FragReassembler) (f : Fragment) : FragReassembler :=
  let r := if f.offset = 0 then { r with proto_hdr := some f.proto_hdr } else r
  let r := if ! f.more_fragments then
      { r with frag_size := some (f.offset + f.payload.length) }
    else r
  let r := if r.block_list.any (fun b => b.differs f.offset f.payload) then
      r.Weird "fragment_inconsistency"
    else r
  let r := { r with block_list := DataBlock.insert r.block_list f.offset f.payload }
  r.BlockInserted

/-- The block that a fragment stores when its range is free. -/
def Fragment.toBlock (f : Fragment) : DataBlock := ⟨f.offset, f.payload⟩

/-- Fragments listed in offset order whose payload ranges tile `[pos, n)`:
each range is not empty and starts where the one before ends, the last one
ends at `n`, and the more-fragments flag is clear on the fragment that ends at
`n` and on no other. -/
def Fragment.tiles : List Fragment → Nat → Nat → Bool
  | [], pos, n => decide (pos = n)
  | f :: fs, pos, n =>
    decide (f.offset = pos) && decide (f.payload ≠ []) &&
      decide (f.more_fragments = false ↔ f.offset + f.payload.length = n) &&
      Fragment.tiles fs (pos + f.payload.length) n

/-- Two blocks whose ranges do not meet. -/
def DataBlock.Apart (a b : DataBlock) : Prop := a.upper ≤ b.seq ∨ b.upper ≤ a.seq

/-- The strict order of blocks by offset. -/
def DataBlock.Before (a b : DataBlock) : Prop := a.seq < b.seq

/-! ## The state machine of the tunnel map and its timers -/

/-- The clocks move on between two packets. -/
def World.advance (w : World) (network_time processing_start_time : Int) : World :=
  { w with network_time := network_time, processing_start_time := processing_start_time }

/-- The number of pending timers that watch a pair. -/
def World.pendingFor (w : World) (k : IPPair) : Nat :=
  w.timers.countP (fun t => decide (t.tunnel_idx = k))

/-- Modelled from the spec: the timer manager is not among the sources. It
fires a pending timer between two packets: it takes the timer out of its queue
and calls `Dispatch(t, false)` on it. -/
def World.fire (env : Env) (w : World) (timer : IPTunnelTimer) (t : Int) : World :=
  IPTunnelTimer.Dispatch env { w with timers := w.timers.erase timer } timer t false

/-- The states of the IP tunnel analyzer reachable from an empty map with no
pending tunnel timer: by a call of `IPTunnelAnalyzer::AnalyzePacket` (accepted
or not), by the clocks moving on, and by the firing of a pending timer. -/
inductive IPTunnelReachable (env : Env) : World → Prop where
  | init (w : World) (hm : w.ip_tunnels = []) (ht : w.timers = []) : IPTunnelReachable env w
  | packet (w : World) (len : Nat) (data : List Nat) (packet : Packet)
      (h : IPTunnelReachable env w) :
      IPTunnelReachable env (IPTunnelAnalyzer.AnalyzePacket env w len data packet).2
  | clock (w : World) (network_time processing_start_time : Int)
      (h : IPTunnelReachable env w) :
      IPTunnelReachable env (w.advance network_time processing_start_time)
  | fire (w : World) (timer : IPTunnelTimer) (t : Int) (h : IPTunnelReachable env w)
      (hm : timer ∈ w.timers) : IPTunnelReachable env (w.fire env timer t)

/-- The invariant of the tunnel map and its timers: every pair has as many
pending timers as entries in `ip_tunnels`, and at most one entry. -/
def World.TimerInvariant (w : World) : Prop :=
  ∀ k, w.pendingFor k = w.ip_tunnels.count k ∧ w.ip_tunnels.count k ≤ 1

/-- One step of the state machine of the tunnel map: a call of
`IPTunnelAnalyzer::AnalyzePacket` (accepted or not), the clocks moving on, or
the firing of a pending timer. -/
inductive IPTunnelStep (env : Env) : World → World → Prop where
  | packet (w : World) (len : Nat) (data : List Nat) (packet : Packet) :
      IPTunnelStep env w (IPTunnelAnalyzer.AnalyzePacket env w len data packet).2
  | clock (w : World) (network_time processing_start_time : Int) :
      IPTunnelStep env w (w.advance network_time processing_start_time)
  | fire (w : World) (timer : IPTunnelTimer) (t : Int) (hm : timer ∈ w.timers) :
      IPTunnelStep env w (w.fire env timer t)

/-- The runs of the state machine along which the entry of the pair `k` stays
in `ip_tunnels`: the entry is there in the first state and after every step. -/
inductive IPTunnelAlive (env : Env) (k : IPPair) : World → World → Prop where
  | refl (w : World) (h : (w.ip_tunnels.find k).isSome = true) : IPTunnelAlive env k w w
  | step (w w1 w2 : World) (h : IPTunnelAlive env k w w1) (hs : IPTunnelStep env w1 w2)
      (ha : (w2.ip_tunnels.find k).isSome = true) : IPTunnelAlive env k w w2

/-! ## Sample inputs -/

/-- The packet a call hands to the pipeline. -/
def PipelineCall.packet : PipelineCall → Packet
  | PipelineCall.ForwardPacket _ _ p => p
  | PipelineCall.ProcessInnerPacket p => p

/-- An environment with the default limits (depth 2, timeout 24 hours) whose
oracles accept everything. -/
def sampleEnv : Env :=
  { enable_ip := true, enable_gre := true, max_depth := 2,
    ip_tunnel_timeout := binary64.ofInt 86400,
    ParseIPPacket := fun len data _ => (0, ⟨167772163, 167772164, len, true, data⟩),
    ForwardPacket := fun _ _ _ => true,
    ProcessInnerPacket := fun _ => true }

/-- A world with no tunnels, no timers and empty logs, at time 1000 (times of
the sample worlds are small multiples of `2^-1074` s). -/
def sampleWorld : World :=
  { ip_tunnels := [], timers := [], network_time := 1000, processing_start_time := 1000,
    uid_counter := 0, weirds := [], internal_errors := [], calls := [], reads := [] }

/-- An outer IPv4 header from 10.0.0.1 to 10.0.0.2. -/
def sampleHdr : IP_Hdr := ⟨167772161, 167772162, 60, true, []⟩

/-- The reverse direction of `sampleHdr`. -/
def sampleHdrRev : IP_Hdr := ⟨167772162, 167772161, 60, true, []⟩

/-- A packet whose key store holds only an outer IP header. -/
def samplePacket (h : IP_Hdr) : Packet :=
  { Packet.fresh with key_store := { KeyStore.empty with ip_hdr := some h } }

/-- A packet as the IP analyzer hands it to the GRE analyzer: the outer header
and `proto = 47` (GRE) in the key store. -/
def grePacket : Packet :=
  { Packet.fresh with key_store := { KeyStore.empty with ip_hdr := some sampleHdr, proto := some 47 } }

/-- A GRE version 0 header with no optional fields and protocol type 0x0800,
followed by 20 payload bytes. -/
def greV0Data : List Nat := [0x00, 0x00, 0x08, 0x00] ++ List.replicate 20 0x45

/-- A GRE version 1 header with protocol type 0x880b and a PPP header naming
IPv4 (0x0021), followed by 20 payload bytes. -/
def greV1Data : List Nat :=
  [0x00, 0x01, 0x88, 0x0b, 0xff, 0x03, 0x00, 0x21] ++ List.replicate 20 0x45

/-- A GRE version 1 header with protocol type 0x880b and the routing bit set,
followed by a PPP header naming protocol 0. -/
def greV1RoutingData : List Nat := [0x40, 0x01, 0x88, 0x0b, 0x00, 0x00, 0x00, 0x00]

/-- A GRE version 0 header with protocol type 0x6558 (transparent Ethernet
bridging), a 14-byte Ethernet header with ethertype 0x0800 and 20 payload
bytes. -/
def greTEBData : List Nat :=
  [0x00, 0x00, 0x65, 0x58] ++ List.replicate 12 0x02 ++ [0x08, 0x00] ++ List.replicate 20 0x45

/-- A GRE version 0 header with the checksum and routing bits set and protocol
type 0x0800, cut off after its first 4 bytes. -/
def greRoutingShortData : List Nat := [0xC0, 0x00, 0x08, 0x00]

/-- A transparent Ethernet bridging packet cut off inside the Ethernet header:
the 4-byte GRE header and 10 further bytes. -/
def greTEBShortData : List Nat := [0x00, 0x00, 0x65, 0x58] ++ List.replicate 10 0x02

/-- A GRE hop between 10.0.0.1 and 10.0.0.2. -/
def sampleHop : EncapsulatingConn := ⟨167772161, 167772162, TunnelType.GRE, 7⟩

/-- A packet with an outer IP header that already carries two tunnel hops. -/
def deepPacket : Packet :=
  { Packet.fresh with key_store :=
    { KeyStore.empty with ip_hdr := some sampleHdr, encap := some [sampleHop, sampleHop] } }

/-- An environment of the VXLAN analyzer with depth limit 2 and an event
handler, whose pipeline validates the inner frame as IPv4 behind a 14-byte
Ethernet header and whose IP parser accepts everything. -/
def vxlanEnv : VXLANEnv :=
  { max_depth := 2, vxlan_packet := true,
    ProcessPacket := fun p =>
      { p with l2_valid := true, hdr_size := 14, l3_proto := Layer3Proto.L3_IPV4 },
    ParseIPPacket := fun len data _ => (0, ⟨167772163, 167772164, len.toNat, true, data⟩) }

/-- A UDP connection from 10.0.0.1 to 10.0.0.2 with the given encapsulation. -/
def vxlanConn (encap : Option EncapsulationStack) : Connection :=
  ⟨167772161, 167772162, 42, encap⟩

/-- A world of the VXLAN analyzer with empty logs, at time 1000. -/
def vxlanWorld (encap : Option EncapsulationStack) : VXLANWorld :=
  { conn := vxlanConn encap, current_timestamp := 1000, violations := [], confirmations := 0,
    weirds := [], processed := [], events := [] }

/-- A VXLAN header with the I flag set and VNI 0x123456, followed by 34 bytes
of inner frame. -/
def vxlanData : List Nat :=
  [0x08, 0x00, 0x00, 0x00, 0x12, 0x34, 0x56, 0x00] ++ List.replicate 34 0x45

/-- The environment `sampleEnv` with an IP parser that returns the given
result code. -/
def parseResultEnv (r : Int) : Env :=
  { sampleEnv with ParseIPPacket := fun len data _ => (r, ⟨167772163, 167772164, len, true, data⟩) }

/-- A packet as the GRE analyzer leaves it for a transparent Ethernet bridging
payload: outer header, `gre_version = 0` and `gre_link_type = DLT_EN10MB`. -/
def tebPacket : Packet :=
  { Packet.fresh with key_store :=
    { KeyStore.empty with
      ip_hdr := some sampleHdr, proto := some (-1), tunnel_type := some TunnelType.GRE,
      gre_version := some 0, gre_link_type := some DLT_EN10MB } }

/-- A GRE version 0 header with the sequence bit set (8 bytes) and protocol
type 0x22eb, a 12-byte ERSPAN-III header whose last byte has the low bit set,
the 8-byte subheader, a 14-byte Ethernet header with ethertype 0x0800 and 20
payload bytes. -/
def greERSPAN3Data : List Nat :=
  [0x10, 0x00, 0x22, 0xeb] ++ List.replicate 4 0x00 ++ List.replicate 11 0x00 ++ [0x01]
    ++ List.replicate 8 0x00 ++ List.replicate 12 0x02 ++ [0x08, 0x00]
    ++ List.replicate 20 0x45

/-- A packet in the reverse direction of `sampleHdr` whose key store names GRE
as the tunnel type. -/
def revGrePacket : Packet :=
  { Packet.fresh with
    key_store := { KeyStore.empty with
      ip_hdr := some sampleHdrRev, tunnel_type := some TunnelType.GRE } }

/-- The two fragments of the simple IPv4 fragmentation scenario, scaled down:
payload ranges `[0, 8)` and `[8, 12)`. -/
def fragA : Fragment := ⟨0, [1, 2, 3, 4, 5, 6, 7, 8], true, [69, 0]⟩

def fragB : Fragment := ⟨8, [9, 10, 11, 12], false, [69, 0]⟩

/-- A fragment that overlaps `fragA` on `[4, 8)` with other bytes and goes on
to 12. -/
def fragOverlap : Fragment := ⟨4, [0, 0, 0, 0, 9, 10, 11, 12], false, [69, 0]⟩

/-- The double nearest to `k / 10`, the value of the C++ literals 0.1, 0.2,
0.3 and 0.5. -/
def tenths (k : Int) : Int := binary64.div (binary64.ofInt k) (binary64.ofInt 10)

/-- A world whose tunnel map holds the pair (1, 2) with the given last-active
time. -/
def activeWorld (last_active : Int) : World :=
  { sampleWorld with ip_tunnels := [((1, 2), (⟨1, 2, TunnelType.IP, 0⟩, last_active))] }

/-! ## Lemmas on the tunnel map -/

theorem IPTunnelMap.find_nil (k : IPPair) : IPTunnelMap.find [] k = none := rfl

theorem IPTunnelMap.find_cons (k k' : IPPair) (v : TunnelActivity) (m : IPTunnelMap) :
    IPTunnelMap.find ((k', v) :: m) k = if k = k' then some v else IPTunnelMap.find m k := by
  unfold IPTunnelMap.find
  rw [List.lookup_cons]
  by_cases h : k = k'
  · simp [h]
  · have : (k == k') = false := by simpa using h
    simp [this, h]

theorem IPTunnelMap.find_assign_self (m : IPTunnelMap) (k : IPPair) (v : TunnelActivity) :
    IPTunnelMap.find (IPTunnelMap.assign m k v) k = some v := by
  induction m with
  | nil => simp [IPTunnelMap.assign, IPTunnelMap.find_cons]
  | cons e m ih =>
    obtain ⟨k', v'⟩ := e
    unfold IPTunnelMap.assign
    by_cases h : k' = k
    · simp [h, IPTunnelMap.find_cons]
    · have h' : ¬ k = k' := fun e => h e.symm
      simp [h, h', IPTunnelMap.find_cons, ih]

theorem IPTunnelMap.count_eq_zero_of_find_none (m : IPTunnelMap) (k : IPPair)
    (h : IPTunnelMap.find m k = none) : IPTunnelMap.count m k = 0 := by
  induction m with
  | nil => rfl
  | cons e m ih =>
    obtain ⟨k', v'⟩ := e
    rw [IPTunnelMap.find_cons] at h
    by_cases hk : k = k'
    · simp [hk] at h
    · simp only [hk, if_false] at h
      have h' : ¬ k' = k := fun e => hk e.symm
      have := ih h
      unfold IPTunnelMap.count at this ⊢
      simp [List.filter_cons, h', this]

theorem IPTunnelMap.count_assign_of_find_none (m : IPTunnelMap) (k : IPPair)
    (v : TunnelActivity) (h : IPTunnelMap.find m k = none) :
    IPTunnelMap.count (IPTunnelMap.assign m k v) k = 1 := by
  induction m with
  | nil => simp [IPTunnelMap.assign, IPTunnelMap.count]
  | cons e m ih =>
    obtain ⟨k', v'⟩ := e
    rw [IPTunnelMap.find_cons] at h
    by_cases hk : k = k'
    · simp [hk] at h
    · simp only [hk, if_false] at h
      have h' : ¬ k' = k := fun e => hk e.symm
      have := ih h
      unfold IPTunnelMap.count at this ⊢
      unfold IPTunnelMap.assign
      simp [List.filter_cons, h', this]

theorem IPTunnelMap.count_assign_of_find_some (m : IPTunnelMap) (k : IPPair)
    (v v0 : TunnelActivity) (h : IPTunnelMap.find m k = some v0) :
    IPTunnelMap.count (IPTunnelMap.assign m k v) k = IPTunnelMap.count m k := by
  induction m with
  | nil => simp [IPTunnelMap.find_nil] at h
  | cons e m ih =>
    obtain ⟨k', v'⟩ := e
    rw [IPTunnelMap.find_cons] at h
    by_cases hk : k = k'
    · subst hk
      unfold IPTunnelMap.assign IPTunnelMap.count
      simp [List.filter_cons]
    · simp only [hk, if_false] at h
      have h' : ¬ k' = k := fun e => hk e.symm
      have := ih h
      unfold IPTunnelMap.count at this ⊢
      unfold IPTunnelMap.assign
      simp [List.filter_cons, h', this]

theorem IPTunnelMap.find_erase_self (m : IPTunnelMap) (k : IPPair) :
    IPTunnelMap.find (IPTunnelMap.erase m k) k = none := by
  induction m with
  | nil => rfl
  | cons e m ih =>
    obtain ⟨k', v'⟩ := e
    unfold IPTunnelMap.erase at ih ⊢
    by_cases hk : k' = k
    · simpa [List.filter_cons, hk] using ih
    · have h' : ¬ k = k' := fun e => hk e.symm
      simpa [List.filter_cons, hk, IPTunnelMap.find_cons, h'] using ih

/-! ## Rounding of doubles -/

theorem land_land_const (f a b c : Nat) (h : a &&& b = c) : (f &&& a) &&& b = f &&& c := by
  rw [Nat.and_assoc, h]

theorem xor_land_const (f m a b : Nat) (h : a &&& b = 0) :
    (f ^^^ (m &&& a)) &&& b = f &&& b := by
  rw [Nat.and_xor_distrib_right, Nat.and_assoc, h]
  simp

/-! ## The GRE header length -/

/-- C6: the GRE header length is 4 plus 4 for each of the checksum (0x8000),
key (0x2000), sequence (0x1000) and acknowledgement (0x0080) bits that is set;
clearing or flipping any other bit of the flags word (the routing bit 0x4000
and the version bits among them) leaves it unchanged; and it is one of
4, 8, 12, 16, 20. -/
theorem gre_header_len_spec (f : Nat) :
    gre_header_len f
        = 4 + 4 * (if f &&& 0x8000 ≠ 0 then 1 else 0) + 4 * (if f &&& 0x2000 ≠ 0 then 1 else 0)
            + 4 * (if f &&& 0x1000 ≠ 0 then 1 else 0) + 4 * (if f &&& 0x0080 ≠ 0 then 1 else 0)
      ∧ gre_header_len (f &&& 0xB080) = gre_header_len f
      ∧ (∀ m : Nat, gre_header_len (f ^^^ (m &&& 0x4F7F)) = gre_header_len f)
      ∧ gre_header_len (f ^^^ 0x4000) = gre_header_len f
      ∧ gre_header_len f ∈ [4, 8, 12, 16, 20] := by
  refine ⟨?_, ?_, ?_, ?_, ?_⟩
  · unfold gre_header_len
    by_cases h1 : f &&& 0x8000 = 0 <;> by_cases h2 : f &&& 0x2000 = 0 <;>
      by_cases h3 : f &&& 0x1000 = 0 <;> by_cases h4 : f &&& 0x0080 = 0 <;>
      simp [h1, h2, h3, h4]
  · unfold gre_header_len
    rw [land_land_const f 0xB080 0x8000 0x8000 (by decide),
      land_land_const f 0xB080 0x2000 0x2000 (by decide),
      land_land_const f 0xB080 0x1000 0x1000 (by decide),
      land_land_const f 0xB080 0x0080 0x0080 (by decide)]
  · intro m
    unfold gre_header_len
    rw [xor_land_const f m 0x4F7F 0x8000 (by decide),
      xor_land_const f m 0x4F7F 0x2000 (by decide),
      xor_land_const f m 0x4F7F 0x1000 (by decide),
      xor_land_const f m 0x4F7F 0x0080 (by decide)]
  · have h := xor_land_const f 0x4000 0x4F7F
    have e : (0x4000 &&& 0x4F7F : Nat) = 0x4000 := by decide
    rw [e] at h
    unfold gre_header_len
    rw [h 0x8000 (by decide), h 0x2000 (by decide), h 0x1000 (by decide),
      h 0x0080 (by decide)]
  · unfold gre_header_len
    by_cases h1 : f &&& 0x8000 = 0 <;> by_cases h2 : f &&& 0x2000 = 0 <;>
      by_cases h3 : f &&& 0x1000 = 0 <;> by_cases h4 : f &&& 0x0080 = 0 <;>
      simp [h1, h2, h3, h4]

/-! ## The IP tunnel analyzer -/

theorem depth_guard (e : Option EncapsulationStack) (n : Nat)
    (hd : ¬ (e.isSome = true ∧ (e.getD []).Depth ≥ n)) :
    ∀ s, e = some s → s.Depth < n := by
  intro s hs
  subst hs
  simp at hd
  exact hd

theorem IPTunnelAnalyzer.reportInner_zero (w : World) :
    IPTunnelAnalyzer.reportInner w 0 = w := by
  simp [IPTunnelAnalyzer.reportInner]

theorem IPTunnelAnalyzer.ProcessEncapsulatedPacket_call (env : Env) (w : World) (t : Int)
    (pkt : Option Packet) (inner : IP_Hdr) (prev : Option EncapsulationStack)
    (ec : EncapsulatingConn) :
    ∃ c, (IPTunnelAnalyzer.ProcessEncapsulatedPacket env w t pkt inner prev ec).2 = w.call c ∧
      c.packet.key_store.encap = some ((prev.getD []).Add ec) := by
  unfold IPTunnelAnalyzer.ProcessEncapsulatedPacket
  refine ⟨_, rfl, ?_⟩
  cases prev <;> rfl

theorem IPTunnelAnalyzer.ProcessEncapsulatedPacketL2_call (env : Env) (w : World) (t : Int)
    (pkt : Option Packet) (caplen len : Nat) (data : List Nat) (link_type : Int)
    (prev : Option EncapsulationStack) (ec : EncapsulatingConn) :
    ∃ c, (IPTunnelAnalyzer.ProcessEncapsulatedPacketL2 env w t pkt caplen len data link_type
        prev ec).2 = w.call c ∧
      c.packet.key_store.encap = some ((prev.getD []).Add ec) := by
  unfold IPTunnelAnalyzer.ProcessEncapsulatedPacketL2
  refine ⟨_, rfl, ?_⟩
  cases prev <;> rfl

theorem IPTunnelAnalyzer.accept_shape (env : Env) (w : World) (len : Nat) (data : List Nat)
    (packet : Packet)
    (h : (IPTunnelAnalyzer.AnalyzePacket env w len data packet).1 = true) :
    ∃ hdr c, packet.key_store.ip_hdr = some hdr ∧ env.enable_ip = true ∧
      (∀ s, packet.key_store.encap = some s → s.Depth < env.max_depth) ∧
      (IPTunnelAnalyzer.AnalyzePacket env w len data packet).2
        = (IPTunnelAnalyzer.touch env w hdr packet.key_store.tunnelTypeOrIP).call c ∧
      c.packet.key_store.encap = some ((packet.key_store.encap.getD []).Add
        ((IPTunnelAnalyzer.touch env w hdr packet.key_store.tunnelTypeOrIP).ip_tunnels.first
          (IPTunnelAnalyzer.tunnel_idx hdr))) := by
  unfold IPTunnelAnalyzer.AnalyzePacket at h ⊢
  cases hh : packet.key_store.ip_hdr with
  | none => simp [hh] at h
  | some hdr =>
    by_cases he : env.enable_ip = true
    · by_cases hd : (packet.key_store.encap.isSome = true ∧
          (packet.key_store.encap.getD []).Depth ≥ env.max_depth)
      · simp [hh, he, hd] at h
      · refine ⟨hdr, ?_⟩
        have hguard := depth_guard _ _ hd
        by_cases hg : (match packet.key_store.gre_version with
            | some v => v
            | none => (-1 : Int)) ≠ 0
        · by_cases hr : (env.ParseIPPacket len data (match packet.key_store.proto with
              | some v => v
              | none => (-1 : Int))).1 = 0
          · simp only [hh, he, hd, hg, hr, Bool.not_true, Bool.false_eq_true, if_false, if_true,
              ne_eq, not_true_eq_false, not_false_eq_true,
              IPTunnelAnalyzer.reportInner_zero]
            obtain ⟨c, hc1, hc2⟩ := IPTunnelAnalyzer.ProcessEncapsulatedPacket_call env
              (IPTunnelAnalyzer.touch env w hdr packet.key_store.tunnelTypeOrIP)
              (IPTunnelAnalyzer.touch env w hdr
                packet.key_store.tunnelTypeOrIP).processing_start_time
              (some packet)
              (env.ParseIPPacket len data (match packet.key_store.proto with
                | some v => v
                | none => (-1 : Int))).2
              packet.key_store.encap
              ((IPTunnelAnalyzer.touch env w hdr
                packet.key_store.tunnelTypeOrIP).ip_tunnels.first
                (IPTunnelAnalyzer.tunnel_idx hdr))
            exact ⟨c, trivial, trivial, hguard, hc1, hc2⟩
          · simp [hh, he, hd, hg, hr] at h
        · simp only [hh, he, hd, hg, Bool.not_true, Bool.false_eq_true, if_false, if_true,
              ne_eq, not_true_eq_false, not_false_eq_true]
          obtain ⟨c, hc1, hc2⟩ := IPTunnelAnalyzer.ProcessEncapsulatedPacketL2_call env
              (IPTunnelAnalyzer.touch env w hdr packet.key_store.tunnelTypeOrIP)
              (IPTunnelAnalyzer.touch env w hdr
                packet.key_store.tunnelTypeOrIP).processing_start_time
              (some packet) (len % 2 ^ 32) (len % 2 ^ 32) data
              (match packet.key_store.gre_link_type with
                | some v => v
                | none => DLT_RAW)
              packet.key_store.encap
              ((IPTunnelAnalyzer.touch env w hdr
                packet.key_store.tunnelTypeOrIP).ip_tunnels.first
                (IPTunnelAnalyzer.tunnel_idx hdr))
          exact ⟨c, trivial, trivial, hguard, hc1, hc2⟩
    · simp [hh, he] at h

theorem IPTunnelAnalyzer.touch_absent (env : Env) (w : World) (hdr : IP_Hdr) (tt : TunnelType)
    (h : w.ip_tunnels.find (IPTunnelAnalyzer.tunnel_idx hdr) = none) :
    IPTunnelAnalyzer.touch env w hdr tt =
      { w with
        uid_counter := w.uid_counter + 1
        ip_tunnels := w.ip_tunnels.assign (IPTunnelAnalyzer.tunnel_idx hdr)
          (⟨hdr.SrcAddr, hdr.DstAddr, tt, w.uid_counter⟩, w.network_time)
        timers := w.timers ++
          [⟨binary64.add w.network_time env.ip_tunnel_timeout,
            IPTunnelAnalyzer.tunnel_idx hdr⟩] } := by
  unfold IPTunnelAnalyzer.touch
  simp only [h]
  rfl

theorem IPTunnelAnalyzer.touch_present (env : Env) (w : World) (hdr : IP_Hdr) (tt : TunnelType)
    (e : TunnelActivity)
    (h : w.ip_tunnels.find (IPTunnelAnalyzer.tunnel_idx hdr) = some e) :
    IPTunnelAnalyzer.touch env w hdr tt =
      { w with
        ip_tunnels := w.ip_tunnels.assign (IPTunnelAnalyzer.tunnel_idx hdr)
          (e.1, w.network_time) } := by
  unfold IPTunnelAnalyzer.touch
  simp only [h]

theorem IPTunnelAnalyzer.touch_calls (env : Env) (w : World) (hdr : IP_Hdr) (tt : TunnelType) :
    (IPTunnelAnalyzer.touch env w hdr tt).calls = w.calls := by
  cases h : w.ip_tunnels.find (IPTunnelAnalyzer.tunnel_idx hdr) with
  | none => rw [IPTunnelAnalyzer.touch_absent env w hdr tt h]
  | some e => rw [IPTunnelAnalyzer.touch_present env w hdr tt e h]

theorem IPTunnelMap.first_of_find (m : IPTunnelMap) (k : IPPair) (e : TunnelActivity)
    (h : m.find k = some e) : m.first k = e.1 := by
  unfold IPTunnelMap.first
  simp only [h]

theorem IPTunnelAnalyzer.reject_unchanged (env : Env) (w : World) (len : Nat)
    (data : List Nat) (packet : Packet)
    (h : (IPTunnelAnalyzer.AnalyzePacket env w len data packet).1 = false) :
    (IPTunnelAnalyzer.AnalyzePacket env w len data packet).2.calls = w.calls ∧
      (IPTunnelAnalyzer.AnalyzePacket env w len data packet).2.ip_tunnels = w.ip_tunnels ∧
      (IPTunnelAnalyzer.AnalyzePacket env w len data packet).2.timers = w.timers := by
  unfold IPTunnelAnalyzer.AnalyzePacket at h ⊢
  cases hh : packet.key_store.ip_hdr with
  | none => exact ⟨rfl, rfl, rfl⟩
  | some hdr =>
    by_cases he : env.enable_ip = true
    · by_cases hd : (packet.key_store.encap.isSome = true ∧
          (packet.key_store.encap.getD []).Depth ≥ env.max_depth)
      · simp [he, hd, World.Weird]
      · by_cases hg : (match packet.key_store.gre_version with
            | some v => v
            | none => (-1 : Int)) ≠ 0
        · by_cases hr : (env.ParseIPPacket len data (match packet.key_store.proto with
              | some v => v
              | none => (-1 : Int))).1 = 0
          · simp [hh, he, hd, hg, hr] at h
          · simp only [he, hd, hg, hr, Bool.not_true, Bool.false_eq_true, if_false, if_true,
              ne_eq, not_true_eq_false, not_false_eq_true]
            unfold IPTunnelAnalyzer.reportInner
            split
            · exact ⟨rfl, rfl, rfl⟩
            · split
              · exact ⟨rfl, rfl, rfl⟩
              · split
                · exact ⟨rfl, rfl, rfl⟩
                · exact ⟨rfl, rfl, rfl⟩
        · simp [hh, he, hd, hg] at h
    · have he' : env.enable_ip = false := by simpa using he
      simp [he', World.Weird]

/-- C1 (amended): on every packet on which `IPTunnelAnalyzer::AnalyzePacket`
calls into the pipeline, it returns true and makes exactly one such call, and
the stack stored under `encap` in the synthetic packet has one hop more than
the incoming stack; its depth is at most `max(max_depth, 1)`, and at most
`max_depth` whenever `max_depth >= 1` or the packet came with a stack. -/
theorem IPTunnelAnalyzer.inner_depth_bounded (env : Env) (w : World) (len : Nat)
    (data : List Nat) (packet : Packet)
    (hre : (IPTunnelAnalyzer.AnalyzePacket env w len data packet).2.calls ≠ w.calls) :
    (IPTunnelAnalyzer.AnalyzePacket env w len data packet).1 = true ∧
    ∃ c s, (IPTunnelAnalyzer.AnalyzePacket env w len data packet).2.calls = w.calls ++ [c] ∧
      c.packet.key_store.encap = some s ∧
      s.Depth = (packet.key_store.encap.getD []).Depth + 1 ∧
      s.Depth ≤ max env.max_depth 1 ∧
      (if 1 ≤ env.max_depth ∨ packet.key_store.encap.isSome = true
        then s.Depth ≤ env.max_depth else s.Depth = 1) := by
  have h : (IPTunnelAnalyzer.AnalyzePacket env w len data packet).1 = true := by
    cases hb : (IPTunnelAnalyzer.AnalyzePacket env w len data packet).1 with
    | false => exact absurd (IPTunnelAnalyzer.reject_unchanged env w len data packet hb).1 hre
    | true => rfl
  obtain ⟨hdr, c, _, _, hguard, hw, hc⟩ :=
    IPTunnelAnalyzer.accept_shape env w len data packet h
  refine ⟨h, c, _, ?_, hc, ?_, ?_, ?_⟩
  · rw [hw]
    simp [World.call, IPTunnelAnalyzer.touch_calls]
  · simp [EncapsulationStack.Add, EncapsulationStack.Depth]
  · cases he : packet.key_store.encap with
    | none => simp [EncapsulationStack.Add, EncapsulationStack.Depth]
    | some s0 =>
      have := hguard s0 he
      simp [EncapsulationStack.Add, EncapsulationStack.Depth] at this ⊢
      omega
  · cases he : packet.key_store.encap with
    | none =>
      simp [EncapsulationStack.Add, EncapsulationStack.Depth]
    | some s0 =>
      have := hguard s0 he
      simp [EncapsulationStack.Add, EncapsulationStack.Depth] at this ⊢
      omega

/-- Witness for C1: the analyzer accepts a plain IP-in-IP packet under the
default limits. -/
theorem IPTunnelAnalyzer.inner_depth_bounded_witness :
    (IPTunnelAnalyzer.AnalyzePacket sampleEnv sampleWorld 60 []
        (samplePacket sampleHdr)).1 = true ∧
    ∃ c s, (IPTunnelAnalyzer.AnalyzePacket sampleEnv sampleWorld 60 []
        (samplePacket sampleHdr)).2.calls = sampleWorld.calls ++ [c] ∧
      c.packet.key_store.encap = some s ∧
      s.Depth = ((samplePacket sampleHdr).key_store.encap.getD []).Depth + 1 ∧
      s.Depth ≤ max sampleEnv.max_depth 1 ∧
      (if 1 ≤ sampleEnv.max_depth ∨ (samplePacket sampleHdr).key_store.encap.isSome = true
        then s.Depth ≤ sampleEnv.max_depth else s.Depth = 1) :=
  IPTunnelAnalyzer.inner_depth_bounded sampleEnv sampleWorld 60 [] (samplePacket sampleHdr)
    (by decide)

/-- Counterexample to C1 as stated: with `max_depth = 0` a packet that carries
no encapsulation stack is accepted and re-enters the pipeline with a stack of
depth 1, which exceeds `max_depth`. -/
theorem IPTunnelAnalyzer.inner_depth_exceeds_zero_max_depth :
    (IPTunnelAnalyzer.AnalyzePacket { sampleEnv with max_depth := 0 } sampleWorld 60 []
        (samplePacket sampleHdr)).1 = true ∧
      ∃ c s, (IPTunnelAnalyzer.AnalyzePacket { sampleEnv with max_depth := 0 } sampleWorld 60 []
          (samplePacket sampleHdr)).2.calls = [c] ∧
        c.packet.key_store.encap = some s ∧
        ¬ s.Depth ≤ Env.max_depth { sampleEnv with max_depth := 0 } :=
  ⟨by decide, _, _, rfl, rfl, by decide⟩

theorem IPTunnelAnalyzer.tunnel_idx_swap (h h' : IP_Hdr) (hs : h'.SrcAddr = h.DstAddr)
    (hd : h'.DstAddr = h.SrcAddr) :
    IPTunnelAnalyzer.tunnel_idx h' = IPTunnelAnalyzer.tunnel_idx h := by
  unfold IPTunnelAnalyzer.tunnel_idx
  rw [hs, hd]
  rcases Nat.lt_trichotomy h.SrcAddr h.DstAddr with hlt | heq | hgt
  · have : ¬ h.DstAddr < h.SrcAddr := Nat.lt_asymm hlt
    simp [hlt, this]
  · simp [heq]
  · have : ¬ h.SrcAddr < h.DstAddr := Nat.lt_asymm hgt
    simp [hgt, this]

theorem IPTunnelAnalyzer.touch_find (env : Env) (w : World) (hdr : IP_Hdr) (tt : TunnelType) :
    (IPTunnelAnalyzer.touch env w hdr tt).ip_tunnels.find (IPTunnelAnalyzer.tunnel_idx hdr)
      = some (match w.ip_tunnels.find (IPTunnelAnalyzer.tunnel_idx hdr) with
          | some e => e.1
          | none => ⟨hdr.SrcAddr, hdr.DstAddr, tt, w.uid_counter⟩, w.network_time) := by
  cases h : w.ip_tunnels.find (IPTunnelAnalyzer.tunnel_idx hdr) with
  | none =>
    rw [IPTunnelAnalyzer.touch_absent env w hdr tt h]
    exact IPTunnelMap.find_assign_self _ _ _
  | some e =>
    rw [IPTunnelAnalyzer.touch_present env w hdr tt e h]
    exact IPTunnelMap.find_assign_self _ _ _

/-- C2: the `ip_tunnels` key of an outer header from `a` to `b` equals the key
of a header from `b` to `a`, it is the pair `(min a b, max a b)`, and it is the
key under which `AnalyzePacket` leaves the tunnel entry, stamped with the
network time. -/
theorem IPTunnelAnalyzer.tunnel_idx_symmetric_canonical (a b : IPAddr) (n n' : Nat)
    (v v' : Bool) (d d' : List Nat) (env : Env) (w : World) (tt : TunnelType) :
    IPTunnelAnalyzer.tunnel_idx ⟨a, b, n, v, d⟩ = IPTunnelAnalyzer.tunnel_idx ⟨b, a, n', v', d'⟩ ∧
      IPTunnelAnalyzer.tunnel_idx ⟨a, b, n, v, d⟩ = (min a b, max a b) ∧
      ((IPTunnelAnalyzer.touch env w ⟨a, b, n, v, d⟩ tt).ip_tunnels.find
          (min a b, max a b)).map Prod.snd = some w.network_time ∧
      ((IPTunnelAnalyzer.touch env w ⟨b, a, n', v', d'⟩ tt).ip_tunnels.find
          (min a b, max a b)).map Prod.snd = some w.network_time := by
  have hswap : IPTunnelAnalyzer.tunnel_idx ⟨b, a, n', v', d'⟩
      = IPTunnelAnalyzer.tunnel_idx ⟨a, b, n, v, d⟩ :=
    IPTunnelAnalyzer.tunnel_idx_swap ⟨a, b, n, v, d⟩ ⟨b, a, n', v', d'⟩ rfl rfl
  have hcanon : IPTunnelAnalyzer.tunnel_idx ⟨a, b, n, v, d⟩ = (min a b, max a b) := by
    unfold IPTunnelAnalyzer.tunnel_idx
    by_cases hlt : a < b
    · simp [hlt, Nat.min_eq_left (Nat.le_of_lt hlt), Nat.max_eq_right (Nat.le_of_lt hlt)]
    · have hle : b ≤ a := Nat.le_of_not_lt hlt
      simp [hlt, Nat.min_eq_right hle, Nat.max_eq_left hle]
  refine ⟨hswap.symm, hcanon, ?_, ?_⟩
  · rw [← hcanon, IPTunnelAnalyzer.touch_find]
    rfl
  · rw [← hcanon, ← hswap, IPTunnelAnalyzer.touch_find]
    rfl

/-- C5: a dispatch with `is_expire = true` leaves the pending timers as they
were, and the world after it is either the world before it or that world with
the entry of the pair of the timer erased from `ip_tunnels`. -/
theorem IPTunnelTimer.Dispatch_expire (env : Env) (w : World) (timer : IPTunnelTimer)
    (t : Int) :
    (IPTunnelTimer.Dispatch env w timer t true).timers = w.timers ∧
      (IPTunnelTimer.Dispatch env w timer t true = w ∨
        IPTunnelTimer.Dispatch env w timer t true
          = { w with ip_tunnels := w.ip_tunnels.erase timer.tunnel_idx }) := by
  unfold IPTunnelTimer.Dispatch
  cases w.ip_tunnels.find timer.tunnel_idx with
  | none => simp
  | some it =>
    simp only [Bool.not_true, Bool.false_eq_true, if_false]
    by_cases hc : (if t > it.2 then binary64.sub t it.2 else 0) ≥ env.ip_tunnel_timeout
    · rw [if_pos hc]
      exact ⟨rfl, Or.inr rfl⟩
    · rw [if_neg hc]
      exact ⟨rfl, Or.inl rfl⟩

set_option maxRecDepth 20000 in
/-- The timer fires at 0.3 s for an entry last active at 0.2 s with a timeout
of 0.1 s (the doubles of these C++ literals). The difference of the two
doubles is exact and lies below the double 0.1, so the entry stays and a timer is
scheduled at the double sum of 0.3 and 0.1. -/
theorem IPTunnelTimer.Dispatch_tenths :
    tenths 3 = 5404319552844595 <<< 1020 ∧ tenths 2 = 3602879701896397 <<< 1020 ∧
      tenths 1 = 3602879701896397 <<< 1019 ∧
      binary64.sub (tenths 3) (tenths 2) = tenths 3 - tenths 2 ∧
      tenths 3 - tenths 2 < tenths 1 ∧
      (IPTunnelTimer.Dispatch { sampleEnv with ip_tunnel_timeout := tenths 1 }
        (activeWorld (tenths 2)) ⟨0, (1, 2)⟩ (tenths 3) false).ip_tunnels.find (1, 2)
        = some (⟨1, 2, TunnelType.IP, 0⟩, tenths 2) ∧
      (IPTunnelTimer.Dispatch { sampleEnv with ip_tunnel_timeout := tenths 1 }
        (activeWorld (tenths 2)) ⟨0, (1, 2)⟩ (tenths 3) false).timers
        = [⟨binary64.add (tenths 3) (tenths 1), (1, 2)⟩] := by
  decide

set_option maxRecDepth 20000 in
/-- The timer fires at `2^53` s for an entry last active at 0.5 s with a
timeout of `2^53` s. The double difference is rounded up to `2^53`, so the
entry is erased although the exact difference is below the timeout. -/
theorem IPTunnelTimer.Dispatch_rounded_difference :
    binary64.sub (binary64.ofInt (2 ^ 53)) (tenths 5) = binary64.ofInt (2 ^ 53) ∧
      binary64.ofInt (2 ^ 53) - tenths 5 < binary64.ofInt (2 ^ 53) ∧
      tenths 5 < binary64.ofInt (2 ^ 53) ∧
      (IPTunnelTimer.Dispatch { sampleEnv with ip_tunnel_timeout := binary64.ofInt (2 ^ 53) }
        (activeWorld (tenths 5)) ⟨0, (1, 2)⟩ (binary64.ofInt (2 ^ 53)) false).ip_tunnels.find
          (1, 2) = none := by
  decide

/-- C3: packet A from `a` to `b` is accepted in a world with no entry for the
pair, the clocks advance, and packet B from `b` to `a` is accepted. Then the
map holds exactly one entry for the pair; its `EncapsulatingConn` is the one
built for A (source `a`, destination `b`, the tunnel type and UID drawn at A);
its last-active time is the network time at B; the inner packets of A and of B
both get that hop appended; and B schedules no timer beyond the one A
scheduled. -/
theorem IPTunnelAnalyzer.reverse_direction_shares_entry (env : Env) (w0 : World)
    (hA hB : IP_Hdr) (pktA pktB : Packet) (lenA lenB : Nat) (dataA dataB : List Nat)
    (tB pB : Int)
    (hBs : hB.SrcAddr = hA.DstAddr) (hBd : hB.DstAddr = hA.SrcAddr)
    (hpA : pktA.key_store.ip_hdr = some hA) (hpB : pktB.key_store.ip_hdr = some hB)
    (h0 : w0.ip_tunnels.find (IPTunnelAnalyzer.tunnel_idx hA) = none)
    (hacc1 : (IPTunnelAnalyzer.AnalyzePacket env w0 lenA dataA pktA).1 = true)
    (hacc2 : (IPTunnelAnalyzer.AnalyzePacket env
      ((IPTunnelAnalyzer.AnalyzePacket env w0 lenA dataA pktA).2.advance tB pB)
      lenB dataB pktB).1 = true) :
    (IPTunnelAnalyzer.AnalyzePacket env
        ((IPTunnelAnalyzer.AnalyzePacket env w0 lenA dataA pktA).2.advance tB pB)
        lenB dataB pktB).2.ip_tunnels.count (IPTunnelAnalyzer.tunnel_idx hA) = 1 ∧
      (IPTunnelAnalyzer.AnalyzePacket env
        ((IPTunnelAnalyzer.AnalyzePacket env w0 lenA dataA pktA).2.advance tB pB)
        lenB dataB pktB).2.ip_tunnels.find (IPTunnelAnalyzer.tunnel_idx hB)
        = some (⟨hA.SrcAddr, hA.DstAddr, pktA.key_store.tunnelTypeOrIP, w0.uid_counter⟩, tB) ∧
      (IPTunnelAnalyzer.AnalyzePacket env w0 lenA dataA pktA).2.ip_tunnels.find
          (IPTunnelAnalyzer.tunnel_idx hA)
        = some (⟨hA.SrcAddr, hA.DstAddr, pktA.key_store.tunnelTypeOrIP, w0.uid_counter⟩,
            w0.network_time) ∧
      (∃ cA, (IPTunnelAnalyzer.AnalyzePacket env w0 lenA dataA pktA).2.calls = w0.calls ++ [cA] ∧
        cA.packet.key_store.encap = some ((pktA.key_store.encap.getD []).Add
          ⟨hA.SrcAddr, hA.DstAddr, pktA.key_store.tunnelTypeOrIP, w0.uid_counter⟩)) ∧
      (∃ cB, (IPTunnelAnalyzer.AnalyzePacket env
          ((IPTunnelAnalyzer.AnalyzePacket env w0 lenA dataA pktA).2.advance tB pB)
          lenB dataB pktB).2.calls
          = (IPTunnelAnalyzer.AnalyzePacket env w0 lenA dataA pktA).2.calls ++ [cB] ∧
        cB.packet.key_store.encap = some ((pktB.key_store.encap.getD []).Add
          ⟨hA.SrcAddr, hA.DstAddr, pktA.key_store.tunnelTypeOrIP, w0.uid_counter⟩)) ∧
      (IPTunnelAnalyzer.AnalyzePacket env w0 lenA dataA pktA).2.timers
        = w0.timers ++ [⟨binary64.add w0.network_time env.ip_tunnel_timeout,
            IPTunnelAnalyzer.tunnel_idx hA⟩] ∧
      (IPTunnelAnalyzer.AnalyzePacket env
        ((IPTunnelAnalyzer.AnalyzePacket env w0 lenA dataA pktA).2.advance tB pB)
        lenB dataB pktB).2.timers
        = (IPTunnelAnalyzer.AnalyzePacket env w0 lenA dataA pktA).2.timers := by
  have hidx : IPTunnelAnalyzer.tunnel_idx hB = IPTunnelAnalyzer.tunnel_idx hA :=
    IPTunnelAnalyzer.tunnel_idx_swap hA hB hBs hBd
  obtain ⟨hdrA, cA, hhA, _, _, hwA, hcA⟩ :=
    IPTunnelAnalyzer.accept_shape env w0 lenA dataA pktA hacc1
  rw [hpA] at hhA
  cases hhA
  rw [IPTunnelAnalyzer.touch_absent env w0 hA _ h0] at hwA hcA
  obtain ⟨hdrB, cB, hhB, _, _, hwB, hcB⟩ :=
    IPTunnelAnalyzer.accept_shape env _ lenB dataB pktB hacc2
  rw [hpB] at hhB
  cases hhB
  have hfind1 : ((IPTunnelAnalyzer.AnalyzePacket env w0 lenA dataA pktA).2.advance tB
      pB).ip_tunnels.find (IPTunnelAnalyzer.tunnel_idx hB)
      = some (⟨hA.SrcAddr, hA.DstAddr, pktA.key_store.tunnelTypeOrIP, w0.uid_counter⟩,
          w0.network_time) := by
    rw [hwA, hidx]
    exact IPTunnelMap.find_assign_self _ _ _
  rw [IPTunnelAnalyzer.touch_present env _ hB _ _ hfind1] at hwB hcB
  rw [hwB, hidx]
  refine ⟨?_, ?_, ?_, ⟨cA, ?_, ?_⟩, ⟨cB, ?_, ?_⟩, ?_, ?_⟩
  · show IPTunnelMap.count (IPTunnelMap.assign _ _ _) _ = 1
    rw [hidx] at hfind1
    rw [IPTunnelMap.count_assign_of_find_some _ _ _ _ hfind1, hwA]
    exact IPTunnelMap.count_assign_of_find_none _ _ _ h0
  · exact IPTunnelMap.find_assign_self _ _ _
  · rw [hwA]
    exact IPTunnelMap.find_assign_self _ _ _
  · rw [hwA]; rfl
  · rw [hcA]
    congr 2
    exact IPTunnelMap.first_of_find _ _ _ (IPTunnelMap.find_assign_self _ _ _)
  · rfl
  · rw [hcB]
    congr 2
    rw [hidx]
    exact IPTunnelMap.first_of_find _ _ _ (IPTunnelMap.find_assign_self _ _ _)
  · rw [hwA]; rfl
  · rfl

/-- Witness for C3: 10.0.0.1 to 10.0.0.2 at time 1000, then the reverse
direction at time 2000. -/
theorem IPTunnelAnalyzer.reverse_direction_shares_entry_witness :
    (IPTunnelAnalyzer.AnalyzePacket sampleEnv
        ((IPTunnelAnalyzer.AnalyzePacket sampleEnv sampleWorld 60 []
          (samplePacket sampleHdr)).2.advance 2000 2000)
        60 [] (samplePacket sampleHdrRev)).2.ip_tunnels.count
          (IPTunnelAnalyzer.tunnel_idx sampleHdr) = 1 ∧
      (IPTunnelAnalyzer.AnalyzePacket sampleEnv
        ((IPTunnelAnalyzer.AnalyzePacket sampleEnv sampleWorld 60 []
          (samplePacket sampleHdr)).2.advance 2000 2000)
        60 [] (samplePacket sampleHdrRev)).2.ip_tunnels.find
          (IPTunnelAnalyzer.tunnel_idx sampleHdrRev)
        = some (⟨sampleHdr.SrcAddr, sampleHdr.DstAddr,
            (samplePacket sampleHdr).key_store.tunnelTypeOrIP, sampleWorld.uid_counter⟩, 2000) :=
  have h := IPTunnelAnalyzer.reverse_direction_shares_entry sampleEnv sampleWorld
    sampleHdr sampleHdrRev (samplePacket sampleHdr) (samplePacket sampleHdrRev) 60 60 [] []
    2000 2000 rfl rfl rfl rfl rfl (by decide) (by decide)
  ⟨h.1, h.2.1⟩

/-! ## The GRE analyzer -/

theorem GREAnalyzer.deliver_eq (env : Env) (w : World) (len : Nat) (data : List Nat)
    (packet : Packet) (proto : Int) (v g ppp : Nat) (l : GRELocals) :
    GREAnalyzer.deliver env w len data packet proto v g ppp l =
      (true, GREAnalyzer.deposit packet v l.gre_link_type proto,
        w.call (PipelineCall.ForwardPacket
          ((len + 2 ^ 64 - (g + ppp + l.erspan_len)) % 2 ^ 64)
          (data.drop (g + ppp + l.erspan_len))
          (GREAnalyzer.deposit packet v l.gre_link_type proto))) := rfl

theorem GREAnalyzer.finish_true (env : Env) (w : World) (len : Nat) (data : List Nat)
    (packet : Packet) (proto : Int) (flags v g ppp : Nat) (l : GRELocals)
    (h : (GREAnalyzer.finish env w len data packet proto flags v g ppp l).1 = true) :
    flags &&& 0x4000 = 0 ∧ flags &&& 0x0078 = 0 ∧ g + ppp + l.eth_len + l.erspan_len ≤ len ∧
      ∃ p w1, w1.calls = w.calls ∧ w1.weirds = w.weirds ∧
        (if v = 1
          then (ntohs16 data (g + 2) = 0x0021 ∨ ntohs16 data (g + 2) = 0x0057) ∧
            p = (if ntohs16 data (g + 2) = 0x0021 then IPPROTO_IPV4 else IPPROTO_IPV6)
          else p = proto) ∧
        GREAnalyzer.finish env w len data packet proto flags v g ppp l
          = GREAnalyzer.deliver env w1 len data packet p v g ppp l := by
  unfold GREAnalyzer.finish at h ⊢
  by_cases h1 : flags &&& 0x4000 = 0
  · by_cases h2 : flags &&& 0x0078 = 0
    · by_cases h3 : len < g + ppp + l.eth_len + l.erspan_len
      · simp [h1, h2, h3] at h
      · refine ⟨h1, h2, by omega, ?_⟩
        by_cases hv : v = 1
        · by_cases hp : ntohs16 data (g + 2) ≠ 0x0021 ∧ ntohs16 data (g + 2) ≠ 0x0057
          · simp [h1, h2, h3, hv, hp] at h
          · simp only [h1, h2, h3, hv, hp, ne_eq, not_true_eq_false, if_false, if_true]
            refine ⟨_, _, ?_, ?_, ⟨?_, rfl⟩, rfl⟩
            · rfl
            · rfl
            · by_cases e : ntohs16 data (g + 2) = 0x0021
              · exact Or.inl e
              · by_cases e' : ntohs16 data (g + 2) = 0x0057
                · exact Or.inr e'
                · exact absurd ⟨e, e'⟩ hp
        · simp only [h1, h2, h3, hv, ne_eq, not_true_eq_false, if_false]
          exact ⟨_, _, rfl, rfl, rfl, rfl⟩
    · simp [h1, h2] at h
  · simp [h1] at h

theorem GREAnalyzer.finish_false (env : Env) (w : World) (len : Nat) (data : List Nat)
    (packet : Packet) (proto : Int) (flags v g ppp : Nat) (l : GRELocals)
    (h : (GREAnalyzer.finish env w len data packet proto flags v g ppp l).1 = false) :
    (GREAnalyzer.finish env w len data packet proto flags v g ppp l).2.1 = packet ∧
      (GREAnalyzer.finish env w len data packet proto flags v g ppp l).2.2.calls = w.calls := by
  unfold GREAnalyzer.finish at h ⊢
  by_cases h1 : flags &&& 0x4000 = 0
  · by_cases h2 : flags &&& 0x0078 = 0
    · by_cases h3 : len < g + ppp + l.eth_len + l.erspan_len
      · simp [h1, h2, h3, World.Weird]
      · by_cases hv : v = 1
        · by_cases hp : ntohs16 data (g + 2) ≠ 0x0021 ∧ ntohs16 data (g + 2) ≠ 0x0057
          · simp [h1, h2, h3, hv, hp, World.Weird, World.read]
          · simp [h1, h2, h3, hv, hp, GREAnalyzer.deliver_eq] at h
        · simp [h1, h2, h3, hv, GREAnalyzer.deliver_eq] at h
    · simp [h1, h2, World.Weird]
  · simp [h1, World.Weird]

theorem GREAnalyzer.version0_some (w : World) (len : Nat) (data : List Nat) (g pt : Nat)
    (l : GRELocals) (w' : World)
    (h : GREAnalyzer.version0 w len data g pt = (some l, w')) :
    w'.calls = w.calls ∧ w'.weirds = w.weirds ∧
      l.erspan_len = (if pt = 0x6558 then 0 else if pt = 0x88be then 8
        else if pt = 0x22eb then (if byteAt data (g + 11) &&& 0x01 = 0x01 then 20 else 12)
        else 0) ∧
      l.eth_len = (if pt = 0x6558 ∨ pt = 0x88be ∨ pt = 0x22eb then 14 else 0) ∧
      l.gre_link_type
        = (if pt = 0x6558 ∨ pt = 0x88be ∨ pt = 0x22eb then DLT_EN10MB else DLT_RAW) := by
  unfold GREAnalyzer.version0 at h
  by_cases h1 : pt = 0x6558
  · subst h1
    by_cases c : len > g + 14
    · simp only [c, if_true, Prod.mk.injEq, Option.some.injEq] at h
      obtain ⟨rfl, rfl⟩ := h
      exact ⟨rfl, rfl, rfl, rfl, rfl⟩
    · simp [c] at h
  · by_cases h2 : pt = 0x88be
    · subst h2
      by_cases c : len > g + 14 + 8
      · simp only [c, if_true, Prod.mk.injEq, Option.some.injEq] at h
        rw [if_neg (by decide)] at h
        simp only [Prod.mk.injEq, Option.some.injEq] at h
        obtain ⟨rfl, rfl⟩ := h
        exact ⟨rfl, rfl, rfl, rfl, rfl⟩
      · simp [c] at h
    · by_cases h3 : pt = 0x22eb
      · subst h3
        rw [if_neg (by decide), if_neg (by decide), if_pos rfl] at h
        by_cases c : len > g + 14 + 12
        · rw [if_pos c] at h
          by_cases o : byteAt data (g + 11) &&& 0x01 = 0x01
          · have o' : decide (byteAt data (g + 12 - 1) &&& 0x01 = 0x01) = true :=
              decide_eq_true o
            simp only [o', if_true] at h
            by_cases c' : len > g + 12 + 8 + 14
            · rw [if_pos c'] at h
              simp only [Prod.mk.injEq, Option.some.injEq] at h
              obtain ⟨rfl, rfl⟩ := h
              refine ⟨rfl, rfl, ?_, rfl, rfl⟩
              rw [if_neg (by decide), if_neg (by decide), if_pos rfl, if_pos o]
            · rw [if_neg c'] at h
              simp at h
          · have o' : decide (byteAt data (g + 12 - 1) &&& 0x01 = 0x01) = false :=
              decide_eq_false o
            simp only [o', Bool.false_eq_true, if_false, Prod.mk.injEq, Option.some.injEq] at h
            obtain ⟨rfl, rfl⟩ := h
            refine ⟨rfl, rfl, ?_, rfl, rfl⟩
            rw [if_neg (by decide), if_neg (by decide), if_pos rfl, if_neg o]
        · rw [if_neg c] at h
          simp at h
      · simp only [h1, h2, h3, if_false, Prod.mk.injEq, Option.some.injEq] at h
        obtain ⟨rfl, rfl⟩ := h
        simp [h1, h2, h3]

theorem GREAnalyzer.version0_none (w : World) (len : Nat) (data : List Nat) (g pt : Nat)
    (w' : World) (h : GREAnalyzer.version0 w len data g pt = (none, w')) :
    w'.calls = w.calls := by
  unfold GREAnalyzer.version0 at h
  by_cases h1 : pt = 0x6558
  · rw [if_pos h1] at h
    by_cases c : len > g + 14
    · rw [if_pos c] at h
      simp at h
    · rw [if_neg c] at h
      simp only [Prod.mk.injEq, true_and] at h
      subst h
      rfl
  · rw [if_neg h1] at h
    by_cases h2 : pt = 0x88be
    · rw [if_pos h2] at h
      by_cases c : len > g + 14 + 8
      · rw [if_pos c] at h
        simp at h
      · rw [if_neg c] at h
        simp only [Prod.mk.injEq, true_and] at h
        subst h
        rfl
    · rw [if_neg h2] at h
      by_cases h3 : pt = 0x22eb
      · rw [if_pos h3] at h
        by_cases c : len > g + 14 + 12
        · rw [if_pos c] at h
          by_cases o : decide (byteAt data (g + 12 - 1) &&& 0x01 = 0x01) = true
          · simp only [o, if_true] at h
            by_cases c' : len > g + 12 + 8 + 14
            · rw [if_pos c'] at h
              simp at h
            · rw [if_neg c'] at h
              simp only [Prod.mk.injEq, true_and] at h
              subst h
              rfl
          · simp only [o, if_false] at h
            simp at h
        · rw [if_neg c] at h
          simp only [Prod.mk.injEq, true_and] at h
          subst h
          rfl
      · rw [if_neg h3] at h
        simp at h

theorem GREAnalyzer.AnalyzePacket_v0 (env : Env) (w : World) (len : Nat) (data : List Nat)
    (packet : Packet) (hdr : IP_Hdr) (hip : packet.key_store.ip_hdr = some hdr)
    (hen : env.enable_gre = true) (hv : ntohs16 data 0 &&& 0x0007 = 0) :
    GREAnalyzer.AnalyzePacket env w len data packet =
      match GREAnalyzer.version0 (w.read [0, 1, 2, 3]) len data
          (gre_header_len (ntohs16 data 0)) (ntohs16 data 2) with
      | (none, w) => (false, packet, w)
      | (some l, w) =>
        GREAnalyzer.finish env w len data packet (-1) (ntohs16 data 0) 0
          (gre_header_len (ntohs16 data 0)) 0 l := by
  unfold GREAnalyzer.AnalyzePacket
  simp only [hip, hen, hv, Bool.not_true, Bool.false_eq_true, if_false, if_true, ne_eq,
    not_true_eq_false, false_and, zero_ne_one]
  cases packet.key_store.proto <;> rfl

theorem GREAnalyzer.AnalyzePacket_v1 (env : Env) (w : World) (len : Nat) (data : List Nat)
    (packet : Packet) (hdr : IP_Hdr) (hip : packet.key_store.ip_hdr = some hdr)
    (hen : env.enable_gre = true) (hv : ntohs16 data 0 &&& 0x0007 = 1) :
    GREAnalyzer.AnalyzePacket env w len data packet =
      if ntohs16 data 2 ≠ 0x880b then
        (false, packet, (w.read [0, 1, 2, 3]).Weird "egre_protocol_type"
          (toString (ntohs16 data 2)))
      else
        GREAnalyzer.finish env (w.read [0, 1, 2, 3]) len data packet (-1) (ntohs16 data 0) 1
          (gre_header_len (ntohs16 data 0)) 4 ⟨ntohs16 data 2, 0, 0, DLT_RAW⟩ := by
  unfold GREAnalyzer.AnalyzePacket
  simp only [hip, hen, hv, Bool.not_true, Bool.false_eq_true, if_false, if_true, ne_eq,
    not_true_eq_false, and_false, one_ne_zero]
  cases packet.key_store.proto <;> rfl

theorem GREAnalyzer.AnalyzePacket_other (env : Env) (w : World) (len : Nat) (data : List Nat)
    (packet : Packet)
    (h : packet.key_store.ip_hdr = none ∨ env.enable_gre = false ∨
      (ntohs16 data 0 &&& 0x0007 ≠ 0 ∧ ntohs16 data 0 &&& 0x0007 ≠ 1)) :
    (GREAnalyzer.AnalyzePacket env w len data packet).1 = false ∧
      (GREAnalyzer.AnalyzePacket env w len data packet).2.1 = packet ∧
      (GREAnalyzer.AnalyzePacket env w len data packet).2.2.calls = w.calls := by
  unfold GREAnalyzer.AnalyzePacket
  cases hip : packet.key_store.ip_hdr with
  | none => exact ⟨rfl, rfl, rfl⟩
  | some hdr =>
    by_cases hen : env.enable_gre = true
    · rcases h with h | h | h
      · rw [hip] at h; cases h
      · rw [hen] at h; cases h
      · simp [hen, h, World.Weird, World.read]
    · have : env.enable_gre = false := by simpa using hen
      simp [this, World.Weird]

theorem wrap_sub (len k : Nat) (h1 : k ≤ len) (h2 : len < 2 ^ 64) :
    (len + 2 ^ 64 - k) % 2 ^ 64 = len - k := by
  have e : len + 2 ^ 64 - k = (len - k) + 2 ^ 64 := by omega
  rw [e, Nat.add_mod_right]
  exact Nat.mod_eq_of_lt (by omega)

theorem GREAnalyzer.accept_pre (env : Env) (w : World) (len : Nat) (data : List Nat)
    (packet : Packet) (hacc : (GREAnalyzer.AnalyzePacket env w len data packet).1 = true) :
    (∃ hdr, packet.key_store.ip_hdr = some hdr) ∧ env.enable_gre = true ∧
      (ntohs16 data 0 &&& 0x0007 = 0 ∨ ntohs16 data 0 &&& 0x0007 = 1) := by
  refine ⟨?_, ?_, ?_⟩
  · cases hip : packet.key_store.ip_hdr with
    | none =>
      have := (GREAnalyzer.AnalyzePacket_other env w len data packet (Or.inl hip)).1
      rw [this] at hacc
      cases hacc
    | some hdr => exact ⟨hdr, rfl⟩
  · cases hen : env.enable_gre with
    | false =>
      have := (GREAnalyzer.AnalyzePacket_other env w len data packet (Or.inr (Or.inl hen))).1
      rw [this] at hacc
      cases hacc
    | true => rfl
  · by_contra hv
    have hv' : ntohs16 data 0 &&& 0x0007 ≠ 0 ∧ ntohs16 data 0 &&& 0x0007 ≠ 1 :=
      ⟨fun e => hv (Or.inl e), fun e => hv (Or.inr e)⟩
    have := (GREAnalyzer.AnalyzePacket_other env w len data packet (Or.inr (Or.inr hv'))).1
    rw [this] at hacc
    cases hacc

/-- C7: an accepted GRE version 0 packet, with `g` its GRE header length.
Exactly one `ForwardPacket` call is made; its payload starts at offset `g` for
protocol type 0x6558, `g + 8` for 0x88be, and for 0x22eb at `g + 12` or, when
the low bit of the byte at `g + 11` is set, `g + 20`; in these three cases the
deposited `gre_link_type` is `DLT_EN10MB` and at least the 14 bytes of the
Ethernet header remain in the forwarded length. For any other protocol type
the payload starts at `g` and `gre_link_type` is `DLT_RAW`. -/
theorem GREAnalyzer.version0_payload_offset (env : Env) (w : World) (len : Nat)
    (data : List Nat) (packet : Packet) (hlen : len < 2 ^ 64)
    (hv : ntohs16 data 0 &&& 0x0007 = 0)
    (hacc : (GREAnalyzer.AnalyzePacket env w len data packet).1 = true) :
    (GREAnalyzer.AnalyzePacket env w len data packet).2.2.calls
        = w.calls ++ [PipelineCall.ForwardPacket
            (len - (if ntohs16 data 2 = 0x6558 then gre_header_len (ntohs16 data 0)
              else if ntohs16 data 2 = 0x88be then gre_header_len (ntohs16 data 0) + 8
              else if ntohs16 data 2 = 0x22eb then
                (if byteAt data (gre_header_len (ntohs16 data 0) + 11) &&& 0x01 = 0x01
                  then gre_header_len (ntohs16 data 0) + 20
                  else gre_header_len (ntohs16 data 0) + 12)
              else gre_header_len (ntohs16 data 0)))
            (data.drop (if ntohs16 data 2 = 0x6558 then gre_header_len (ntohs16 data 0)
              else if ntohs16 data 2 = 0x88be then gre_header_len (ntohs16 data 0) + 8
              else if ntohs16 data 2 = 0x22eb then
                (if byteAt data (gre_header_len (ntohs16 data 0) + 11) &&& 0x01 = 0x01
                  then gre_header_len (ntohs16 data 0) + 20
                  else gre_header_len (ntohs16 data 0) + 12)
              else gre_header_len (ntohs16 data 0)))
            (GREAnalyzer.AnalyzePacket env w len data packet).2.1] ∧
      (GREAnalyzer.AnalyzePacket env w len data packet).2.1.key_store.gre_link_type
        = some (if ntohs16 data 2 = 0x6558 ∨ ntohs16 data 2 = 0x88be ∨ ntohs16 data 2 = 0x22eb
            then DLT_EN10MB else DLT_RAW) ∧
      (if ntohs16 data 2 = 0x6558 ∨ ntohs16 data 2 = 0x88be ∨ ntohs16 data 2 = 0x22eb
        then 14 ≤ len - (if ntohs16 data 2 = 0x6558 then gre_header_len (ntohs16 data 0)
              else if ntohs16 data 2 = 0x88be then gre_header_len (ntohs16 data 0) + 8
              else if byteAt data (gre_header_len (ntohs16 data 0) + 11) &&& 0x01 = 0x01
                  then gre_header_len (ntohs16 data 0) + 20
                  else gre_header_len (ntohs16 data 0) + 12)
        else gre_header_len (ntohs16 data 0) ≤ len) := by
  obtain ⟨⟨hdr, hip⟩, hen, _⟩ := GREAnalyzer.accept_pre env w len data packet hacc
  rw [GREAnalyzer.AnalyzePacket_v0 env w len data packet hdr hip hen hv] at hacc ⊢
  cases h0 : GREAnalyzer.version0 (w.read [0, 1, 2, 3]) len data
      (gre_header_len (ntohs16 data 0)) (ntohs16 data 2) with
  | mk ol w1 =>
    cases ol with
    | none => rw [h0] at hacc; cases hacc
    | some l =>
      rw [h0] at hacc
      simp only at hacc ⊢
      obtain ⟨hc1, _, he, heth, hlt⟩ := GREAnalyzer.version0_some _ _ _ _ _ _ _ h0
      obtain ⟨_, _, hle, p, w2, hc2, _, _, hfin⟩ :=
        GREAnalyzer.finish_true _ _ _ _ _ _ _ _ _ _ _ hacc
      rw [hfin, GREAnalyzer.deliver_eq]
      simp only [World.call, hc2, hc1, World.read, Nat.add_zero]
      have hk : gre_header_len (ntohs16 data 0) + l.erspan_len ≤ len := by omega
      rw [wrap_sub _ _ hk hlen]
      by_cases h1 : ntohs16 data 2 = 0x6558
      · have hor : ntohs16 data 2 = 0x6558 ∨ ntohs16 data 2 = 0x88be ∨ ntohs16 data 2 = 0x22eb :=
          Or.inl h1
        simp only [if_pos h1, if_pos hor] at he heth hlt ⊢
        rw [he] at hle ⊢
        rw [heth] at hle
        exact ⟨rfl, by rw [← hlt]; rfl, by omega⟩
      · by_cases h2 : ntohs16 data 2 = 0x88be
        · have hor : ntohs16 data 2 = 0x6558 ∨ ntohs16 data 2 = 0x88be ∨
              ntohs16 data 2 = 0x22eb := Or.inr (Or.inl h2)
          simp only [if_neg h1, if_pos h2, if_pos hor] at he heth hlt ⊢
          rw [he] at hle ⊢
          rw [heth] at hle
          exact ⟨rfl, by rw [← hlt]; rfl, by omega⟩
        · by_cases h3 : ntohs16 data 2 = 0x22eb
          · have hor : ntohs16 data 2 = 0x6558 ∨ ntohs16 data 2 = 0x88be ∨
                ntohs16 data 2 = 0x22eb := Or.inr (Or.inr h3)
            simp only [if_neg h1, if_neg h2, if_pos h3, if_pos hor] at he heth hlt ⊢
            rw [heth] at hle
            by_cases o : byteAt data (gre_header_len (ntohs16 data 0) + 11) &&& 0x01 = 0x01
            · simp only [if_pos o] at he ⊢
              rw [he] at hle ⊢
              exact ⟨rfl, by rw [← hlt]; rfl, by omega⟩
            · simp only [if_neg o] at he ⊢
              rw [he] at hle ⊢
              exact ⟨rfl, by rw [← hlt]; rfl, by omega⟩
          · have hor : ¬ (ntohs16 data 2 = 0x6558 ∨ ntohs16 data 2 = 0x88be ∨
                ntohs16 data 2 = 0x22eb) := by
              rintro (h | h | h)
              · exact h1 h
              · exact h2 h
              · exact h3 h
            simp only [if_neg h1, if_neg h2, if_neg h3, if_neg hor] at he heth hlt ⊢
            rw [he] at hle ⊢
            exact ⟨rfl, by rw [← hlt]; rfl, by omega⟩

/-- Witness for C7: a transparent Ethernet bridging packet is accepted and its
link type is `DLT_EN10MB`. -/
theorem GREAnalyzer.version0_payload_offset_witness :
    (GREAnalyzer.AnalyzePacket sampleEnv sampleWorld 38 greTEBData
        grePacket).2.1.key_store.gre_link_type
      = some (if ntohs16 greTEBData 2 = 0x6558 ∨ ntohs16 greTEBData 2 = 0x88be ∨
          ntohs16 greTEBData 2 = 0x22eb then DLT_EN10MB else DLT_RAW) :=
  (GREAnalyzer.version0_payload_offset sampleEnv sampleWorld 38 greTEBData grePacket
    (by decide) (by decide) (by decide)).2.1

theorem GREAnalyzer.reject_frame (env : Env) (w : World) (len : Nat) (data : List Nat)
    (packet : Packet) (hrej : (GREAnalyzer.AnalyzePacket env w len data packet).1 = false) :
    (GREAnalyzer.AnalyzePacket env w len data packet).2.1 = packet ∧
      (GREAnalyzer.AnalyzePacket env w len data packet).2.2.calls = w.calls := by
  by_cases hother : packet.key_store.ip_hdr = none ∨ env.enable_gre = false ∨
      (ntohs16 data 0 &&& 0x0007 ≠ 0 ∧ ntohs16 data 0 &&& 0x0007 ≠ 1)
  · exact (GREAnalyzer.AnalyzePacket_other env w len data packet hother).2
  · have hip : ∃ hdr, packet.key_store.ip_hdr = some hdr := by
      cases h : packet.key_store.ip_hdr with
      | none => exact absurd (Or.inl h) hother
      | some hdr => exact ⟨hdr, rfl⟩
    obtain ⟨hdr, hip⟩ := hip
    have hen : env.enable_gre = true := by
      cases h : env.enable_gre with
      | false => exact absurd (Or.inr (Or.inl h)) hother
      | true => rfl
    have hv : ntohs16 data 0 &&& 0x0007 = 0 ∨ ntohs16 data 0 &&& 0x0007 = 1 := by
      by_contra hv
      exact hother (Or.inr (Or.inr ⟨fun e => hv (Or.inl e), fun e => hv (Or.inr e)⟩))
    rcases hv with hv | hv
    · rw [GREAnalyzer.AnalyzePacket_v0 env w len data packet hdr hip hen hv] at hrej ⊢
      cases h0 : GREAnalyzer.version0 (w.read [0, 1, 2, 3]) len data
          (gre_header_len (ntohs16 data 0)) (ntohs16 data 2) with
      | mk ol w1 =>
        cases ol with
        | none =>
          have hc := GREAnalyzer.version0_none _ _ _ _ _ _ h0
          simp only
          exact ⟨trivial, hc⟩
        | some l =>
          rw [h0] at hrej
          simp only at hrej ⊢
          obtain ⟨hp, hc⟩ := GREAnalyzer.finish_false _ _ _ _ _ _ _ _ _ _ _ hrej
          exact ⟨hp, by rw [hc, (GREAnalyzer.version0_some _ _ _ _ _ _ _ h0).1]; rfl⟩
    · rw [GREAnalyzer.AnalyzePacket_v1 env w len data packet hdr hip hen hv] at hrej ⊢
      by_cases hp : ntohs16 data 2 ≠ 0x880b
      · rw [if_pos hp]
        exact ⟨rfl, rfl⟩
      · rw [if_neg hp] at hrej ⊢
        obtain ⟨hp, hc⟩ := GREAnalyzer.finish_false _ _ _ _ _ _ _ _ _ _ _ hrej
        exact ⟨hp, by rw [hc]; rfl⟩

theorem GREAnalyzer.accept_deliver (env : Env) (w : World) (len : Nat) (data : List Nat)
    (packet : Packet) (hacc : (GREAnalyzer.AnalyzePacket env w len data packet).1 = true) :
    ∃ (l : GRELocals) (p : Int) (w2 : World),
      w2.calls = w.calls ∧ w2.weirds = w.weirds ∧
      GREAnalyzer.AnalyzePacket env w len data packet
        = GREAnalyzer.deliver env w2 len data packet p (ntohs16 data 0 &&& 0x0007)
            (gre_header_len (ntohs16 data 0))
            (if ntohs16 data 0 &&& 0x0007 = 1 then 4 else 0) l ∧
      gre_header_len (ntohs16 data 0) + (if ntohs16 data 0 &&& 0x0007 = 1 then 4 else 0)
        + l.eth_len + l.erspan_len ≤ len ∧
      l.erspan_len ∈ [0, 8, 12, 20] ∧
      (if ntohs16 data 0 &&& 0x0007 = 1
        then ntohs16 data 2 = 0x880b ∧ l.erspan_len = 0 ∧
          (ntohs16 data (gre_header_len (ntohs16 data 0) + 2) = 0x0021 ∨
            ntohs16 data (gre_header_len (ntohs16 data 0) + 2) = 0x0057) ∧
          p = (if ntohs16 data (gre_header_len (ntohs16 data 0) + 2) = 0x0021
            then IPPROTO_IPV4 else IPPROTO_IPV6)
        else p = -1) := by
  obtain ⟨⟨hdr, hip⟩, hen, hv⟩ := GREAnalyzer.accept_pre env w len data packet hacc
  rcases hv with hv | hv
  · rw [GREAnalyzer.AnalyzePacket_v0 env w len data packet hdr hip hen hv] at hacc ⊢
    cases h0 : GREAnalyzer.version0 (w.read [0, 1, 2, 3]) len data
        (gre_header_len (ntohs16 data 0)) (ntohs16 data 2) with
    | mk ol w1 =>
      cases ol with
      | none => rw [h0] at hacc; cases hacc
      | some l =>
        rw [h0] at hacc
        simp only at hacc ⊢
        obtain ⟨hc1, hw1, he, _, _⟩ := GREAnalyzer.version0_some _ _ _ _ _ _ _ h0
        obtain ⟨_, _, hle, p, w2, hc2, hw2, hp, hfin⟩ :=
          GREAnalyzer.finish_true _ _ _ _ _ _ _ _ _ _ _ hacc
        rw [if_neg (by decide)] at hp
        refine ⟨l, p, w2, by rw [hc2, hc1]; rfl, by rw [hw2, hw1]; rfl, ?_, ?_, ?_, ?_⟩
        · rw [hfin, hv]
          rfl
        · rw [hv]
          exact hle
        · rw [he]
          split
          · simp
          · split
            · simp
            · split
              · split <;> simp
              · simp
        · rw [hv]
          exact hp
  · rw [GREAnalyzer.AnalyzePacket_v1 env w len data packet hdr hip hen hv] at hacc ⊢
    by_cases hpt : ntohs16 data 2 ≠ 0x880b
    · rw [if_pos hpt] at hacc
      cases hacc
    · rw [if_neg hpt] at hacc ⊢
      obtain ⟨_, _, hle, p, w2, hc2, hw2, hp, hfin⟩ :=
        GREAnalyzer.finish_true _ _ _ _ _ _ _ _ _ _ _ hacc
      rw [if_pos rfl] at hp
      refine ⟨⟨ntohs16 data 2, 0, 0, DLT_RAW⟩, p, w2, by rw [hc2]; rfl, by rw [hw2]; rfl,
        ?_, ?_, ?_, ?_⟩
      · rw [hfin, hv]
        rfl
      · rw [hv]
        exact hle
      · simp
      · rw [hv, if_pos rfl]
        exact ⟨by simpa using hpt, rfl, hp.1, hp.2⟩

theorem weird_append_ne (ws : List Weird) (a b : Weird) (h : a ≠ b) :
    ws ++ [a] ≠ ws ++ [b] := by
  intro e
  have := List.append_cancel_left e
  simp at this
  exact h this

theorem GREAnalyzer.finish_routing (env : Env) (w : World) (len : Nat) (data : List Nat)
    (packet : Packet) (proto : Int) (flags v g ppp : Nat) (l : GRELocals)
    (h1 : flags &&& 0x4000 ≠ 0) :
    GREAnalyzer.finish env w len data packet proto flags v g ppp l
      = (false, packet, w.Weird "gre_routing" "") := by
  unfold GREAnalyzer.finish
  rw [if_pos h1]

theorem GREAnalyzer.finish_flags (env : Env) (w : World) (len : Nat) (data : List Nat)
    (packet : Packet) (proto : Int) (flags v g ppp : Nat) (l : GRELocals)
    (h1 : flags &&& 0x4000 = 0) (h2 : flags &&& 0x0078 ≠ 0) :
    GREAnalyzer.finish env w len data packet proto flags v g ppp l
      = (false, packet, w.Weird "unknown_gre_flags" "") := by
  unfold GREAnalyzer.finish
  rw [if_neg (not_not.mpr h1), if_pos h2]

theorem GREAnalyzer.finish_truncated (env : Env) (w : World) (len : Nat) (data : List Nat)
    (packet : Packet) (proto : Int) (flags v g ppp : Nat) (l : GRELocals)
    (h1 : flags &&& 0x4000 = 0) (h2 : flags &&& 0x0078 = 0)
    (h3 : len < g + ppp + l.eth_len + l.erspan_len) :
    GREAnalyzer.finish env w len data packet proto flags v g ppp l
      = (false, packet, w.Weird "truncated_GRE" "") := by
  unfold GREAnalyzer.finish
  rw [if_neg (not_not.mpr h1), if_neg (not_not.mpr h2), if_pos h3]

theorem GREAnalyzer.finish_non_ip (env : Env) (w : World) (len : Nat) (data : List Nat)
    (packet : Packet) (proto : Int) (flags g ppp : Nat) (l : GRELocals)
    (h1 : flags &&& 0x4000 = 0) (h2 : flags &&& 0x0078 = 0)
    (h3 : ¬ len < g + ppp + l.eth_len + l.erspan_len)
    (h21 : ntohs16 data (g + 2) ≠ 0x0021) (h57 : ntohs16 data (g + 2) ≠ 0x0057) :
    GREAnalyzer.finish env w len data packet proto flags 1 g ppp l
      = (false, packet, (w.read [g + 2, g + 2 + 1]).Weird "non_ip_packet_in_encap" "") := by
  unfold GREAnalyzer.finish
  rw [if_neg (not_not.mpr h1), if_neg (not_not.mpr h2), if_neg h3, if_pos rfl]
  simp only
  rw [if_pos ⟨h21, h57⟩]

/-- C8 (amended): a GRE version 1 packet with the outer IP header present and
GRE enabled. It is accepted only if the protocol type is 0x880b and the PPP
protocol at offset `gre_header_len + 2` is 0x0021 or 0x0057; then the deposited
`proto` is `IPPROTO_IPV4` for 0x0021 and `IPPROTO_IPV6` for 0x0057 and the
forwarded payload starts at offset `gre_header_len + 4`. A protocol type other
than 0x880b is rejected with the weird `egre_protocol_type`. With protocol type
0x880b, any other PPP protocol is rejected, and the weird is
`non_ip_packet_in_encap` exactly when the routing bit and the reserved bits are
clear and the packet holds the GRE and PPP headers. -/
theorem GREAnalyzer.version1_outcome (env : Env) (w : World) (len : Nat) (data : List Nat)
    (packet : Packet) (hdr : IP_Hdr) (hlen : len < 2 ^ 64)
    (hip : packet.key_store.ip_hdr = some hdr) (hen : env.enable_gre = true)
    (hv : ntohs16 data 0 &&& 0x0007 = 1) :
    ((GREAnalyzer.AnalyzePacket env w len data packet).1 = true →
        ntohs16 data 2 = 0x880b ∧
        (ntohs16 data (gre_header_len (ntohs16 data 0) + 2) = 0x0021 ∨
          ntohs16 data (gre_header_len (ntohs16 data 0) + 2) = 0x0057) ∧
        (GREAnalyzer.AnalyzePacket env w len data packet).2.1.key_store.proto
          = some (if ntohs16 data (gre_header_len (ntohs16 data 0) + 2) = 0x0021
              then IPPROTO_IPV4 else IPPROTO_IPV6) ∧
        gre_header_len (ntohs16 data 0) + 4 ≤ len ∧
        (GREAnalyzer.AnalyzePacket env w len data packet).2.2.calls
          = w.calls ++ [PipelineCall.ForwardPacket (len - (gre_header_len (ntohs16 data 0) + 4))
              (data.drop (gre_header_len (ntohs16 data 0) + 4))
              (GREAnalyzer.AnalyzePacket env w len data packet).2.1]) ∧
      (ntohs16 data 2 ≠ 0x880b →
        (GREAnalyzer.AnalyzePacket env w len data packet).1 = false ∧
        (GREAnalyzer.AnalyzePacket env w len data packet).2.2.weirds
          = w.weirds ++ [⟨"egre_protocol_type", toString (ntohs16 data 2)⟩]) ∧
      (ntohs16 data 2 = 0x880b →
        ntohs16 data (gre_header_len (ntohs16 data 0) + 2) ≠ 0x0021 →
        ntohs16 data (gre_header_len (ntohs16 data 0) + 2) ≠ 0x0057 →
        (GREAnalyzer.AnalyzePacket env w len data packet).1 = false ∧
        ((GREAnalyzer.AnalyzePacket env w len data packet).2.2.weirds
            = w.weirds ++ [⟨"non_ip_packet_in_encap", ""⟩]
          ↔ (ntohs16 data 0 &&& 0x4000 = 0 ∧ ntohs16 data 0 &&& 0x0078 = 0 ∧
              gre_header_len (ntohs16 data 0) + 4 ≤ len))) := by
  refine ⟨?_, ?_, ?_⟩
  · intro hacc
    obtain ⟨l, p, w2, hc, _, hA, hle, _, hp⟩ :=
      GREAnalyzer.accept_deliver env w len data packet hacc
    rw [if_pos hv] at hp hle hA
    obtain ⟨hpt, he, hppp, hpv⟩ := hp
    rw [he] at hle
    have hle' : gre_header_len (ntohs16 data 0) + 4 ≤ len := by omega
    refine ⟨hpt, hppp, ?_, hle', ?_⟩
    · rw [hA, GREAnalyzer.deliver_eq, hpv]
      rfl
    · rw [hA, GREAnalyzer.deliver_eq, he]
      simp only [World.call, hc, Nat.add_zero]
      rw [wrap_sub _ _ hle' hlen]
  · intro hpt
    rw [GREAnalyzer.AnalyzePacket_v1 env w len data packet hdr hip hen hv, if_pos hpt]
    exact ⟨rfl, rfl⟩
  · intro hpt h21 h57
    rw [GREAnalyzer.AnalyzePacket_v1 env w len data packet hdr hip hen hv,
      if_neg (by simpa using hpt)]
    by_cases h1 : ntohs16 data 0 &&& 0x4000 = 0
    · by_cases h2 : ntohs16 data 0 &&& 0x0078 = 0
      · by_cases h3 : len < gre_header_len (ntohs16 data 0) + 4 + 0 + 0
        · rw [GREAnalyzer.finish_truncated _ _ _ _ _ _ _ _ _ _ _ h1 h2 h3]
          refine ⟨rfl, ?_⟩
          constructor
          · intro e
            exact absurd e (weird_append_ne _ _ _ (by decide))
          · intro h
            omega
        · rw [GREAnalyzer.finish_non_ip _ _ _ _ _ _ _ _ _ _ h1 h2 h3 h21 h57]
          refine ⟨rfl, ?_⟩
          constructor
          · intro _
            exact ⟨h1, h2, by omega⟩
          · intro _
            rfl
      · rw [GREAnalyzer.finish_flags _ _ _ _ _ _ _ _ _ _ _ h1 h2]
        refine ⟨rfl, ?_⟩
        constructor
        · intro e
          exact absurd e (weird_append_ne _ _ _ (by decide))
        · intro h
          exact absurd h.2.1 h2
    · rw [GREAnalyzer.finish_routing _ _ _ _ _ _ _ _ _ _ _ h1]
      refine ⟨rfl, ?_⟩
      constructor
      · intro e
        exact absurd e (weird_append_ne _ _ _ (by decide))
      · intro h
        exact absurd h.1 h1

/-- Witness for C8: a PPTP packet carrying IPv4 is accepted with
`proto = IPPROTO_IPV4`. -/
theorem GREAnalyzer.version1_outcome_witness :
    (GREAnalyzer.AnalyzePacket sampleEnv sampleWorld 28 greV1Data grePacket).1 = true ∧
      (GREAnalyzer.AnalyzePacket sampleEnv sampleWorld 28 greV1Data grePacket).2.1.key_store.proto
        = some (if ntohs16 greV1Data (gre_header_len (ntohs16 greV1Data 0) + 2) = 0x0021
            then IPPROTO_IPV4 else IPPROTO_IPV6) :=
  ⟨by decide,
    ((GREAnalyzer.version1_outcome sampleEnv sampleWorld 28 greV1Data grePacket sampleHdr
      (by decide) rfl rfl (by decide)).1 (by decide)).2.2.1⟩

/-- Counterexample to C8 as stated: a version 1 packet with protocol type
0x880b, the routing bit set and a PPP protocol that is neither 0x0021 nor
0x0057 is rejected with the weird `gre_routing`, not `non_ip_packet_in_encap`. -/
theorem GREAnalyzer.version1_routing_not_non_ip :
    grePacket.key_store.ip_hdr = some sampleHdr ∧ sampleEnv.enable_gre = true ∧
      ntohs16 greV1RoutingData 0 &&& 0x0007 = 1 ∧
      ntohs16 greV1RoutingData 2 = 0x880b ∧
      ntohs16 greV1RoutingData (gre_header_len (ntohs16 greV1RoutingData 0) + 2) ≠ 0x0021 ∧
      ntohs16 greV1RoutingData (gre_header_len (ntohs16 greV1RoutingData 0) + 2) ≠ 0x0057 ∧
      (GREAnalyzer.AnalyzePacket sampleEnv sampleWorld 8 greV1RoutingData grePacket).1 = false ∧
      (GREAnalyzer.AnalyzePacket sampleEnv sampleWorld 8 greV1RoutingData
        grePacket).2.2.weirds = [⟨"gre_routing", ""⟩] := by
  decide

/-- C9: `GREAnalyzer::AnalyzePacket` is all-or-nothing. When it returns true,
the key store differs from the incoming one exactly in the four keys
`tunnel_type` (set to GRE), `gre_version`, `gre_link_type` and `proto`, and
exactly one `ForwardPacket` call is made, on that packet, with the payload after
the stripped bytes and with length `len` minus the stripped bytes, a
subtraction that does not wrap; the stripped bytes are the GRE header, 4 bytes
of PPP header for version 1, and 0, 8, 12 or 20 bytes of ERSPAN framing. When it
returns false, the packet is unchanged and no pipeline call is made. -/
theorem GREAnalyzer.all_or_nothing (env : Env) (w : World) (len : Nat) (data : List Nat)
    (packet : Packet) (hlen : len < 2 ^ 64) :
    if (GREAnalyzer.AnalyzePacket env w len data packet).1 = true then
      ∃ (lt p : Int) (erspan : Nat),
        (GREAnalyzer.AnalyzePacket env w len data packet).2.1
          = { packet with key_store :=
              { packet.key_store with
                tunnel_type := some TunnelType.GRE
                gre_version := some ((ntohs16 data 0 &&& 0x0007 : Nat) : Int)
                gre_link_type := some lt
                proto := some p } } ∧
        erspan ∈ [0, 8, 12, 20] ∧
        gre_header_len (ntohs16 data 0) + (if ntohs16 data 0 &&& 0x0007 = 1 then 4 else 0)
          + erspan ≤ len ∧
        (len + 2 ^ 64 - (gre_header_len (ntohs16 data 0)
            + (if ntohs16 data 0 &&& 0x0007 = 1 then 4 else 0) + erspan)) % 2 ^ 64
          = len - (gre_header_len (ntohs16 data 0)
            + (if ntohs16 data 0 &&& 0x0007 = 1 then 4 else 0) + erspan) ∧
        (GREAnalyzer.AnalyzePacket env w len data packet).2.2.calls
          = w.calls ++ [PipelineCall.ForwardPacket
              (len - (gre_header_len (ntohs16 data 0)
                + (if ntohs16 data 0 &&& 0x0007 = 1 then 4 else 0) + erspan))
              (data.drop (gre_header_len (ntohs16 data 0)
                + (if ntohs16 data 0 &&& 0x0007 = 1 then 4 else 0) + erspan))
              (GREAnalyzer.AnalyzePacket env w len data packet).2.1]
    else
      (GREAnalyzer.AnalyzePacket env w len data packet).2.1 = packet ∧
        (GREAnalyzer.AnalyzePacket env w len data packet).2.2.calls = w.calls := by
  by_cases hacc : (GREAnalyzer.AnalyzePacket env w len data packet).1 = true
  · rw [if_pos hacc]
    obtain ⟨l, p, w2, hc, _, hA, hle, he, _⟩ :=
      GREAnalyzer.accept_deliver env w len data packet hacc
    have hk : gre_header_len (ntohs16 data 0)
        + (if ntohs16 data 0 &&& 0x0007 = 1 then 4 else 0) + l.erspan_len ≤ len := by omega
    refine ⟨l.gre_link_type, p, l.erspan_len, ?_, he, hk, wrap_sub _ _ hk hlen, ?_⟩
    · rw [hA, GREAnalyzer.deliver_eq]
      rfl
    · rw [hA, GREAnalyzer.deliver_eq]
      simp only [World.call, hc]
      rw [wrap_sub _ _ hk hlen]
  · rw [if_neg hacc]
    have hrej : (GREAnalyzer.AnalyzePacket env w len data packet).1 = false := by
      simpa using hacc
    exact GREAnalyzer.reject_frame env w len data packet hrej

/-- Witness for C9: on an accepted GRE version 0 packet the four keys are
deposited and the other keys are untouched. -/
theorem GREAnalyzer.all_or_nothing_witness :
    ∃ (lt p : Int) (erspan : Nat),
      (GREAnalyzer.AnalyzePacket sampleEnv sampleWorld 24 greV0Data grePacket).2.1
        = { grePacket with key_store :=
            { grePacket.key_store with
              tunnel_type := some TunnelType.GRE
              gre_version := some ((ntohs16 greV0Data 0 &&& 0x0007 : Nat) : Int)
              gre_link_type := some lt
              proto := some p } } ∧
      erspan ∈ [0, 8, 12, 20] := by
  have h := GREAnalyzer.all_or_nothing sampleEnv sampleWorld 24 greV0Data grePacket (by decide)
  rw [if_pos (by decide)] at h
  obtain ⟨lt, p, e, h1, h2, _⟩ := h
  exact ⟨lt, p, e, h1, h2⟩

theorem GREAnalyzer.version0_deposits_minus_one (env : Env) (w : World) (len : Nat)
    (data : List Nat) (packet : Packet) (hv : ntohs16 data 0 &&& 0x0007 = 0)
    (hacc : (GREAnalyzer.AnalyzePacket env w len data packet).1 = true) :
    (GREAnalyzer.AnalyzePacket env w len data packet).2.1.key_store.proto = some (-1) := by
  obtain ⟨l, p, w2, _, _, hA, _, _, hp⟩ := GREAnalyzer.accept_deliver env w len data packet hacc
  rw [hv, if_neg (by decide)] at hp
  rw [hA, GREAnalyzer.deliver_eq, hp]
  rfl

/-- C10 (the code departs from the claim): a GRE version 0 packet whose key
store holds `proto = 47` is accepted, and the value deposited under `proto` is
-1, not 47. -/
theorem GREAnalyzer.proto_not_propagated :
    grePacket.key_store.proto = some 47 ∧
      ntohs16 greV0Data 0 &&& 0x0007 = 0 ∧
      (GREAnalyzer.AnalyzePacket sampleEnv sampleWorld 24 greV0Data grePacket).1 = true ∧
      (GREAnalyzer.AnalyzePacket sampleEnv sampleWorld 24 greV0Data
        grePacket).2.1.key_store.proto = some (-1) := by
  decide

/-! ## Truncation and flag checks of the GRE analyzer -/

theorem weird_name_ne (ws : List Weird) (a b : Weird) (h : a.name ≠ b.name) :
    ws ++ [a] ≠ ws ++ [b] :=
  weird_append_ne ws a b (fun e => h (congrArg Weird.name e))

theorem GREAnalyzer.version0_truncated (w : World) (len : Nat) (data : List Nat) (g pt : Nat)
    (heth : pt = 0x6558 ∨ pt = 0x88be ∨ pt = 0x22eb)
    (hlen : len ≤ g + (if pt = 0x6558 then 14 else if pt = 0x88be then 8 + 14
      else if byteAt data (g + 11) &&& 0x01 = 0x01 then 12 + 8 + 14 else 12 + 14)) :
    ∃ w1, GREAnalyzer.version0 w len data g pt = (none, w1) ∧
      w1.weirds = w.weirds ++ [⟨"truncated_GRE", ""⟩] ∧ w1.calls = w.calls := by
  unfold GREAnalyzer.version0
  rcases heth with h | h | h
  · subst h
    rw [if_pos rfl] at hlen
    rw [if_pos rfl, if_neg (by omega)]
    exact ⟨_, rfl, rfl, rfl⟩
  · subst h
    rw [if_neg (by decide), if_pos rfl] at hlen
    rw [if_neg (by decide), if_pos rfl, if_neg (by omega)]
    exact ⟨_, rfl, rfl, rfl⟩
  · subst h
    rw [if_neg (by decide), if_neg (by decide)] at hlen
    rw [if_neg (by decide), if_neg (by decide), if_pos rfl]
    by_cases c : len > g + 14 + 12
    · rw [if_pos c]
      by_cases o : byteAt data (g + 11) &&& 0x01 = 0x01
      · rw [if_pos o] at hlen
        have o' : decide (byteAt data (g + 12 - 1) &&& 0x01 = 0x01) = true := decide_eq_true o
        simp only [o', if_true]
        rw [if_neg (by omega)]
        exact ⟨_, rfl, rfl, rfl⟩
      · rw [if_neg o] at hlen
        omega
    · rw [if_neg c]
      exact ⟨_, rfl, rfl, rfl⟩

theorem GREAnalyzer.version0_plain (w : World) (len : Nat) (data : List Nat) (g pt : Nat)
    (h1 : pt ≠ 0x6558) (h2 : pt ≠ 0x88be) (h3 : pt ≠ 0x22eb) :
    GREAnalyzer.version0 w len data g pt = (some ⟨pt, 0, 0, DLT_RAW⟩, w) := by
  unfold GREAnalyzer.version0
  rw [if_neg h1, if_neg h2, if_neg h3]

theorem GREAnalyzer.finish_short (env : Env) (w : World) (len : Nat) (data : List Nat)
    (packet : Packet) (proto : Int) (flags v g ppp : Nat) (l : GRELocals)
    (h : len < g + ppp + l.eth_len + l.erspan_len) :
    (GREAnalyzer.finish env w len data packet proto flags v g ppp l).1 = false ∧
      (GREAnalyzer.finish env w len data packet proto flags v g ppp l).2.1 = packet ∧
      (GREAnalyzer.finish env w len data packet proto flags v g ppp l).2.2.calls = w.calls ∧
      ((GREAnalyzer.finish env w len data packet proto flags v g ppp l).2.2.weirds
          = w.weirds ++ [⟨"truncated_GRE", ""⟩]
        ↔ flags &&& 0x4000 = 0 ∧ flags &&& 0x0078 = 0) := by
  by_cases h1 : flags &&& 0x4000 = 0
  · by_cases h2 : flags &&& 0x0078 = 0
    · rw [GREAnalyzer.finish_truncated _ _ _ _ _ _ _ _ _ _ _ h1 h2 h]
      exact ⟨rfl, rfl, rfl, ⟨fun _ => ⟨h1, h2⟩, fun _ => rfl⟩⟩
    · rw [GREAnalyzer.finish_flags _ _ _ _ _ _ _ _ _ _ _ h1 h2]
      exact ⟨rfl, rfl, rfl,
        ⟨fun e => absurd e (weird_append_ne _ _ _ (by decide)), fun e => absurd e.2 h2⟩⟩
  · rw [GREAnalyzer.finish_routing _ _ _ _ _ _ _ _ _ _ _ h1]
    exact ⟨rfl, rfl, rfl,
      ⟨fun e => absurd e (weird_append_ne _ _ _ (by decide)), fun e => absurd e.1 h1⟩⟩

/-- C11 (amended): a GRE packet of version 0 or 1, with the outer IP header
present and GRE enabled, whose length is below its full header length is
rejected: the analyzer returns false, leaves the packet unchanged and forwards
nothing. The weird is `truncated_GRE` exactly when the packet is version 0 with
protocol type 0x6558, 0x88be or 0x22eb, or when the routing bit and the
reserved bits are clear and, for version 1, the protocol type is 0x880b;
otherwise an earlier check has named the weird. -/
theorem GREAnalyzer.truncated_rejected (env : Env) (w : World) (len : Nat)
    (data : List Nat) (packet : Packet) (hdr : IP_Hdr)
    (hip : packet.key_store.ip_hdr = some hdr) (hen : env.enable_gre = true)
    (hv : ntohs16 data 0 &&& 0x0007 = 0 ∨ ntohs16 data 0 &&& 0x0007 = 1)
    (hlt : len < GREAnalyzer.claimedHeaderLen data) :
    (GREAnalyzer.AnalyzePacket env w len data packet).1 = false ∧
      (GREAnalyzer.AnalyzePacket env w len data packet).2.1 = packet ∧
      (GREAnalyzer.AnalyzePacket env w len data packet).2.2.calls = w.calls ∧
      ((GREAnalyzer.AnalyzePacket env w len data packet).2.2.weirds
          = w.weirds ++ [⟨"truncated_GRE", ""⟩]
        ↔ (ntohs16 data 0 &&& 0x0007 = 0 ∧
            (ntohs16 data 2 = 0x6558 ∨ ntohs16 data 2 = 0x88be ∨ ntohs16 data 2 = 0x22eb)) ∨
          (ntohs16 data 0 &&& 0x4000 = 0 ∧ ntohs16 data 0 &&& 0x0078 = 0 ∧
            (ntohs16 data 0 &&& 0x0007 = 1 → ntohs16 data 2 = 0x880b))) := by
  unfold GREAnalyzer.claimedHeaderLen at hlt
  rcases hv with hv | hv
  · rw [GREAnalyzer.AnalyzePacket_v0 env w len data packet hdr hip hen hv]
    rw [hv, if_neg (by decide)] at hlt
    by_cases heth : ntohs16 data 2 = 0x6558 ∨ ntohs16 data 2 = 0x88be ∨ ntohs16 data 2 = 0x22eb
    · have hlen : len ≤ gre_header_len (ntohs16 data 0)
          + (if ntohs16 data 2 = 0x6558 then 14 else if ntohs16 data 2 = 0x88be then 8 + 14
            else if byteAt data (gre_header_len (ntohs16 data 0) + 11) &&& 0x01 = 0x01
              then 12 + 8 + 14 else 12 + 14) := by
        rcases heth with h | h | h
        · rw [if_pos h] at hlt ⊢
          omega
        · have h1 : ntohs16 data 2 ≠ 0x6558 := by rw [h]; decide
          rw [if_neg h1, if_pos h] at hlt ⊢
          omega
        · have h1 : ntohs16 data 2 ≠ 0x6558 := by rw [h]; decide
          have h2 : ntohs16 data 2 ≠ 0x88be := by rw [h]; decide
          rw [if_neg h1, if_neg h2, if_pos h] at hlt
          rw [if_neg h1, if_neg h2]
          omega
      obtain ⟨w1, h0, hw1, hc1⟩ := GREAnalyzer.version0_truncated (w.read [0, 1, 2, 3]) len data
        (gre_header_len (ntohs16 data 0)) (ntohs16 data 2) heth hlen
      rw [h0]
      exact ⟨rfl, rfl, hc1, ⟨fun _ => Or.inl ⟨hv, heth⟩, fun _ => hw1⟩⟩
    · have h1 : ntohs16 data 2 ≠ 0x6558 := fun e => heth (Or.inl e)
      have h2 : ntohs16 data 2 ≠ 0x88be := fun e => heth (Or.inr (Or.inl e))
      have h3 : ntohs16 data 2 ≠ 0x22eb := fun e => heth (Or.inr (Or.inr e))
      rw [if_neg h1, if_neg h2, if_neg h3] at hlt
      rw [GREAnalyzer.version0_plain _ _ _ _ _ h1 h2 h3]
      obtain ⟨hr, hp, hc, hw⟩ := GREAnalyzer.finish_short env (w.read [0, 1, 2, 3]) len data
        packet (-1) (ntohs16 data 0) 0 (gre_header_len (ntohs16 data 0)) 0
        ⟨ntohs16 data 2, 0, 0, DLT_RAW⟩ (by omega)
      refine ⟨hr, hp, hc, ?_⟩
      constructor
      · intro e
        have := hw.mp e
        exact Or.inr ⟨this.1, this.2, fun h => by rw [hv] at h; cases h⟩
      · intro e
        rcases e with e | e
        · exact absurd e.2 heth
        · exact hw.mpr ⟨e.1, e.2.1⟩
  · rw [GREAnalyzer.AnalyzePacket_v1 env w len data packet hdr hip hen hv]
    rw [hv, if_pos rfl] at hlt
    by_cases hpt : ntohs16 data 2 = 0x880b
    · rw [if_neg (not_not.mpr hpt)]
      have h1 : ntohs16 data 2 ≠ 0x6558 := by rw [hpt]; decide
      have h2 : ntohs16 data 2 ≠ 0x88be := by rw [hpt]; decide
      have h3 : ntohs16 data 2 ≠ 0x22eb := by rw [hpt]; decide
      rw [if_neg h1, if_neg h2, if_neg h3] at hlt
      obtain ⟨hr, hp, hc, hw⟩ := GREAnalyzer.finish_short env (w.read [0, 1, 2, 3]) len data
        packet (-1) (ntohs16 data 0) 1 (gre_header_len (ntohs16 data 0)) 4
        ⟨ntohs16 data 2, 0, 0, DLT_RAW⟩ (by omega)
      refine ⟨hr, hp, hc, ?_⟩
      constructor
      · intro e
        have := hw.mp e
        exact Or.inr ⟨this.1, this.2, fun _ => hpt⟩
      · intro e
        rcases e with e | e
        · rw [hv] at e
          exact absurd e.1 (by decide)
        · exact hw.mpr ⟨e.1, e.2.1⟩
    · rw [if_pos hpt]
      refine ⟨rfl, rfl, rfl, ?_⟩
      constructor
      · intro e
        have hne : ("egre_protocol_type" : String) ≠ "truncated_GRE" := by decide
        exact absurd e (weird_name_ne _ _ _ hne)
      · intro e
        rcases e with e | e
        · rw [hv] at e
          exact absurd e.1 (by decide)
        · exact absurd (e.2.2 hv) hpt

/-- Witness for C11: a transparent Ethernet bridging packet of 14 bytes, below
its 18 header bytes, is rejected. -/
theorem GREAnalyzer.truncated_rejected_witness :
    (GREAnalyzer.AnalyzePacket sampleEnv sampleWorld 14 greTEBShortData grePacket).1 = false ∧
      (GREAnalyzer.AnalyzePacket sampleEnv sampleWorld 14 greTEBShortData grePacket).2.1
        = grePacket :=
  have h := GREAnalyzer.truncated_rejected sampleEnv sampleWorld 14 greTEBShortData grePacket
    sampleHdr rfl rfl (by decide) (by decide)
  ⟨h.1, h.2.1⟩

/-- Counterexample to C11 as stated: a version 0 packet with protocol type
0x0800 and the checksum and routing bits set has an 8-byte GRE header; with
`len = 4` it is rejected with the weird `gre_routing`, not `truncated_GRE`. -/
theorem GREAnalyzer.truncated_with_routing_bit :
    grePacket.key_store.ip_hdr = some sampleHdr ∧ sampleEnv.enable_gre = true ∧
      ntohs16 greRoutingShortData 0 &&& 0x0007 = 0 ∧
      4 < GREAnalyzer.claimedHeaderLen greRoutingShortData ∧
      (GREAnalyzer.AnalyzePacket sampleEnv sampleWorld 4 greRoutingShortData
        grePacket).2.2.weirds = [⟨"gre_routing", ""⟩] := by
  decide

theorem GREAnalyzer.accept_flags_clear (env : Env) (w : World) (len : Nat) (data : List Nat)
    (packet : Packet) (hacc : (GREAnalyzer.AnalyzePacket env w len data packet).1 = true) :
    ntohs16 data 0 &&& 0x4000 = 0 ∧ ntohs16 data 0 &&& 0x0078 = 0 := by
  obtain ⟨⟨hdr, hip⟩, hen, hv⟩ := GREAnalyzer.accept_pre env w len data packet hacc
  rcases hv with hv | hv
  · rw [GREAnalyzer.AnalyzePacket_v0 env w len data packet hdr hip hen hv] at hacc
    cases h0 : GREAnalyzer.version0 (w.read [0, 1, 2, 3]) len data
        (gre_header_len (ntohs16 data 0)) (ntohs16 data 2) with
    | mk ol w1 =>
      cases ol with
      | none => rw [h0] at hacc; cases hacc
      | some l =>
        rw [h0] at hacc
        simp only at hacc
        obtain ⟨h1, h2, _⟩ := GREAnalyzer.finish_true _ _ _ _ _ _ _ _ _ _ _ hacc
        exact ⟨h1, h2⟩
  · rw [GREAnalyzer.AnalyzePacket_v1 env w len data packet hdr hip hen hv] at hacc
    by_cases hpt : ntohs16 data 2 ≠ 0x880b
    · rw [if_pos hpt] at hacc
      cases hacc
    · rw [if_neg hpt] at hacc
      obtain ⟨h1, h2, _⟩ := GREAnalyzer.finish_true _ _ _ _ _ _ _ _ _ _ _ hacc
      exact ⟨h1, h2⟩

theorem GREAnalyzer.version0_passes (w : World) (len : Nat) (data : List Nat) (g pt : Nat)
    (hpass : (pt = 0x6558 ∨ pt = 0x88be ∨ pt = 0x22eb) →
      g + (if pt = 0x6558 then 14 else if pt = 0x88be then 8 + 14
        else if byteAt data (g + 11) &&& 0x01 = 0x01 then 12 + 8 + 14 else 12 + 14) < len) :
    ∃ l w1, GREAnalyzer.version0 w len data g pt = (some l, w1) := by
  unfold GREAnalyzer.version0
  by_cases h1 : pt = 0x6558
  · have hp := hpass (Or.inl h1)
    rw [if_pos h1] at hp
    rw [if_pos h1, if_pos (by omega)]
    exact ⟨_, _, rfl⟩
  · by_cases h2 : pt = 0x88be
    · have hp := hpass (Or.inr (Or.inl h2))
      rw [if_neg h1, if_pos h2] at hp
      rw [if_neg h1, if_pos h2, if_pos (by omega)]
      exact ⟨_, _, rfl⟩
    · by_cases h3 : pt = 0x22eb
      · have hp := hpass (Or.inr (Or.inr h3))
        rw [if_neg h1, if_neg h2] at hp
        rw [if_neg h1, if_neg h2, if_pos h3]
        by_cases o : byteAt data (g + 11) &&& 0x01 = 0x01
        · rw [if_pos o] at hp
          have o' : decide (byteAt data (g + 12 - 1) &&& 0x01 = 0x01) = true :=
            decide_eq_true o
          rw [if_pos (by omega)]
          simp only [o', if_true]
          rw [if_pos (by omega)]
          exact ⟨_, _, rfl⟩
        · rw [if_neg o] at hp
          have o' : decide (byteAt data (g + 12 - 1) &&& 0x01 = 0x01) = false :=
            decide_eq_false o
          rw [if_pos (by omega)]
          simp only [o', Bool.false_eq_true, if_false]
          exact ⟨_, _, rfl⟩
      · rw [if_neg h1, if_neg h2, if_neg h3]
        exact ⟨_, _, rfl⟩

/-- C12: no packet with flag bit 0x4000 or a bit of 0x0078 set is forwarded:
the analyzer returns false, leaves the packet unchanged and makes no pipeline
call. For a packet of version 0 or 1 that reaches and passes the protocol type
check (version 1: type 0x880b) and the encapsulated Ethernet length check
(version 0 with type 0x6558, 0x88be or 0x22eb: `len` above the full header
length), the only weird emitted is `gre_routing` when bit 0x4000 is set, and
otherwise `unknown_gre_flags` when a bit of 0x0078 is set. -/
theorem GREAnalyzer.routing_and_reserved_bits (env : Env) (w : World) (len : Nat)
    (data : List Nat) (packet : Packet) :
    ((ntohs16 data 0 &&& 0x4000 ≠ 0 ∨ ntohs16 data 0 &&& 0x0078 ≠ 0) →
        (GREAnalyzer.AnalyzePacket env w len data packet).1 = false ∧
        (GREAnalyzer.AnalyzePacket env w len data packet).2.1 = packet ∧
        (GREAnalyzer.AnalyzePacket env w len data packet).2.2.calls = w.calls) ∧
      (∀ hdr, packet.key_store.ip_hdr = some hdr → env.enable_gre = true →
        ((ntohs16 data 0 &&& 0x0007 = 0 ∧
            ((ntohs16 data 2 = 0x6558 ∨ ntohs16 data 2 = 0x88be ∨ ntohs16 data 2 = 0x22eb) →
              GREAnalyzer.claimedHeaderLen data < len)) ∨
          (ntohs16 data 0 &&& 0x0007 = 1 ∧ ntohs16 data 2 = 0x880b)) →
        (ntohs16 data 0 &&& 0x4000 ≠ 0 →
          (GREAnalyzer.AnalyzePacket env w len data packet).1 = false ∧
          (GREAnalyzer.AnalyzePacket env w len data packet).2.2.weirds
            = w.weirds ++ [⟨"gre_routing", ""⟩] ∧
          (GREAnalyzer.AnalyzePacket env w len data packet).2.2.calls = w.calls) ∧
        (ntohs16 data 0 &&& 0x4000 = 0 → ntohs16 data 0 &&& 0x0078 ≠ 0 →
          (GREAnalyzer.AnalyzePacket env w len data packet).1 = false ∧
          (GREAnalyzer.AnalyzePacket env w len data packet).2.2.weirds
            = w.weirds ++ [⟨"unknown_gre_flags", ""⟩] ∧
          (GREAnalyzer.AnalyzePacket env w len data packet).2.2.calls = w.calls)) := by
  refine ⟨?_, ?_⟩
  · intro hbits
    have hrej : (GREAnalyzer.AnalyzePacket env w len data packet).1 = false := by
      cases hb : (GREAnalyzer.AnalyzePacket env w len data packet).1 with
      | false => rfl
      | true =>
        obtain ⟨h1, h2⟩ := GREAnalyzer.accept_flags_clear env w len data packet hb
        rcases hbits with h | h
        · exact absurd h1 h
        · exact absurd h2 h
    exact ⟨hrej, GREAnalyzer.reject_frame env w len data packet hrej⟩
  · intro hdr hip hen hpass
    have hshape : ∃ v ppp l w1, w1.weirds = w.weirds ∧ w1.calls = w.calls ∧
        GREAnalyzer.AnalyzePacket env w len data packet
          = GREAnalyzer.finish env w1 len data packet (-1) (ntohs16 data 0) v
              (gre_header_len (ntohs16 data 0)) ppp l := by
      rcases hpass with ⟨hv, hp⟩ | ⟨hv, hpt⟩
      · have hp' : (ntohs16 data 2 = 0x6558 ∨ ntohs16 data 2 = 0x88be ∨
            ntohs16 data 2 = 0x22eb) →
            gre_header_len (ntohs16 data 0)
              + (if ntohs16 data 2 = 0x6558 then 14 else if ntohs16 data 2 = 0x88be then 8 + 14
                else if byteAt data (gre_header_len (ntohs16 data 0) + 11) &&& 0x01 = 0x01
                  then 12 + 8 + 14 else 12 + 14) < len := by
          intro heth
          have := hp heth
          unfold GREAnalyzer.claimedHeaderLen at this
          rw [hv, if_neg (by decide)] at this
          rcases heth with h | h | h
          · rw [if_pos h] at this ⊢
            omega
          · have h1 : ntohs16 data 2 ≠ 0x6558 := by rw [h]; decide
            rw [if_neg h1, if_pos h] at this ⊢
            omega
          · have h1 : ntohs16 data 2 ≠ 0x6558 := by rw [h]; decide
            have h2 : ntohs16 data 2 ≠ 0x88be := by rw [h]; decide
            rw [if_neg h1, if_neg h2, if_pos h] at this
            rw [if_neg h1, if_neg h2]
            omega
        obtain ⟨l, w1, h0⟩ := GREAnalyzer.version0_passes (w.read [0, 1, 2, 3]) len data
          (gre_header_len (ntohs16 data 0)) (ntohs16 data 2) hp'
        obtain ⟨hc1, hw1, _⟩ := GREAnalyzer.version0_some _ _ _ _ _ _ _ h0
        refine ⟨0, 0, l, w1, hw1, hc1, ?_⟩
        rw [GREAnalyzer.AnalyzePacket_v0 env w len data packet hdr hip hen hv, h0]
      · refine ⟨1, 4, ⟨ntohs16 data 2, 0, 0, DLT_RAW⟩, w.read [0, 1, 2, 3], rfl, rfl, ?_⟩
        rw [GREAnalyzer.AnalyzePacket_v1 env w len data packet hdr hip hen hv,
          if_neg (not_not.mpr hpt)]
    obtain ⟨v, ppp, l, w1, hw1, hc1, hA⟩ := hshape
    refine ⟨?_, ?_⟩
    · intro h1
      rw [hA, GREAnalyzer.finish_routing _ _ _ _ _ _ _ _ _ _ _ h1]
      exact ⟨rfl, by simp [World.Weird, hw1], by simp [World.Weird, hc1]⟩
    · intro h1 h2
      rw [hA, GREAnalyzer.finish_flags _ _ _ _ _ _ _ _ _ _ _ h1 h2]
      exact ⟨rfl, by simp [World.Weird, hw1], by simp [World.Weird, hc1]⟩

/-! ## Enable flags and the depth check -/

/-- C13 (amended): on a packet whose key store holds `ip_hdr`, with
`Tunnel::enable_gre` false `GREAnalyzer::AnalyzePacket` returns false and its
only effect is the weird `GRE_tunnel` (packet and key store unchanged, nothing
forwarded); with `Tunnel::enable_ip` false `IPTunnelAnalyzer::AnalyzePacket`
returns false and its only effect is the weird `IP_tunnel` (no pipeline call,
no timer, `ip_tunnels` unchanged). -/
theorem tunnel_enable_flags (envG envI : Env) (w w' : World) (len len' : Nat)
    (data data' : List Nat) (packet packet' : Packet) (hdr hdr' : IP_Hdr)
    (hip : packet.key_store.ip_hdr = some hdr) (hgre : envG.enable_gre = false)
    (hip' : packet'.key_store.ip_hdr = some hdr') (hipt : envI.enable_ip = false) :
    GREAnalyzer.AnalyzePacket envG w len data packet
        = (false, packet, w.Weird "GRE_tunnel" "") ∧
      IPTunnelAnalyzer.AnalyzePacket envI w' len' data' packet'
        = (false, w'.Weird "IP_tunnel" "") := by
  constructor
  · unfold GREAnalyzer.AnalyzePacket
    simp only [hip, hgre, Bool.not_false, if_true]
  · unfold IPTunnelAnalyzer.AnalyzePacket
    simp only [hip', hipt, Bool.not_false, if_true]

/-- Witness for C13: both analyzers on a packet with an outer IP header, with
both tunnel kinds disabled. -/
theorem tunnel_enable_flags_witness :
    GREAnalyzer.AnalyzePacket { sampleEnv with enable_gre := false } sampleWorld 24 greV0Data
        grePacket = (false, grePacket, sampleWorld.Weird "GRE_tunnel" "") ∧
      IPTunnelAnalyzer.AnalyzePacket { sampleEnv with enable_ip := false } sampleWorld 60 []
        (samplePacket sampleHdr) = (false, sampleWorld.Weird "IP_tunnel" "") :=
  tunnel_enable_flags { sampleEnv with enable_gre := false }
    { sampleEnv with enable_ip := false } sampleWorld sampleWorld 24 60 greV0Data []
    grePacket (samplePacket sampleHdr) sampleHdr sampleHdr rfl rfl rfl rfl

/-- Counterexample to C13 as stated: on a packet whose key store has no
`ip_hdr`, with both tunnel kinds disabled, neither analyzer emits a weird; each
reports an internal error instead. -/
theorem tunnel_disabled_without_ip_hdr :
    Env.enable_gre { sampleEnv with enable_gre := false, enable_ip := false } = false ∧
      Env.enable_ip { sampleEnv with enable_gre := false, enable_ip := false } = false ∧
      (GREAnalyzer.AnalyzePacket { sampleEnv with enable_gre := false, enable_ip := false }
        sampleWorld 24 greV0Data Packet.fresh).2.2.weirds = [] ∧
      (GREAnalyzer.AnalyzePacket { sampleEnv with enable_gre := false, enable_ip := false }
        sampleWorld 24 greV0Data Packet.fresh).2.2.internal_errors
        = ["GREAnalyzer: ip_hdr not found in packet keystore"] ∧
      (IPTunnelAnalyzer.AnalyzePacket { sampleEnv with enable_gre := false, enable_ip := false }
        sampleWorld 60 [] Packet.fresh).2.weirds = [] ∧
      (IPTunnelAnalyzer.AnalyzePacket { sampleEnv with enable_gre := false, enable_ip := false }
        sampleWorld 60 [] Packet.fresh).2.internal_errors
        = ["IPTunnelAnalyzer: ip_hdr not found in packet keystore"] := by
  decide

theorem VXLAN_Analyzer.DeliverPacket_depth (env : VXLANEnv) (w : VXLANWorld) (len : Int)
    (data : List Nat) (caplen : Int) (s : EncapsulationStack)
    (hlen : 8 ≤ len) (hI : byteAt data 0 &&& 0x08 ≠ 0)
    (hs : w.conn.encapsulation = some s) (hd : env.max_depth ≤ s.Depth) :
    VXLAN_Analyzer.DeliverPacket env w len data caplen = w.Weird "tunnel_depth" := by
  unfold VXLAN_Analyzer.DeliverPacket
  have h1 : ¬ len < 8 := by omega
  simp only [h1, if_false, hI, hs, Option.isSome_some, Option.getD_some, true_and, ge_iff_le,
    hd, if_true]

/-- C14 (amended): when the incoming stack exists and its depth is at least
`Tunnel::max_depth`, `IPTunnelAnalyzer::AnalyzePacket` returns false with no
pipeline call, no timer and `ip_tunnels` unchanged, and, provided `ip_hdr` is
present and `Tunnel::enable_ip` is true, its only effect is the weird
`exceeded_tunnel_max_depth`; `VXLAN_Analyzer::DeliverPacket`, for a header that
passed validation, has the weird `tunnel_depth` as its only effect: no inner
packet is built or handed on and the stack of the connection is not extended. -/
theorem tunnel_depth_exceeded (env : Env) (w : World) (len : Nat) (data : List Nat)
    (packet : Packet) (s : EncapsulationStack)
    (venv : VXLANEnv) (vw : VXLANWorld) (vlen : Int) (vdata : List Nat) (vcaplen : Int)
    (vs : EncapsulationStack)
    (hs : packet.key_store.encap = some s) (hd : env.max_depth ≤ s.Depth)
    (hlen : 8 ≤ vlen) (hI : byteAt vdata 0 &&& 0x08 ≠ 0)
    (hvs : vw.conn.encapsulation = some vs) (hvd : venv.max_depth ≤ vs.Depth) :
    (IPTunnelAnalyzer.AnalyzePacket env w len data packet).1 = false ∧
      (IPTunnelAnalyzer.AnalyzePacket env w len data packet).2.calls = w.calls ∧
      (IPTunnelAnalyzer.AnalyzePacket env w len data packet).2.ip_tunnels = w.ip_tunnels ∧
      (IPTunnelAnalyzer.AnalyzePacket env w len data packet).2.timers = w.timers ∧
      (∀ hdr, packet.key_store.ip_hdr = some hdr → env.enable_ip = true →
        IPTunnelAnalyzer.AnalyzePacket env w len data packet
          = (false, w.Weird "exceeded_tunnel_max_depth" "")) ∧
      VXLAN_Analyzer.DeliverPacket venv vw vlen vdata vcaplen = vw.Weird "tunnel_depth" := by
  have hrej : (IPTunnelAnalyzer.AnalyzePacket env w len data packet).1 = false := by
    cases hb : (IPTunnelAnalyzer.AnalyzePacket env w len data packet).1 with
    | false => rfl
    | true =>
      obtain ⟨_, _, _, _, hguard, _⟩ := IPTunnelAnalyzer.accept_shape env w len data packet hb
      have := hguard s hs
      omega
  obtain ⟨hc, hm, ht⟩ := IPTunnelAnalyzer.reject_unchanged env w len data packet hrej
  refine ⟨hrej, hc, hm, ht, ?_, VXLAN_Analyzer.DeliverPacket_depth venv vw vlen vdata vcaplen vs
    hlen hI hvs hvd⟩
  intro hdr hip hen
  unfold IPTunnelAnalyzer.AnalyzePacket
  simp only [hip, hen, hs, Bool.not_true, Bool.false_eq_true, if_false, Option.isSome_some,
    Option.getD_some, true_and, ge_iff_le, hd, if_true]

/-- Witness for C14: a packet and a connection that already carry two hops,
under the depth limit 2. -/
theorem tunnel_depth_exceeded_witness :
    IPTunnelAnalyzer.AnalyzePacket sampleEnv sampleWorld 60 [] deepPacket
        = (false, sampleWorld.Weird "exceeded_tunnel_max_depth" "") ∧
      VXLAN_Analyzer.DeliverPacket vxlanEnv (vxlanWorld (some [sampleHop, sampleHop])) 42
        vxlanData 42 = (vxlanWorld (some [sampleHop, sampleHop])).Weird "tunnel_depth" :=
  have h := tunnel_depth_exceeded sampleEnv sampleWorld 60 [] deepPacket [sampleHop, sampleHop]
    vxlanEnv (vxlanWorld (some [sampleHop, sampleHop])) 42 vxlanData 42 [sampleHop, sampleHop]
    rfl (by decide) (by decide) (by decide) rfl (by decide)
  ⟨h.2.2.2.2.1 sampleHdr rfl rfl, h.2.2.2.2.2⟩

/-- Counterexample to C14 as stated: with `Tunnel::enable_ip` false, a packet
whose stack has reached the depth limit is rejected with the weird `IP_tunnel`,
not `exceeded_tunnel_max_depth`. -/
theorem tunnel_depth_exceeded_but_disabled :
    deepPacket.key_store.encap = some [sampleHop, sampleHop] ∧
      Env.max_depth { sampleEnv with enable_ip := false }
        ≤ EncapsulationStack.Depth [sampleHop, sampleHop] ∧
      (IPTunnelAnalyzer.AnalyzePacket { sampleEnv with enable_ip := false } sampleWorld 60 []
        deepPacket).2.weirds = [⟨"IP_tunnel", ""⟩] := by
  decide

/-! ## The two payload kinds of the IP tunnel analyzer -/

theorem depth_guard_conv (e : Option EncapsulationStack) (n : Nat)
    (h : ∀ s, e = some s → s.Depth < n) : ¬ (e.isSome = true ∧ (e.getD []).Depth ≥ n) := by
  intro hc
  cases e with
  | none => simp at hc
  | some s =>
    have := h s rfl
    simp at hc
    omega

/-- C15: a packet with `ip_hdr` present that passed the enable and depth checks
and whose `gre_version` is not 0, with `r` the result of `ParseIPPacket` on the
remaining bytes and the `proto` of the key store (-1 when absent). If `r = 0`
the analyzer returns true. If `r` is not 0 it returns false and its only effect
is one weird: `invalid_inner_IP_version` for `r = -2`, `truncated_inner_IP` for
any other negative `r`, `inner_IP_payload_length_mismatch` for positive `r`; so
`ip_tunnels` is unchanged, no timer is scheduled and no pipeline call is
made. -/
theorem IPTunnelAnalyzer.inner_parse_result (env : Env) (w : World) (len : Nat)
    (data : List Nat) (packet : Packet) (hdr : IP_Hdr)
    (hip : packet.key_store.ip_hdr = some hdr) (hen : env.enable_ip = true)
    (hdepth : ∀ s, packet.key_store.encap = some s → s.Depth < env.max_depth)
    (hg : packet.key_store.gre_version ≠ some 0) :
    ((env.ParseIPPacket len data (packet.key_store.proto.getD (-1))).1 = 0 →
        (IPTunnelAnalyzer.AnalyzePacket env w len data packet).1 = true) ∧
      ((env.ParseIPPacket len data (packet.key_store.proto.getD (-1))).1 ≠ 0 →
        IPTunnelAnalyzer.AnalyzePacket env w len data packet
          = (false, w.Weird
              (if (env.ParseIPPacket len data (packet.key_store.proto.getD (-1))).1 = -2
                then "invalid_inner_IP_version"
                else if (env.ParseIPPacket len data (packet.key_store.proto.getD (-1))).1 < 0
                  then "truncated_inner_IP"
                  else "inner_IP_payload_length_mismatch") "")) := by
  have hd := depth_guard_conv _ _ hdepth
  have hproto : (match packet.key_store.proto with
      | some v => v
      | none => (-1 : Int)) = packet.key_store.proto.getD (-1) := by
    cases packet.key_store.proto <;> rfl
  have hg' : (match packet.key_store.gre_version with
      | some v => v
      | none => (-1 : Int)) ≠ 0 := by
    cases hgv : packet.key_store.gre_version with
    | none => simp
    | some v =>
      intro e
      simp only at e
      rw [hgv, e] at hg
      exact hg rfl
  unfold IPTunnelAnalyzer.AnalyzePacket
  simp only [hip, hen, hd, hg', hproto, Bool.not_true, Bool.false_eq_true, if_false, if_true,
    ne_eq, not_false_eq_true]
  constructor
  · intro hr
    simp only [hr, not_true_eq_false, if_false]
  · intro hr
    simp only [hr, not_false_eq_true, if_true]
    unfold IPTunnelAnalyzer.reportInner
    by_cases h2 : (env.ParseIPPacket len data (packet.key_store.proto.getD (-1))).1 = -2
    · rw [if_pos h2, if_pos h2]
    · rw [if_neg h2, if_neg h2]
      by_cases hneg : (env.ParseIPPacket len data (packet.key_store.proto.getD (-1))).1 < 0
      · rw [if_pos hneg, if_pos hneg]
      · rw [if_neg hneg, if_neg hneg, if_pos (lt_of_le_of_ne (not_lt.mp hneg) (Ne.symm hr))]

/-- Witness for C15: an IP-in-IP packet whose inner header parses is accepted,
and one whose parse yields -2 is rejected. -/
theorem IPTunnelAnalyzer.inner_parse_result_witness :
    (IPTunnelAnalyzer.AnalyzePacket sampleEnv sampleWorld 60 []
        (samplePacket sampleHdr)).1 = true ∧
      IPTunnelAnalyzer.AnalyzePacket (parseResultEnv (-2)) sampleWorld 60 []
          (samplePacket sampleHdr)
        = (false, sampleWorld.Weird
            (if ((parseResultEnv (-2)).ParseIPPacket 60 []
                ((samplePacket sampleHdr).key_store.proto.getD (-1))).1 = -2
              then "invalid_inner_IP_version"
              else if ((parseResultEnv (-2)).ParseIPPacket 60 []
                  ((samplePacket sampleHdr).key_store.proto.getD (-1))).1 < 0
                then "truncated_inner_IP"
                else "inner_IP_payload_length_mismatch") "") :=
  ⟨(IPTunnelAnalyzer.inner_parse_result sampleEnv sampleWorld 60 [] (samplePacket sampleHdr)
      sampleHdr rfl rfl (fun _ h => Option.noConfusion h) (by decide)).1 (by decide),
    (IPTunnelAnalyzer.inner_parse_result (parseResultEnv (-2)) sampleWorld 60 []
      (samplePacket sampleHdr) sampleHdr rfl rfl (fun _ h => Option.noConfusion h)
      (by decide)).2 (by decide)⟩

theorem IPTunnelAnalyzer.AnalyzePacket_l2 (env : Env) (w : World) (len : Nat)
    (data : List Nat) (packet : Packet) (hdr : IP_Hdr)
    (hip : packet.key_store.ip_hdr = some hdr) (hen : env.enable_ip = true)
    (hdepth : ∀ s, packet.key_store.encap = some s → s.Depth < env.max_depth)
    (hg : packet.key_store.gre_version = some 0) :
    IPTunnelAnalyzer.AnalyzePacket env w len data packet
      = (true, (IPTunnelAnalyzer.touch env w hdr packet.key_store.tunnelTypeOrIP).call
          (PipelineCall.ProcessInnerPacket
            { Packet.fresh.Init (packet.key_store.gre_link_type.getD DLT_RAW) packet.ts
                (len % 2 ^ 32) (len % 2 ^ 32) (some data) false "" with
              key_store := { KeyStore.empty with
                encap := some ((packet.key_store.encap.getD []).Add
                  ((IPTunnelAnalyzer.touch env w hdr
                    packet.key_store.tunnelTypeOrIP).ip_tunnels.first
                      (IPTunnelAnalyzer.tunnel_idx hdr))) } })) := by
  have hd := depth_guard_conv _ _ hdepth
  have hlt : (match packet.key_store.gre_link_type with
      | some v => v
      | none => DLT_RAW) = packet.key_store.gre_link_type.getD DLT_RAW := by
    cases packet.key_store.gre_link_type <;> rfl
  unfold IPTunnelAnalyzer.AnalyzePacket
  simp only [hip, hen, hd, hg, hlt, Bool.not_true, Bool.false_eq_true, if_false, if_true,
    ne_eq, not_true_eq_false]
  unfold IPTunnelAnalyzer.ProcessEncapsulatedPacketL2
  cases packet.key_store.encap <;> rfl

/-- C16: a packet with `ip_hdr` present that passed the enable and depth checks
and whose `gre_version` is 0, with `len` in the range of a `uint32_t`. The
analyzer returns true and makes exactly one pipeline call, a
`ProcessInnerPacket` on a synthetic packet whose link type is the
`gre_link_type` of the key store (`DLT_RAW` when absent), whose captured and
on-wire lengths both equal `len`, whose data are the remaining bytes and whose
timestamp is that of the outer packet. The outcome does not depend on the
`ParseIPPacket` oracle (it is not called) nor on the result of
`ProcessInnerPacket`. -/
theorem IPTunnelAnalyzer.ethernet_payload_reentry (env : Env) (w : World) (len : Nat)
    (data : List Nat) (packet : Packet) (hdr : IP_Hdr)
    (hip : packet.key_store.ip_hdr = some hdr) (hen : env.enable_ip = true)
    (hdepth : ∀ s, packet.key_store.encap = some s → s.Depth < env.max_depth)
    (hg : packet.key_store.gre_version = some 0) (hlen : len < 2 ^ 32) :
    (IPTunnelAnalyzer.AnalyzePacket env w len data packet).1 = true ∧
      (∃ p, (IPTunnelAnalyzer.AnalyzePacket env w len data packet).2.calls
          = w.calls ++ [PipelineCall.ProcessInnerPacket p] ∧
        p.link_type = packet.key_store.gre_link_type.getD DLT_RAW ∧
        p.cap_len = len ∧ p.len = len ∧ p.data = some data ∧ p.ts = packet.ts) ∧
      (∀ (f : Nat → List Nat → Int → Int × IP_Hdr) (g : Packet → Bool),
        IPTunnelAnalyzer.AnalyzePacket { env with ParseIPPacket := f, ProcessInnerPacket := g }
            w len data packet
          = IPTunnelAnalyzer.AnalyzePacket env w len data packet) := by
  rw [IPTunnelAnalyzer.AnalyzePacket_l2 env w len data packet hdr hip hen hdepth hg]
  refine ⟨rfl, ?_, ?_⟩
  · apply Exists.intro
    apply And.intro
    · simp only [World.call, IPTunnelAnalyzer.touch_calls]
      rfl
    · exact ⟨rfl, Nat.mod_eq_of_lt hlen, Nat.mod_eq_of_lt hlen, rfl, rfl⟩
  · intro f g
    rw [IPTunnelAnalyzer.AnalyzePacket_l2 { env with ParseIPPacket := f, ProcessInnerPacket := g }
      w len data packet hdr hip hen hdepth hg]
    rfl

/-- Witness for C16: a transparent Ethernet bridging payload of 34 bytes. -/
theorem IPTunnelAnalyzer.ethernet_payload_reentry_witness :
    (IPTunnelAnalyzer.AnalyzePacket sampleEnv sampleWorld 34 (greTEBData.drop 4)
        tebPacket).1 = true ∧
      ∃ p, (IPTunnelAnalyzer.AnalyzePacket sampleEnv sampleWorld 34 (greTEBData.drop 4)
          tebPacket).2.calls = sampleWorld.calls ++ [PipelineCall.ProcessInnerPacket p] ∧
        p.link_type = tebPacket.key_store.gre_link_type.getD DLT_RAW ∧
        p.cap_len = 34 ∧ p.len = 34 ∧ p.data = some (greTEBData.drop 4) ∧
        p.ts = tebPacket.ts :=
  have h := IPTunnelAnalyzer.ethernet_payload_reentry sampleEnv sampleWorld 34
    (greTEBData.drop 4) tebPacket sampleHdr rfl rfl (fun _ h => Option.noConfusion h) rfl
    (by decide)
  ⟨h.1, h.2.1⟩

/-- C17: both overloads of `ProcessEncapsulatedPacket` change the world only
by one pipeline call (`ForwardPacket` for the inner IP header, and
`ProcessInnerPacket` for the link-layer payload), and the stack stored under
`encap` in the synthetic packet of that call is the hops of `prev` in order
followed by `ec`, just `[ec]` when `prev` is absent, so its depth is the depth
of `prev` plus one. The argument `prev` is only read: the stack is built on a
copy. -/
theorem IPTunnelAnalyzer.clone_and_append (env : Env) (w : World) (t : Int)
    (pkt : Option Packet) (inner : IP_Hdr) (caplen len : Nat) (data : List Nat)
    (link_type : Int) (prev : Option EncapsulationStack) (ec : EncapsulatingConn) :
    (∃ n d p, (IPTunnelAnalyzer.ProcessEncapsulatedPacket env w t pkt inner prev ec).2
          = w.call (PipelineCall.ForwardPacket n d p) ∧
        p.key_store.encap = some (match prev with
          | some s => s ++ [ec]
          | none => [ec]) ∧
        ((p.key_store.encap.getD []).Depth = (prev.getD []).Depth + 1)) ∧
      (∃ p, (IPTunnelAnalyzer.ProcessEncapsulatedPacketL2 env w t pkt caplen len data link_type
            prev ec).2 = w.call (PipelineCall.ProcessInnerPacket p) ∧
        p.key_store.encap = some (match prev with
          | some s => s ++ [ec]
          | none => [ec]) ∧
        ((p.key_store.encap.getD []).Depth = (prev.getD []).Depth + 1)) := by
  constructor
  · unfold IPTunnelAnalyzer.ProcessEncapsulatedPacket
    refine ⟨_, _, _, rfl, ?_, ?_⟩
    · cases prev <;> rfl
    · cases prev <;> simp [EncapsulationStack.Add, EncapsulationStack.Depth]
  · unfold IPTunnelAnalyzer.ProcessEncapsulatedPacketL2
    refine ⟨_, rfl, ?_, ?_⟩
    · cases prev <;> rfl
    · cases prev <;> simp [EncapsulationStack.Add, EncapsulationStack.Depth]

/-! ## The VXLAN analyzer -/

theorem VXLAN_Analyzer.afterInner_frame (env : VXLANEnv) (w : VXLANWorld) (pkt : Packet)
    (len : Int) (data : List Nat) (vni : Nat) :
    (VXLAN_Analyzer.afterInner env w pkt len data vni).processed = w.processed ∧
      (VXLAN_Analyzer.afterInner env w pkt len data vni).conn = w.conn ∧
      ((VXLAN_Analyzer.afterInner env w pkt len data vni).events = w.events ∨
        ∃ h, (VXLAN_Analyzer.afterInner env w pkt len data vni).events = w.events ++ [(h, vni)]) := by
  unfold VXLAN_Analyzer.afterInner
  by_cases hv : pkt.l2_valid = true
  · simp only [hv, Bool.not_true, Bool.false_eq_true, if_false]
    cases pkt.l3_proto with
    | L3_UNKNOWN => exact ⟨rfl, rfl, Or.inl rfl⟩
    | L3_ARP => exact ⟨rfl, rfl, Or.inl rfl⟩
    | L3_IPV4 =>
      simp only
      split
      · exact ⟨rfl, rfl, Or.inl rfl⟩
      · split
        · exact ⟨rfl, rfl, Or.inr ⟨_, rfl⟩⟩
        · exact ⟨rfl, rfl, Or.inl rfl⟩
    | L3_IPV6 =>
      simp only
      split
      · exact ⟨rfl, rfl, Or.inl rfl⟩
      · split
        · exact ⟨rfl, rfl, Or.inr ⟨_, rfl⟩⟩
        · exact ⟨rfl, rfl, Or.inl rfl⟩
  · have hv' : pkt.l2_valid = false := by simpa using hv
    simp only [hv', Bool.not_false, if_true]
    exact ⟨rfl, rfl, Or.inl rfl⟩

theorem VXLAN_Analyzer.DeliverPacket_valid (env : VXLANEnv) (w : VXLANWorld) (len : Int)
    (data : List Nat) (caplen : Int)
    (hlen : 8 ≤ len) (hI : byteAt data 0 &&& 0x08 ≠ 0)
    (hdepth : ∀ s, w.conn.encapsulation = some s → s.Depth < env.max_depth) :
    ∃ pkt w1,
      VXLAN_Analyzer.DeliverPacket env w len data caplen
        = VXLAN_Analyzer.afterInner env w1 (env.ProcessPacket pkt) (len - 8) (data.drop 8)
            (vxlan_vni data) ∧
      w1.processed = w.processed ++ [pkt] ∧
      w1.events = w.events ∧
      w1.conn.encapsulation = w.conn.encapsulation.map
        (fun s => s ++ [⟨w.conn.orig_addr, w.conn.resp_addr, TunnelType.VXLAN, w.conn.uid⟩]) ∧
      pkt.key_store.encap = some ((w.conn.encapsulation.getD [])
        ++ [⟨w.conn.orig_addr, w.conn.resp_addr, TunnelType.VXLAN, w.conn.uid⟩]) ∧
      pkt.link_type = DLT_EN10MB ∧ pkt.data = some (data.drop 8) ∧
      pkt.cap_len = toUInt32 (caplen - 8) ∧ pkt.len = toUInt32 (len - 8) := by
  have hd := depth_guard_conv _ _ hdepth
  unfold VXLAN_Analyzer.DeliverPacket
  have h1 : ¬ len < 8 := by omega
  simp only [h1, if_false, hI, hd]
  cases henc : w.conn.encapsulation with
  | none => exact ⟨_, _, rfl, rfl, rfl, by simp [henc], rfl, rfl, rfl, rfl, rfl⟩
  | some s => exact ⟨_, _, rfl, rfl, rfl, by simp [EncapsulationStack.Add], rfl, rfl, rfl, rfl, rfl⟩

theorem VXLAN_Analyzer.stack_after (env : VXLANEnv) (w : VXLANWorld) (len : Int)
    (data : List Nat) (caplen : Int)
    (hlen : 8 ≤ len) (hI : byteAt data 0 &&& 0x08 ≠ 0)
    (hdepth : ∀ s, w.conn.encapsulation = some s → s.Depth < env.max_depth) :
    (VXLAN_Analyzer.DeliverPacket env w len data caplen).conn.encapsulation
        = w.conn.encapsulation.map
          (fun s => s ++ [⟨w.conn.orig_addr, w.conn.resp_addr, TunnelType.VXLAN, w.conn.uid⟩]) ∧
      ∃ pkt, (VXLAN_Analyzer.DeliverPacket env w len data caplen).processed
          = w.processed ++ [pkt] ∧
        pkt.key_store.encap = some ((w.conn.encapsulation.getD [])
          ++ [⟨w.conn.orig_addr, w.conn.resp_addr, TunnelType.VXLAN, w.conn.uid⟩]) := by
  obtain ⟨pkt, w1, hD, hp, _, hc, he, _⟩ :=
    VXLAN_Analyzer.DeliverPacket_valid env w len data caplen hlen hI hdepth
  obtain ⟨hfp, hfc, _⟩ := VXLAN_Analyzer.afterInner_frame env w1 (env.ProcessPacket pkt)
    (len - 8) (data.drop 8) (vxlan_vni data)
  rw [hD, hfc, hfp]
  exact ⟨hc, pkt, hp, he⟩

/-- C18 (the code departs from the claim): a connection that already carries
one GRE hop receives a valid VXLAN packet under the depth limit 2. The inner
packet sees the GRE hop followed by the VXLAN hop, but the stack of the
connection itself has gained the VXLAN hop as well. For a connection without
encapsulation the inner packet sees a stack of depth 1 and the connection
keeps none. -/
theorem VXLAN_Analyzer.connection_stack_extended :
    (vxlanWorld (some [sampleHop])).conn.encapsulation = some [sampleHop] ∧
      (VXLAN_Analyzer.DeliverPacket vxlanEnv (vxlanWorld (some [sampleHop])) 42 vxlanData
        42).conn.encapsulation
        = some [sampleHop, ⟨167772161, 167772162, TunnelType.VXLAN, 42⟩] ∧
      (VXLAN_Analyzer.DeliverPacket vxlanEnv (vxlanWorld (some [sampleHop])) 42 vxlanData
        42).processed.map (fun p => p.key_store.encap)
        = [some [sampleHop, ⟨167772161, 167772162, TunnelType.VXLAN, 42⟩]] ∧
      (VXLAN_Analyzer.DeliverPacket vxlanEnv (vxlanWorld none) 42 vxlanData
        42).conn.encapsulation = none ∧
      (VXLAN_Analyzer.DeliverPacket vxlanEnv (vxlanWorld none) 42 vxlanData
        42).processed.map (fun p => p.key_store.encap)
        = [some [⟨167772161, 167772162, TunnelType.VXLAN, 42⟩]] := by
  decide

/-- C19: with `len < 8` the only effect of `VXLAN_Analyzer::DeliverPacket` is
the protocol violation `VXLAN header truncation`; with `len >= 8` and bit 0x08
of byte 0 clear its only effect is the protocol violation
`VXLAN 'I' flag not set`; so in both cases no packet is handed on, no event is
raised and no stack is created or extended. A packet is handed to the pipeline
only if `len >= 8` and bit 0x08 of byte 0 is set. -/
theorem VXLAN_Analyzer.header_validation (env : VXLANEnv) (w : VXLANWorld) (len : Int)
    (data : List Nat) (caplen : Int) :
    (len < 8 →
        VXLAN_Analyzer.DeliverPacket env w len data caplen
          = w.ProtocolViolation "VXLAN header truncation") ∧
      (8 ≤ len → byteAt data 0 &&& 0x08 = 0 →
        VXLAN_Analyzer.DeliverPacket env w len data caplen
          = w.ProtocolViolation "VXLAN 'I' flag not set") ∧
      ((VXLAN_Analyzer.DeliverPacket env w len data caplen).processed ≠ w.processed →
        8 ≤ len ∧ byteAt data 0 &&& 0x08 ≠ 0) := by
  have h1 : len < 8 → VXLAN_Analyzer.DeliverPacket env w len data caplen
      = w.ProtocolViolation "VXLAN header truncation" := by
    intro h
    unfold VXLAN_Analyzer.DeliverPacket
    simp only [h, if_true]
  have h2 : 8 ≤ len → byteAt data 0 &&& 0x08 = 0 →
      VXLAN_Analyzer.DeliverPacket env w len data caplen
        = w.ProtocolViolation "VXLAN 'I' flag not set" := by
    intro h hI
    have hn : ¬ len < 8 := by omega
    unfold VXLAN_Analyzer.DeliverPacket
    simp only [hn, if_false, hI, if_true]
  refine ⟨h1, h2, ?_⟩
  intro hp
  by_cases hl : len < 8
  · rw [h1 hl] at hp
    exact absurd rfl hp
  · have hl' : 8 ≤ len := by omega
    refine ⟨hl', ?_⟩
    intro hI
    rw [h2 hl' hI] at hp
    exact absurd rfl hp

theorem vxlan_vni_eq (data : List Nat) :
    vxlan_vni data = byteAt data 4 * 65536 + byteAt data 5 * 256 + byteAt data 6 := by
  unfold vxlan_vni
  simp [Nat.shiftLeft_eq]

theorem byteAt_lt (data : List Nat) (off : Nat) : byteAt data off < 256 := by
  unfold byteAt
  exact Nat.mod_lt _ (by decide)

theorem toUInt32_of_range (x : Int) (h0 : 0 ≤ x) (h1 : x < 2 ^ 32) :
    (toUInt32 x : Int) = x := by
  unfold toUInt32
  rw [Int.emod_eq_of_lt h0 h1]
  exact Int.toNat_of_nonneg h0

/-- C20: for a valid VXLAN header (`len >= 8`, bit 0x08 of byte 0 set), with
`len` and `caplen` in the range of an `int` and `caplen >= 8` (the UDP analyzer
guarantees `caplen >= len`). The VNI is `data[4] * 65536 + data[5] * 256 +
data[6]`, below `2^24`, and a function of bytes 4 to 6 only; it is the VNI of
any `vxlan_packet` event raised. Unless the depth check stops the analyzer,
exactly one packet is handed to the pipeline: an Ethernet frame whose data
start at offset 8 and whose captured and on-wire lengths are `caplen - 8` and
`len - 8`. -/
theorem VXLAN_Analyzer.vni_and_inner_frame (env : VXLANEnv) (w : VXLANWorld) (len : Int)
    (data : List Nat) (caplen : Int)
    (hlen : 8 ≤ len) (hlen' : len < 2 ^ 31) (hcap : 8 ≤ caplen) (hcap' : caplen < 2 ^ 31)
    (hI : byteAt data 0 &&& 0x08 ≠ 0) :
    vxlan_vni data = byteAt data 4 * 65536 + byteAt data 5 * 256 + byteAt data 6 ∧
      vxlan_vni data < 2 ^ 24 ∧
      (∀ (a0 a1 a2 a3 d4 d5 d6 a7 : Nat) (rest : List Nat),
        vxlan_vni (a0 :: a1 :: a2 :: a3 :: d4 :: d5 :: d6 :: a7 :: rest)
          = d4 % 256 * 65536 + d5 % 256 * 256 + d6 % 256) ∧
      ((VXLAN_Analyzer.DeliverPacket env w len data caplen).events = w.events ∨
        ∃ h, (VXLAN_Analyzer.DeliverPacket env w len data caplen).events
          = w.events ++ [(h, vxlan_vni data)]) ∧
      (if ∀ s, w.conn.encapsulation = some s → s.Depth < env.max_depth then
        ∃ pkt, (VXLAN_Analyzer.DeliverPacket env w len data caplen).processed
            = w.processed ++ [pkt] ∧
          pkt.link_type = DLT_EN10MB ∧ pkt.data = some (data.drop 8) ∧
          (pkt.cap_len : Int) = caplen - 8 ∧ (pkt.len : Int) = len - 8
      else
        (VXLAN_Analyzer.DeliverPacket env w len data caplen).processed = w.processed) := by
  have hv := vxlan_vni_eq data
  have b4 := byteAt_lt data 4
  have b5 := byteAt_lt data 5
  have b6 := byteAt_lt data 6
  have hfun : ∀ (a0 a1 a2 a3 d4 d5 d6 a7 : Nat) (rest : List Nat),
      vxlan_vni (a0 :: a1 :: a2 :: a3 :: d4 :: d5 :: d6 :: a7 :: rest)
        = d4 % 256 * 65536 + d5 % 256 * 256 + d6 % 256 := by
    intro a0 a1 a2 a3 d4 d5 d6 a7 rest
    rw [vxlan_vni_eq]
    rfl
  by_cases hdepth : ∀ s, w.conn.encapsulation = some s → s.Depth < env.max_depth
  · rw [if_pos hdepth]
    obtain ⟨pkt, w1, hD, hp, hev, _, _, hlt, hdat, hcl, hl⟩ :=
      VXLAN_Analyzer.DeliverPacket_valid env w len data caplen hlen hI hdepth
    obtain ⟨hfp, _, hfe⟩ := VXLAN_Analyzer.afterInner_frame env w1 (env.ProcessPacket pkt)
      (len - 8) (data.drop 8) (vxlan_vni data)
    refine ⟨hv, by omega, hfun, ?_, pkt, ?_, hlt, hdat, ?_, ?_⟩
    · rw [hD, ← hev]
      exact hfe
    · rw [hD, hfp, hp]
    · rw [hcl]
      exact toUInt32_of_range _ (by omega) (by omega)
    · rw [hl]
      exact toUInt32_of_range _ (by omega) (by omega)
  · rw [if_neg hdepth]
    have hex : ∃ s, w.conn.encapsulation = some s ∧ env.max_depth ≤ s.Depth := by
      by_contra hne
      apply hdepth
      intro s hs
      by_contra hlt
      exact hne ⟨s, hs, by omega⟩
    obtain ⟨s, hs, hd⟩ := hex
    rw [VXLAN_Analyzer.DeliverPacket_depth env w len data caplen s hlen hI hs hd]
    exact ⟨hv, by omega, hfun, Or.inl rfl, rfl⟩

/-- Witness for C20: a VXLAN packet of 42 bytes with VNI 0x123456 on a
connection without encapsulation. -/
theorem VXLAN_Analyzer.vni_and_inner_frame_witness :
    vxlan_vni vxlanData = byteAt vxlanData 4 * 65536 + byteAt vxlanData 5 * 256
        + byteAt vxlanData 6 ∧
      vxlan_vni vxlanData < 2 ^ 24 ∧
      ((VXLAN_Analyzer.DeliverPacket vxlanEnv (vxlanWorld none) 42 vxlanData 42).events
          = (vxlanWorld none).events ∨
        ∃ h, (VXLAN_Analyzer.DeliverPacket vxlanEnv (vxlanWorld none) 42 vxlanData 42).events
          = (vxlanWorld none).events ++ [(h, vxlan_vni vxlanData)]) :=
  have h := VXLAN_Analyzer.vni_and_inner_frame vxlanEnv (vxlanWorld none) 42 vxlanData 42
    (by decide) (by decide) (by decide) (by decide) (by decide)
  ⟨h.1, h.2.1, h.2.2.2.1⟩

/-! ## Packet initialisation -/

/-- C21 (amended): after `Packet::Init`, whatever the previous state of the
packet and for every argument list, `l2_valid` is true exactly when the data
argument is not null; it is false only for a packet without data. -/
theorem Packet.Init_l2_valid (p : Packet) (arg_link_type : Int) (arg_ts : pkt_timeval)
    (arg_caplen arg_len : Nat) (arg_data : Option (List Nat)) (arg_copy : Bool)
    (arg_tag : String) :
    (p.Init arg_link_type arg_ts arg_caplen arg_len arg_data arg_copy arg_tag).l2_valid
        = arg_data.isSome ∧
      ((p.Init arg_link_type arg_ts arg_caplen arg_len arg_data arg_copy arg_tag).l2_valid = false
        ↔ arg_data = none) ∧
      ((p.Init arg_link_type arg_ts arg_caplen arg_len arg_data arg_copy arg_tag).data.isSome
        = arg_data.isSome) := by
  cases arg_data with
  | none => simp [Packet.Init]
  | some d => cases arg_copy <;> simp [Packet.Init]

/-- Counterexample to C21 as stated: right after `Init` with four bytes of
data, before any analyzer has run, `l2_valid` is true. -/
theorem Packet.Init_l2_valid_with_data :
    (Packet.fresh.Init DLT_EN10MB ⟨0, 0⟩ 4 4 (some [1, 2, 3, 4]) false "").l2_valid = true := by
  decide

/-- C22: after `Packet::Init`, whatever the previous state of the packet,
`hdr_size` is 0 and so at most the captured length, the decoded metadata are
reset (`eth_type`, `vlan`, `inner_vlan` are 0, `l2_src` and `l2_dst` are null,
`l3_proto` is `L3_UNKNOWN`, the checksum flags, `session_analysis` and
`dump_packet` are false), and `link_type`, `cap_len`, `len`, `ts` and `tag`
equal the arguments. -/
theorem Packet.Init_resets (p : Packet) (arg_link_type : Int) (arg_ts : pkt_timeval)
    (arg_caplen arg_len : Nat) (arg_data : Option (List Nat)) (arg_copy : Bool)
    (arg_tag : String) :
    (p.Init arg_link_type arg_ts arg_caplen arg_len arg_data arg_copy arg_tag).hdr_size
        ≤ (p.Init arg_link_type arg_ts arg_caplen arg_len arg_data arg_copy arg_tag).cap_len ∧
      (p.Init arg_link_type arg_ts arg_caplen arg_len arg_data arg_copy arg_tag).hdr_size = 0 ∧
      (p.Init arg_link_type arg_ts arg_caplen arg_len arg_data arg_copy arg_tag).eth_type = 0 ∧
      (p.Init arg_link_type arg_ts arg_caplen arg_len arg_data arg_copy arg_tag).vlan = 0 ∧
      (p.Init arg_link_type arg_ts arg_caplen arg_len arg_data arg_copy arg_tag).inner_vlan = 0 ∧
      (p.Init arg_link_type arg_ts arg_caplen arg_len arg_data arg_copy arg_tag).l2_src = none ∧
      (p.Init arg_link_type arg_ts arg_caplen arg_len arg_data arg_copy arg_tag).l2_dst = none ∧
      (p.Init arg_link_type arg_ts arg_caplen arg_len arg_data arg_copy arg_tag).l3_proto
        = Layer3Proto.L3_UNKNOWN ∧
      (p.Init arg_link_type arg_ts arg_caplen arg_len arg_data arg_copy
        arg_tag).l2_checksummed = false ∧
      (p.Init arg_link_type arg_ts arg_caplen arg_len arg_data arg_copy
        arg_tag).l3_checksummed = false ∧
      (p.Init arg_link_type arg_ts arg_caplen arg_len arg_data arg_copy
        arg_tag).session_analysis = false ∧
      (p.Init arg_link_type arg_ts arg_caplen arg_len arg_data arg_copy
        arg_tag).dump_packet = false ∧
      (p.Init arg_link_type arg_ts arg_caplen arg_len arg_data arg_copy arg_tag).link_type
        = arg_link_type ∧
      (p.Init arg_link_type arg_ts arg_caplen arg_len arg_data arg_copy arg_tag).cap_len
        = arg_caplen ∧
      (p.Init arg_link_type arg_ts arg_caplen arg_len arg_data arg_copy arg_tag).len = arg_len ∧
      (p.Init arg_link_type arg_ts arg_caplen arg_len arg_data arg_copy arg_tag).ts = arg_ts ∧
      (p.Init arg_link_type arg_ts arg_caplen arg_len arg_data arg_copy arg_tag).tag = arg_tag ∧
      (p.Init arg_link_type arg_ts arg_caplen arg_len arg_data arg_copy arg_tag).key_store
        = p.key_store := by
  refine ⟨Nat.zero_le _, rfl, rfl, rfl, rfl, rfl, rfl, rfl, rfl, rfl, rfl, rfl, rfl, rfl, rfl,
    rfl, rfl, rfl⟩

/-! ## A key store without the outer IP header -/

/-- C23: on a packet whose key store has no `ip_hdr` entry, each of
`GREAnalyzer::AnalyzePacket` and `IPTunnelAnalyzer::AnalyzePacket` returns
false and its only effect is the report of an internal error: no weird is
emitted, no pipeline call is made, no timer is scheduled, and the packet with
its key store and `ip_tunnels` are unchanged. -/
theorem missing_ip_hdr_dropped (env : Env) (w : World) (len : Nat) (data : List Nat)
    (packet : Packet) (hip : packet.key_store.ip_hdr = none) :
    GREAnalyzer.AnalyzePacket env w len data packet
        = (false, packet,
            w.InternalError "GREAnalyzer: ip_hdr not found in packet keystore") ∧
      IPTunnelAnalyzer.AnalyzePacket env w len data packet
        = (false, w.InternalError "IPTunnelAnalyzer: ip_hdr not found in packet keystore") ∧
      (∀ msg, (w.InternalError msg).weirds = w.weirds ∧ (w.InternalError msg).calls = w.calls ∧
        (w.InternalError msg).ip_tunnels = w.ip_tunnels ∧
        (w.InternalError msg).timers = w.timers ∧
        (w.InternalError msg).internal_errors = w.internal_errors ++ [msg]) := by
  refine ⟨?_, ?_, fun _ => ⟨rfl, rfl, rfl, rfl, rfl⟩⟩
  · unfold GREAnalyzer.AnalyzePacket
    simp only [hip]
  · unfold IPTunnelAnalyzer.AnalyzePacket
    simp only [hip]

/-- Witness for C23: both analyzers on a packet with an empty key store. -/
theorem missing_ip_hdr_dropped_witness :
    GREAnalyzer.AnalyzePacket sampleEnv sampleWorld 24 greV0Data Packet.fresh
        = (false, Packet.fresh,
            sampleWorld.InternalError "GREAnalyzer: ip_hdr not found in packet keystore") ∧
      IPTunnelAnalyzer.AnalyzePacket sampleEnv sampleWorld 24 greV0Data Packet.fresh
        = (false,
            sampleWorld.InternalError "IPTunnelAnalyzer: ip_hdr not found in packet keystore") :=
  have h := missing_ip_hdr_dropped sampleEnv sampleWorld 24 greV0Data Packet.fresh rfl
  ⟨h.1, h.2.1⟩

/-! ## Read safety of the GRE analyzer -/

theorem GREAnalyzer.version0_reads (w : World) (len : Nat) (data : List Nat) (g pt : Nat) :
    ∃ extra, (GREAnalyzer.version0 w len data g pt).2.reads = w.reads ++ extra ∧
      ∀ o ∈ extra, o < len := by
  unfold GREAnalyzer.version0
  by_cases h1 : pt = 0x6558
  · rw [if_pos h1]
    by_cases c : len > g + 14
    · rw [if_pos c]
      refine ⟨[g + 14 - 2, g + 14 - 2 + 1], rfl, ?_⟩
      intro o ho
      simp at ho
      omega
    · rw [if_neg c]
      exact ⟨[], by simp [World.Weird], by simp⟩
  · rw [if_neg h1]
    by_cases h2 : pt = 0x88be
    · rw [if_pos h2]
      by_cases c : len > g + 14 + 8
      · rw [if_pos c]
        refine ⟨[g + 8 + 14 - 2, g + 8 + 14 - 2 + 1], rfl, ?_⟩
        intro o ho
        simp at ho
        omega
      · rw [if_neg c]
        exact ⟨[], by simp [World.Weird], by simp⟩
    · rw [if_neg h2]
      by_cases h3 : pt = 0x22eb
      · rw [if_pos h3]
        by_cases c : len > g + 14 + 12
        · rw [if_pos c]
          by_cases o : decide (byteAt data (g + 12 - 1) &&& 0x01 = 0x01) = true
          · simp only [o, if_true]
            by_cases c' : len > g + 12 + 8 + 14
            · rw [if_pos c']
              refine ⟨[g + 12 - 1, g + (12 + 8) + 14 - 2, g + (12 + 8) + 14 - 2 + 1], ?_, ?_⟩
              · simp [World.read]
              · intro o ho
                simp at ho
                omega
            · rw [if_neg c']
              refine ⟨[g + 12 - 1], by simp [World.Weird, World.read], ?_⟩
              intro o ho
              simp at ho
              omega
          · simp only [o, if_false]
            refine ⟨[g + 12 - 1, g + 12 + 14 - 2, g + 12 + 14 - 2 + 1], ?_, ?_⟩
            · simp [World.read]
            · intro o ho
              simp at ho
              omega
        · rw [if_neg c]
          exact ⟨[], by simp [World.Weird], by simp⟩
      · rw [if_neg h3]
        exact ⟨[], by simp, by simp⟩

theorem GREAnalyzer.finish_reads (env : Env) (w : World) (len : Nat) (data : List Nat)
    (packet : Packet) (proto : Int) (flags v g ppp : Nat) (l : GRELocals)
    (hppp : v = 1 → 4 ≤ ppp) :
    ∃ extra, (GREAnalyzer.finish env w len data packet proto flags v g ppp l).2.2.reads
        = w.reads ++ extra ∧
      ∀ o ∈ extra, o < len := by
  by_cases h1 : flags &&& 0x4000 = 0
  · by_cases h2 : flags &&& 0x0078 = 0
    · by_cases h3 : len < g + ppp + l.eth_len + l.erspan_len
      · rw [GREAnalyzer.finish_truncated _ _ _ _ _ _ _ _ _ _ _ h1 h2 h3]
        exact ⟨[], by simp [World.Weird], by simp⟩
      · by_cases hv : v = 1
        · subst hv
          have hp := hppp rfl
          by_cases hpp : ntohs16 data (g + 2) ≠ 0x0021 ∧ ntohs16 data (g + 2) ≠ 0x0057
          · rw [GREAnalyzer.finish_non_ip _ _ _ _ _ _ _ _ _ _ h1 h2 h3 hpp.1 hpp.2]
            refine ⟨[g + 2, g + 2 + 1], by simp [World.Weird, World.read], ?_⟩
            intro o ho
            simp at ho
            omega
          · unfold GREAnalyzer.finish
            rw [if_neg (not_not.mpr h1), if_neg (not_not.mpr h2), if_neg h3, if_pos rfl]
            simp only
            rw [if_neg hpp, GREAnalyzer.deliver_eq]
            refine ⟨[g + 2, g + 2 + 1], by simp [World.call, World.read], ?_⟩
            intro o ho
            simp at ho
            omega
        · unfold GREAnalyzer.finish
          rw [if_neg (not_not.mpr h1), if_neg (not_not.mpr h2), if_neg h3, if_neg hv,
            GREAnalyzer.deliver_eq]
          exact ⟨[], by simp [World.call], by simp⟩
    · rw [GREAnalyzer.finish_flags _ _ _ _ _ _ _ _ _ _ _ h1 h2]
      exact ⟨[], by simp [World.Weird], by simp⟩
  · rw [GREAnalyzer.finish_routing _ _ _ _ _ _ _ _ _ _ _ h1]
    exact ⟨[], by simp [World.Weird], by simp⟩

/-- C26: with `len >= 4`, every byte offset that `GREAnalyzer::AnalyzePacket`
reads through its data pointer (the flags and protocol type at 0 to 3, the
inner ethertype of a bridged or ERSPAN frame, the ERSPAN-III flags byte, the
PPP protocol) is strictly below `len`, on every path, accepted or rejected. -/
theorem GREAnalyzer.reads_below_len (env : Env) (w : World) (len : Nat) (data : List Nat)
    (packet : Packet) (hlen : 4 ≤ len) :
    ∃ extra, (GREAnalyzer.AnalyzePacket env w len data packet).2.2.reads = w.reads ++ extra ∧
      ∀ o ∈ extra, o < len := by
  have hhead : ∀ o ∈ [0, 1, 2, 3], o < len := by
    intro o ho
    simp at ho
    omega
  cases hip : packet.key_store.ip_hdr with
  | none =>
    unfold GREAnalyzer.AnalyzePacket
    simp only [hip]
    exact ⟨[], by simp [World.InternalError], by simp⟩
  | some hdr =>
    cases hen : env.enable_gre with
    | false =>
      unfold GREAnalyzer.AnalyzePacket
      simp only [hip, hen, Bool.not_false, if_true]
      exact ⟨[], by simp [World.Weird], by simp⟩
    | true =>
      by_cases hv0 : ntohs16 data 0 &&& 0x0007 = 0
      · rw [GREAnalyzer.AnalyzePacket_v0 env w len data packet hdr hip hen hv0]
        obtain ⟨e1, hr1, hb1⟩ := GREAnalyzer.version0_reads (w.read [0, 1, 2, 3]) len data
          (gre_header_len (ntohs16 data 0)) (ntohs16 data 2)
        cases h0 : GREAnalyzer.version0 (w.read [0, 1, 2, 3]) len data
            (gre_header_len (ntohs16 data 0)) (ntohs16 data 2) with
        | mk ol w1 =>
          rw [h0] at hr1
          simp only at hr1
          cases ol with
          | none =>
            refine ⟨[0, 1, 2, 3] ++ e1, ?_, ?_⟩
            · simp only
              rw [hr1]
              simp [World.read]
            · intro o ho
              rcases List.mem_append.mp ho with h | h
              · exact hhead o h
              · exact hb1 o h
          | some l =>
            simp only
            obtain ⟨e2, hr2, hb2⟩ := GREAnalyzer.finish_reads env w1 len data packet (-1)
              (ntohs16 data 0) 0 (gre_header_len (ntohs16 data 0)) 0 l (by decide)
            refine ⟨[0, 1, 2, 3] ++ e1 ++ e2, ?_, ?_⟩
            · rw [hr2, hr1]
              simp [World.read]
            · intro o ho
              rcases List.mem_append.mp ho with h | h
              · rcases List.mem_append.mp h with h | h
                · exact hhead o h
                · exact hb1 o h
              · exact hb2 o h
      · by_cases hv1 : ntohs16 data 0 &&& 0x0007 = 1
        · rw [GREAnalyzer.AnalyzePacket_v1 env w len data packet hdr hip hen hv1]
          by_cases hpt : ntohs16 data 2 ≠ 0x880b
          · rw [if_pos hpt]
            exact ⟨[0, 1, 2, 3], by simp [World.Weird, World.read], hhead⟩
          · rw [if_neg hpt]
            obtain ⟨e2, hr2, hb2⟩ := GREAnalyzer.finish_reads env (w.read [0, 1, 2, 3]) len
              data packet (-1) (ntohs16 data 0) 1 (gre_header_len (ntohs16 data 0)) 4
              ⟨ntohs16 data 2, 0, 0, DLT_RAW⟩ (fun _ => Nat.le_refl 4)
            refine ⟨[0, 1, 2, 3] ++ e2, ?_, ?_⟩
            · rw [hr2]
              simp [World.read]
            · intro o ho
              rcases List.mem_append.mp ho with h | h
              · exact hhead o h
              · exact hb2 o h
        · unfold GREAnalyzer.AnalyzePacket
          simp only [hip, hen, hv0, hv1, Bool.not_true, Bool.false_eq_true, if_false, ne_eq,
            not_false_eq_true, and_self, if_true]
          exact ⟨[0, 1, 2, 3], by simp [World.Weird, World.read], hhead⟩

/-- Witness for C26: an ERSPAN-III packet of 62 bytes with the optional
subheader; the offsets read are 0 to 3, the flags byte at 19 and the inner
ethertype at 40 and 41. -/
theorem GREAnalyzer.reads_below_len_witness :
    (GREAnalyzer.AnalyzePacket sampleEnv sampleWorld 62 greERSPAN3Data grePacket).2.2.reads
        = [0, 1, 2, 3, 19, 40, 41] ∧
      ∃ extra, (GREAnalyzer.AnalyzePacket sampleEnv sampleWorld 62 greERSPAN3Data
          grePacket).2.2.reads = sampleWorld.reads ++ extra ∧
        ∀ o ∈ extra, o < 62 :=
  ⟨by decide,
    GREAnalyzer.reads_below_len sampleEnv sampleWorld 62 greERSPAN3Data grePacket (by decide)⟩

/-! ## Further lemmas on the tunnel map -/

theorem IPTunnelMap.find_assign_ne (m : IPTunnelMap) (k k' : IPPair) (v : TunnelActivity)
    (h : k' ≠ k) : IPTunnelMap.find (IPTunnelMap.assign m k v) k' = IPTunnelMap.find m k' := by
  induction m with
  | nil => simp [IPTunnelMap.assign, IPTunnelMap.find_cons, IPTunnelMap.find_nil, h]
  | cons e m ih =>
    obtain ⟨k0, v0⟩ := e
    unfold IPTunnelMap.assign
    by_cases h0 : k0 = k
    · subst h0
      simp [IPTunnelMap.find_cons, h]
    · simp [h0, IPTunnelMap.find_cons, ih]

theorem IPTunnelMap.find_erase_ne (m : IPTunnelMap) (k k' : IPPair) (h : k' ≠ k) :
    IPTunnelMap.find (IPTunnelMap.erase m k) k' = IPTunnelMap.find m k' := by
  induction m with
  | nil => rfl
  | cons e m ih =>
    obtain ⟨k0, v0⟩ := e
    unfold IPTunnelMap.erase at ih ⊢
    by_cases h0 : k0 = k
    · subst h0
      have h' : ¬ k' = k0 := h
      simpa [List.filter_cons, IPTunnelMap.find_cons, h'] using ih
    · simp only [List.filter_cons, h0, ne_eq, not_false_eq_true, decide_True, if_true,
        IPTunnelMap.find_cons]
      rw [ih]

theorem IPTunnelMap.count_cons (m : IPTunnelMap) (k k0 : IPPair) (v0 : TunnelActivity) :
    IPTunnelMap.count ((k0, v0) :: m) k = (if k0 = k then 1 else 0) + IPTunnelMap.count m k := by
  unfold IPTunnelMap.count
  by_cases h : k0 = k
  · simp [List.filter_cons, h, Nat.add_comm]
  · simp [List.filter_cons, h]

theorem IPTunnelMap.count_assign_ne (m : IPTunnelMap) (k k' : IPPair) (v : TunnelActivity)
    (h : k' ≠ k) : IPTunnelMap.count (IPTunnelMap.assign m k v) k' = IPTunnelMap.count m k' := by
  induction m with
  | nil =>
    have h' : ¬ k = k' := fun e => h e.symm
    simp [IPTunnelMap.assign, IPTunnelMap.count_cons, h', IPTunnelMap.count]
  | cons e m ih =>
    obtain ⟨k0, v0⟩ := e
    unfold IPTunnelMap.assign
    by_cases h0 : k0 = k
    · subst h0
      simp [IPTunnelMap.count_cons]
    · simp [h0, IPTunnelMap.count_cons, ih]

theorem IPTunnelMap.count_erase_self (m : IPTunnelMap) (k : IPPair) :
    IPTunnelMap.count (IPTunnelMap.erase m k) k = 0 :=
  IPTunnelMap.count_eq_zero_of_find_none _ _ (IPTunnelMap.find_erase_self m k)

theorem IPTunnelMap.count_erase_ne (m : IPTunnelMap) (k k' : IPPair) (h : k' ≠ k) :
    IPTunnelMap.count (IPTunnelMap.erase m k) k' = IPTunnelMap.count m k' := by
  induction m with
  | nil => rfl
  | cons e m ih =>
    obtain ⟨k0, v0⟩ := e
    by_cases h0 : k0 = k
    · subst h0
      have h' : ¬ k0 = k' := fun e => h e.symm
      have he : IPTunnelMap.erase ((k0, v0) :: m) k0 = IPTunnelMap.erase m k0 := by
        simp [IPTunnelMap.erase, List.filter_cons]
      rw [he, ih, IPTunnelMap.count_cons, if_neg h', Nat.zero_add]
    · have he : IPTunnelMap.erase ((k0, v0) :: m) k = (k0, v0) :: IPTunnelMap.erase m k := by
        simp [IPTunnelMap.erase, List.filter_cons, h0]
      rw [he, IPTunnelMap.count_cons, IPTunnelMap.count_cons, ih]

theorem IPTunnelMap.count_pos_of_find_some (m : IPTunnelMap) (k : IPPair) (e : TunnelActivity)
    (h : IPTunnelMap.find m k = some e) : 1 ≤ IPTunnelMap.count m k := by
  induction m with
  | nil => simp [IPTunnelMap.find_nil] at h
  | cons e0 m ih =>
    obtain ⟨k0, v0⟩ := e0
    rw [IPTunnelMap.find_cons] at h
    rw [IPTunnelMap.count_cons]
    by_cases h0 : k = k0
    · subst h0
      simp
    · rw [if_neg h0] at h
      have := ih h
      omega

theorem IPTunnelMap.find_isSome_of_count_pos (m : IPTunnelMap) (k : IPPair)
    (h : 1 ≤ IPTunnelMap.count m k) : (IPTunnelMap.find m k).isSome = true := by
  cases hf : IPTunnelMap.find m k with
  | none =>
    have := IPTunnelMap.count_eq_zero_of_find_none m k hf
    omega
  | some e => rfl

/-! ## The invariant of the tunnel map and its timers -/

theorem World.TimerInvariant_congr (w w' : World) (hm : w'.ip_tunnels = w.ip_tunnels)
    (ht : w'.timers = w.timers) (h : w.TimerInvariant) : w'.TimerInvariant := by
  intro k
  have := h k
  unfold World.pendingFor at this ⊢
  rw [hm, ht]
  exact this

theorem IPTunnelAnalyzer.touch_invariant (env : Env) (w : World) (hdr : IP_Hdr)
    (tt : TunnelType) (h : w.TimerInvariant) :
    (IPTunnelAnalyzer.touch env w hdr tt).TimerInvariant := by
  cases hf : w.ip_tunnels.find (IPTunnelAnalyzer.tunnel_idx hdr) with
  | none =>
    rw [IPTunnelAnalyzer.touch_absent env w hdr tt hf]
    intro k
    obtain ⟨hp, hc⟩ := h k
    unfold World.pendingFor at hp ⊢
    simp only [List.countP_append, List.countP_cons, List.countP_nil]
    by_cases hk : k = IPTunnelAnalyzer.tunnel_idx hdr
    · subst hk
      have h0 := IPTunnelMap.count_eq_zero_of_find_none _ _ hf
      rw [IPTunnelMap.count_assign_of_find_none _ _ _ hf]
      simp only [decide_True, if_true]
      omega
    · have hk' : ¬ IPTunnelAnalyzer.tunnel_idx hdr = k := fun e => hk e.symm
      rw [IPTunnelMap.count_assign_ne _ _ _ _ hk]
      simp only [hk', decide_False, Bool.false_eq_true, if_false]
      omega
  | some e =>
    rw [IPTunnelAnalyzer.touch_present env w hdr tt e hf]
    intro k
    obtain ⟨hp, hc⟩ := h k
    unfold World.pendingFor at hp ⊢
    by_cases hk : k = IPTunnelAnalyzer.tunnel_idx hdr
    · subst hk
      simp only
      rw [IPTunnelMap.count_assign_of_find_some _ _ _ _ hf]
      exact ⟨hp, hc⟩
    · simp only
      rw [IPTunnelMap.count_assign_ne _ _ _ _ hk]
      exact ⟨hp, hc⟩

theorem IPTunnelAnalyzer.AnalyzePacket_invariant (env : Env) (w : World) (len : Nat)
    (data : List Nat) (packet : Packet) (h : w.TimerInvariant) :
    (IPTunnelAnalyzer.AnalyzePacket env w len data packet).2.TimerInvariant := by
  cases hb : (IPTunnelAnalyzer.AnalyzePacket env w len data packet).1 with
  | false =>
    obtain ⟨_, hm, ht⟩ := IPTunnelAnalyzer.reject_unchanged env w len data packet hb
    exact World.TimerInvariant_congr w _ hm ht h
  | true =>
    obtain ⟨hdr, c, _, _, _, hw, _⟩ := IPTunnelAnalyzer.accept_shape env w len data packet hb
    rw [hw]
    exact World.TimerInvariant_congr _ _ rfl rfl
      (IPTunnelAnalyzer.touch_invariant env w hdr _ h)

theorem countP_erase_of_mem (ts : List IPTunnelTimer) (timer : IPTunnelTimer) (k : IPPair)
    (hm : timer ∈ ts) :
    ts.countP (fun t => decide (t.tunnel_idx = k))
      = (if timer.tunnel_idx = k then 1 else 0)
        + (ts.erase timer).countP (fun t => decide (t.tunnel_idx = k)) := by
  have hperm := List.perm_cons_erase hm
  rw [hperm.countP_eq, List.countP_cons]
  by_cases h : timer.tunnel_idx = k
  · simp [h, Nat.add_comm]
  · simp [h]

theorem World.fire_invariant (env : Env) (w : World) (timer : IPTunnelTimer) (t : Int)
    (h : w.TimerInvariant) (hm : timer ∈ w.timers) : (w.fire env timer t).TimerInvariant := by
  have herase : ∀ k, w.timers.countP (fun t => decide (t.tunnel_idx = k))
      = (if timer.tunnel_idx = k then 1 else 0)
        + (w.timers.erase timer).countP (fun t => decide (t.tunnel_idx = k)) :=
    fun k => countP_erase_of_mem w.timers timer k hm
  have hidx := h timer.tunnel_idx
  have hpos : 1 ≤ w.ip_tunnels.count timer.tunnel_idx := by
    have := herase timer.tunnel_idx
    rw [if_pos rfl] at this
    have hp := hidx.1
    unfold World.pendingFor at hp
    omega
  have hone : w.ip_tunnels.count timer.tunnel_idx = 1 := by omega
  have hsome := IPTunnelMap.find_isSome_of_count_pos _ _ hpos
  unfold World.fire IPTunnelTimer.Dispatch
  cases hf : w.ip_tunnels.find timer.tunnel_idx with
  | none => rw [hf] at hsome; cases hsome
  | some it =>
    simp only [hf, Bool.not_false, if_true]
    by_cases hc : (if t > it.2 then binary64.sub t it.2 else 0) ≥ env.ip_tunnel_timeout
    · rw [if_pos hc]
      intro k
      obtain ⟨hp, hcnt⟩ := h k
      unfold World.pendingFor at hp ⊢
      simp only
      have he := herase k
      by_cases hk : k = timer.tunnel_idx
      · subst hk
        rw [if_pos rfl] at he
        rw [IPTunnelMap.count_erase_self]
        omega
      · have hk' : ¬ timer.tunnel_idx = k := fun e => hk e.symm
        rw [if_neg hk'] at he
        rw [IPTunnelMap.count_erase_ne _ _ _ hk]
        omega
    · rw [if_neg hc]
      intro k
      obtain ⟨hp, hcnt⟩ := h k
      unfold World.pendingFor at hp ⊢
      simp only [World.addTimer, IPTunnelTimer.create, List.countP_append, List.countP_cons,
        List.countP_nil]
      have he := herase k
      by_cases hk : k = timer.tunnel_idx
      · subst hk
        rw [if_pos rfl] at he
        simp only [decide_True, if_true]
        omega
      · have hk' : ¬ timer.tunnel_idx = k := fun e => hk e.symm
        rw [if_neg hk'] at he
        simp only [hk', decide_False, Bool.false_eq_true, if_false]
        omega

theorem IPTunnelReachable.invariant (env : Env) (w : World) (h : IPTunnelReachable env w) :
    w.TimerInvariant := by
  induction h with
  | init w hm ht =>
    intro k
    unfold World.pendingFor
    rw [hm, ht]
    exact ⟨rfl, Nat.zero_le 1⟩
  | packet w len data packet _ ih =>
    exact IPTunnelAnalyzer.AnalyzePacket_invariant env w len data packet ih
  | clock w nt pt _ ih => exact World.TimerInvariant_congr w _ rfl rfl ih
  | fire w timer t _ hm ih => exact World.fire_invariant env w timer t ih hm

/-! ## Steps of the state machine -/

theorem IPTunnelAnalyzer.touch_keeps (env : Env) (w : World) (hdr : IP_Hdr) (tt : TunnelType)
    (k : IPPair) (e : TunnelActivity) (h : w.ip_tunnels.find k = some e) :
    ∃ e', (IPTunnelAnalyzer.touch env w hdr tt).ip_tunnels.find k = some e' ∧ e'.1 = e.1 := by
  by_cases hk : k = IPTunnelAnalyzer.tunnel_idx hdr
  · subst hk
    have hf := IPTunnelAnalyzer.touch_find env w hdr tt
    rw [h] at hf
    exact ⟨_, hf, rfl⟩
  · cases hf : w.ip_tunnels.find (IPTunnelAnalyzer.tunnel_idx hdr) with
    | none =>
      rw [IPTunnelAnalyzer.touch_absent env w hdr tt hf]
      refine ⟨e, ?_, rfl⟩
      simp only
      rw [IPTunnelMap.find_assign_ne _ _ _ _ hk]
      exact h
    | some e0 =>
      rw [IPTunnelAnalyzer.touch_present env w hdr tt e0 hf]
      refine ⟨e, ?_, rfl⟩
      simp only
      rw [IPTunnelMap.find_assign_ne _ _ _ _ hk]
      exact h

theorem IPTunnelAnalyzer.AnalyzePacket_keeps (env : Env) (w : World) (len : Nat)
    (data : List Nat) (packet : Packet) (k : IPPair) (e : TunnelActivity)
    (h : w.ip_tunnels.find k = some e) :
    ∃ e', (IPTunnelAnalyzer.AnalyzePacket env w len data packet).2.ip_tunnels.find k = some e' ∧
      e'.1 = e.1 := by
  cases hb : (IPTunnelAnalyzer.AnalyzePacket env w len data packet).1 with
  | false =>
    obtain ⟨_, hm, _⟩ := IPTunnelAnalyzer.reject_unchanged env w len data packet hb
    rw [hm]
    exact ⟨e, h, rfl⟩
  | true =>
    obtain ⟨hdr, c, _, _, _, hw, _⟩ := IPTunnelAnalyzer.accept_shape env w len data packet hb
    rw [hw]
    exact IPTunnelAnalyzer.touch_keeps env w hdr _ k e h

theorem World.fire_other (env : Env) (w : World) (timer : IPTunnelTimer) (t : Int)
    (k : IPPair) (hk : k ≠ timer.tunnel_idx) :
    (w.fire env timer t).ip_tunnels.find k = w.ip_tunnels.find k := by
  unfold World.fire IPTunnelTimer.Dispatch
  cases hf : w.ip_tunnels.find timer.tunnel_idx with
  | none => simp only [hf]
  | some it =>
    simp only [hf, Bool.not_false, if_true]
    by_cases hc : (if t > it.2 then binary64.sub t it.2 else 0) ≥ env.ip_tunnel_timeout
    · rw [if_pos hc]
      simp only
      exact IPTunnelMap.find_erase_ne _ _ _ hk
    · rw [if_neg hc]
      rfl

theorem World.fire_keeps_or_erases (env : Env) (w : World) (timer : IPTunnelTimer) (t : Int)
    (k : IPPair) :
    (w.fire env timer t).ip_tunnels.find k = w.ip_tunnels.find k ∨
      ((w.fire env timer t).ip_tunnels.find k = none ∧ timer.tunnel_idx = k) := by
  by_cases hk : k = timer.tunnel_idx
  · subst hk
    unfold World.fire IPTunnelTimer.Dispatch
    cases hf : w.ip_tunnels.find timer.tunnel_idx with
    | none => left; simp only [hf]
    | some it =>
      simp only [hf, Bool.not_false, if_true]
      by_cases hc : (if t > it.2 then binary64.sub t it.2 else 0) ≥ env.ip_tunnel_timeout
      · rw [if_pos hc]
        right
        exact ⟨IPTunnelMap.find_erase_self _ _, trivial⟩
      · rw [if_neg hc]
        left
        exact hf
  · left
    exact World.fire_other env w timer t k hk

theorem IPTunnelStep.keeps_or_erases (env : Env) (w w' : World) (k : IPPair)
    (e : TunnelActivity) (hs : IPTunnelStep env w w') (h : w.ip_tunnels.find k = some e) :
    (∃ e', w'.ip_tunnels.find k = some e' ∧ e'.1 = e.1) ∨
      (w'.ip_tunnels.find k = none ∧
        ∃ timer t, timer ∈ w.timers ∧ timer.tunnel_idx = k ∧ w' = w.fire env timer t) := by
  cases hs with
  | packet len data packet =>
    left
    exact IPTunnelAnalyzer.AnalyzePacket_keeps env w len data packet k e h
  | clock nt pt =>
    left
    exact ⟨e, h, rfl⟩
  | fire timer t hm =>
    cases World.fire_keeps_or_erases env w timer t k with
    | inl hkeep =>
      left
      rw [hkeep]
      exact ⟨e, h, rfl⟩
    | inr herase =>
      right
      exact ⟨herase.1, timer, t, hm, herase.2, rfl⟩

theorem IPTunnelAlive.first_eq (env : Env) (k : IPPair) (w w' : World)
    (h : IPTunnelAlive env k w w') :
    ∃ e e', w.ip_tunnels.find k = some e ∧ w'.ip_tunnels.find k = some e' ∧ e'.1 = e.1 := by
  induction h with
  | refl h =>
    cases hf : w.ip_tunnels.find k with
    | none => rw [hf] at h; cases h
    | some e => exact ⟨e, e, rfl, rfl, rfl⟩
  | step w1 w2 _ hs ha ih =>
    obtain ⟨e, e1, he, he1, h1⟩ := ih
    cases IPTunnelStep.keeps_or_erases env w1 w2 k e1 hs he1 with
    | inl hkeep =>
      obtain ⟨e2, he2, h2⟩ := hkeep
      exact ⟨e, e2, he, he2, h2.trans h1⟩
    | inr herase =>
      rw [herase.1] at ha
      cases ha

/-! ## One pending timer for every entry of the tunnel map -/

theorem World.pendingFor_pos_of_mem (w : World) (timer : IPTunnelTimer)
    (hm : timer ∈ w.timers) : 1 ≤ w.pendingFor timer.tunnel_idx := by
  unfold World.pendingFor
  exact List.countP_pos_iff.mpr ⟨timer, hm, by simp⟩

/-- C25: in every state reachable from an empty tunnel map with no pending
timer, by calls of `IPTunnelAnalyzer::AnalyzePacket`, by the clocks moving on
and by the firing of pending timers with `is_expire = false`, every pair in
`ip_tunnels` has exactly one pending `IPTunnelTimer`, every pending timer
watches a pair that is in `ip_tunnels`, no pair has more than one timer or more
than one entry, and a step that erases an entry is the firing of the pending
timer of that pair. -/
theorem IPTunnelReachable.timer_per_entry (env : Env) (w : World)
    (h : IPTunnelReachable env w) :
    (∀ k e, w.ip_tunnels.find k = some e → w.pendingFor k = 1) ∧
      (∀ timer, timer ∈ w.timers → (w.ip_tunnels.find timer.tunnel_idx).isSome = true) ∧
      (∀ k, w.pendingFor k ≤ 1 ∧ w.ip_tunnels.count k ≤ 1) ∧
      (∀ w' k e, IPTunnelStep env w w' → w.ip_tunnels.find k = some e →
        w'.ip_tunnels.find k = none →
        ∃ timer t, timer ∈ w.timers ∧ timer.tunnel_idx = k ∧ w' = w.fire env timer t ∧
          w.pendingFor k = 1) := by
  have hinv := IPTunnelReachable.invariant env w h
  have hone : ∀ k e, w.ip_tunnels.find k = some e → w.pendingFor k = 1 := by
    intro k e hf
    have hpos := IPTunnelMap.count_pos_of_find_some _ _ _ hf
    obtain ⟨hp, hc⟩ := hinv k
    omega
  refine ⟨hone, ?_, ?_, ?_⟩
  · intro timer hm
    have hpos := World.pendingFor_pos_of_mem w timer hm
    obtain ⟨hp, _⟩ := hinv timer.tunnel_idx
    exact IPTunnelMap.find_isSome_of_count_pos _ _ (hp ▸ hpos)
  · intro k
    obtain ⟨hp, hc⟩ := hinv k
    exact ⟨hp ▸ hc, hc⟩
  · intro w' k e hs hf hnone
    cases IPTunnelStep.keeps_or_erases env w w' k e hs hf with
    | inl hkeep =>
      obtain ⟨e', he', _⟩ := hkeep
      rw [hnone] at he'
      cases he'
    | inr herase =>
      obtain ⟨_, timer, t, hm, hidx, hw⟩ := herase
      exact ⟨timer, t, hm, hidx, hw, hone k e hf⟩

theorem IPTunnelReachable.timer_per_entry_witness :
    IPTunnelReachable sampleEnv
        (IPTunnelAnalyzer.AnalyzePacket sampleEnv sampleWorld 60 []
          (samplePacket sampleHdr)).2 ∧
      (IPTunnelAnalyzer.AnalyzePacket sampleEnv sampleWorld 60 []
          (samplePacket sampleHdr)).2.ip_tunnels.find (167772161, 167772162)
        = some (⟨167772161, 167772162, TunnelType.IP, 0⟩, 1000) ∧
      (IPTunnelAnalyzer.AnalyzePacket sampleEnv sampleWorld 60 []
          (samplePacket sampleHdr)).2.pendingFor (167772161, 167772162) = 1 :=
  have hr : IPTunnelReachable sampleEnv
      (IPTunnelAnalyzer.AnalyzePacket sampleEnv sampleWorld 60 []
        (samplePacket sampleHdr)).2 :=
    IPTunnelReachable.packet sampleWorld 60 [] (samplePacket sampleHdr)
      (IPTunnelReachable.init sampleWorld rfl rfl)
  have hf : (IPTunnelAnalyzer.AnalyzePacket sampleEnv sampleWorld 60 []
      (samplePacket sampleHdr)).2.ip_tunnels.find (167772161, 167772162)
      = some (⟨167772161, 167772162, TunnelType.IP, 0⟩, 1000) := by decide
  ⟨hr, hf, (IPTunnelReachable.timer_per_entry sampleEnv _ hr).1 _ _ hf⟩

/-! ## The hop of an accepted packet -/

theorem IPTunnelAnalyzer.accept_hop (env : Env) (w : World) (len : Nat) (data : List Nat)
    (packet : Packet) (hdr : IP_Hdr) (hip : packet.key_store.ip_hdr = some hdr)
    (hacc : (IPTunnelAnalyzer.AnalyzePacket env w len data packet).1 = true) :
    ∃ c, (IPTunnelAnalyzer.AnalyzePacket env w len data packet).2.calls = w.calls ++ [c] ∧
      c.packet.key_store.encap = some ((packet.key_store.encap.getD []).Add
        (match w.ip_tunnels.find (IPTunnelAnalyzer.tunnel_idx hdr) with
          | some e => e.1
          | none => ⟨hdr.SrcAddr, hdr.DstAddr, packet.key_store.tunnelTypeOrIP,
              w.uid_counter⟩)) ∧
      (IPTunnelAnalyzer.AnalyzePacket env w len data packet).2.ip_tunnels.find
          (IPTunnelAnalyzer.tunnel_idx hdr)
        = some (match w.ip_tunnels.find (IPTunnelAnalyzer.tunnel_idx hdr) with
          | some e => e.1
          | none => ⟨hdr.SrcAddr, hdr.DstAddr, packet.key_store.tunnelTypeOrIP,
              w.uid_counter⟩, w.network_time) := by
  obtain ⟨hdr', c, hip', _, _, hw, henc⟩ :=
    IPTunnelAnalyzer.accept_shape env w len data packet hacc
  have hh : hdr' = hdr := by
    rw [hip] at hip'
    exact (Option.some.inj hip').symm
  subst hh
  have hf := IPTunnelAnalyzer.touch_find env w hdr' packet.key_store.tunnelTypeOrIP
  rw [IPTunnelMap.first_of_find _ _ _ hf] at henc
  refine ⟨c, ?_, henc, ?_⟩
  · rw [hw]
    show (IPTunnelAnalyzer.touch env w hdr' packet.key_store.tunnelTypeOrIP).calls ++ [c] = _
    rw [IPTunnelAnalyzer.touch_calls]
  · rw [hw]
    exact hf

/-- C27: the hop that `IPTunnelAnalyzer::AnalyzePacket` appends for an
accepted packet is the `EncapsulatingConn` stored in `ip_tunnels` for the
canonical pair of the packet: the one already stored when the pair has an
entry, and one built from the packet when it has none. The stored one was
built from the first packet seen for the pair while the entry is alive: when
that packet created the entry and the entry stayed in the map through all the
steps since, the hop carries the source, destination and tunnel type of that
first packet, not those of the current packet. -/
theorem IPTunnelAnalyzer.hop_of_first_packet (env : Env) (w : World) (len : Nat)
    (data : List Nat) (packet : Packet) (hdr : IP_Hdr)
    (hip : packet.key_store.ip_hdr = some hdr)
    (hacc : (IPTunnelAnalyzer.AnalyzePacket env w len data packet).1 = true) :
    (∃ c, (IPTunnelAnalyzer.AnalyzePacket env w len data packet).2.calls = w.calls ++ [c] ∧
      c.packet.key_store.encap = some ((packet.key_store.encap.getD []).Add
        (match w.ip_tunnels.find (IPTunnelAnalyzer.tunnel_idx hdr) with
          | some e => e.1
          | none => ⟨hdr.SrcAddr, hdr.DstAddr, packet.key_store.tunnelTypeOrIP,
              w.uid_counter⟩)) ∧
      (IPTunnelAnalyzer.AnalyzePacket env w len data packet).2.ip_tunnels.find
          (IPTunnelAnalyzer.tunnel_idx hdr)
        = some (match w.ip_tunnels.find (IPTunnelAnalyzer.tunnel_idx hdr) with
          | some e => e.1
          | none => ⟨hdr.SrcAddr, hdr.DstAddr, packet.key_store.tunnelTypeOrIP,
              w.uid_counter⟩, w.network_time)) ∧
      (∀ (w0 : World) (lenA : Nat) (dataA : List Nat) (pktA : Packet) (hA : IP_Hdr),
        pktA.key_store.ip_hdr = some hA →
        IPTunnelAnalyzer.tunnel_idx hA = IPTunnelAnalyzer.tunnel_idx hdr →
        w0.ip_tunnels.find (IPTunnelAnalyzer.tunnel_idx hA) = none →
        (IPTunnelAnalyzer.AnalyzePacket env w0 lenA dataA pktA).1 = true →
        IPTunnelAlive env (IPTunnelAnalyzer.tunnel_idx hdr)
          (IPTunnelAnalyzer.AnalyzePacket env w0 lenA dataA pktA).2 w →
        ∃ c, (IPTunnelAnalyzer.AnalyzePacket env w len data packet).2.calls = w.calls ++ [c] ∧
          c.packet.key_store.encap = some ((packet.key_store.encap.getD []).Add
            ⟨hA.SrcAddr, hA.DstAddr, pktA.key_store.tunnelTypeOrIP, w0.uid_counter⟩)) := by
  have hB := IPTunnelAnalyzer.accept_hop env w len data packet hdr hip hacc
  refine ⟨hB, ?_⟩
  intro w0 lenA dataA pktA hA hipA hidx h0 haccA halive
  obtain ⟨_, _, _, hfA⟩ := IPTunnelAnalyzer.accept_hop env w0 lenA dataA pktA hA hipA haccA
  rw [h0] at hfA
  simp only at hfA
  rw [hidx] at hfA
  obtain ⟨e, e', he, he', hee⟩ := IPTunnelAlive.first_eq env _ _ _ halive
  rw [hfA] at he
  have he1 : e.1 = ⟨hA.SrcAddr, hA.DstAddr, pktA.key_store.tunnelTypeOrIP, w0.uid_counter⟩ := by
    rw [← Option.some.inj he]
  obtain ⟨c, hc, henc, _⟩ := hB
  rw [he'] at henc
  simp only at henc
  rw [hee, he1] at henc
  exact ⟨c, hc, henc⟩

theorem IPTunnelAnalyzer.hop_of_first_packet_witness :
    revGrePacket.key_store.ip_hdr = some sampleHdrRev ∧
      revGrePacket.key_store.tunnelTypeOrIP = TunnelType.GRE ∧
      (IPTunnelAnalyzer.AnalyzePacket sampleEnv
        ((IPTunnelAnalyzer.AnalyzePacket sampleEnv sampleWorld 60 []
          (samplePacket sampleHdr)).2.advance 2000 2000) 60 [] revGrePacket).1 = true ∧
      ∃ c, (IPTunnelAnalyzer.AnalyzePacket sampleEnv
          ((IPTunnelAnalyzer.AnalyzePacket sampleEnv sampleWorld 60 []
            (samplePacket sampleHdr)).2.advance 2000 2000) 60 [] revGrePacket).2.calls
          = ((IPTunnelAnalyzer.AnalyzePacket sampleEnv sampleWorld 60 []
            (samplePacket sampleHdr)).2.advance 2000 2000).calls ++ [c] ∧
        c.packet.key_store.encap
          = some [⟨167772161, 167772162, TunnelType.IP, 0⟩] :=
  have hacc : (IPTunnelAnalyzer.AnalyzePacket sampleEnv
      ((IPTunnelAnalyzer.AnalyzePacket sampleEnv sampleWorld 60 []
        (samplePacket sampleHdr)).2.advance 2000 2000) 60 [] revGrePacket).1 = true := by
    decide
  ⟨rfl, rfl, hacc,
    (IPTunnelAnalyzer.hop_of_first_packet sampleEnv _ 60 [] revGrePacket sampleHdrRev rfl
      hacc).2 sampleWorld 60 [] (samplePacket sampleHdr) sampleHdr rfl (by decide) rfl
      (by decide)
      (IPTunnelAlive.step _ _ _ (IPTunnelAlive.refl _ (by decide))
        (IPTunnelStep.clock _ 2000 2000) (by decide))⟩

/-! ## The block map of the fragment reassembler -/

theorem DataBlock.Apart.swap (a b : DataBlock) (h : DataBlock.Apart a b) :
    DataBlock.Apart b a := Or.symm h

theorem DataBlock.differs_of_apart (b : DataBlock) (seq : Nat) (data : List Nat)
    (h : DataBlock.Apart ⟨seq, data⟩ b) : b.differs seq data = false := by
  unfold DataBlock.Apart DataBlock.upper at h
  simp only at h
  have hlt : ¬ (max b.seq seq < min (b.seq + b.block.length) (seq + data.length)) := by
    omega
  unfold DataBlock.differs DataBlock.upper
  simp only [hlt, decide_False, Bool.false_and]

theorem DataBlock.insert_of_apart (bs : List DataBlock) (seq : Nat) (data : List Nat)
    (hne : data ≠ []) (hb : ∀ b ∈ bs, DataBlock.Apart ⟨seq, data⟩ b)
    (hs : bs.Pairwise DataBlock.Before) (hnb : ∀ b ∈ bs, b.block ≠ []) :
    (DataBlock.insert bs seq data).Pairwise DataBlock.Before ∧
      (DataBlock.insert bs seq data).Perm (⟨seq, data⟩ :: bs) := by
  have hlen : 0 < data.length := List.length_pos.mpr hne
  induction bs with
  | nil =>
    unfold DataBlock.insert
    rw [if_neg hne]
    exact ⟨List.pairwise_singleton _ _, List.Perm.refl _⟩
  | cons b bs ih =>
    have hsb := List.pairwise_cons.mp hs
    have hbl : 0 < b.block.length :=
      List.length_pos.mpr (hnb b (List.mem_cons_self _ _))
    unfold DataBlock.insert
    rw [if_neg hne]
    by_cases h1 : seq + data.length ≤ b.seq
    · rw [if_pos h1]
      refine ⟨List.pairwise_cons.mpr ⟨?_, hs⟩, List.Perm.refl _⟩
      intro x hx
      show seq < x.seq
      cases List.mem_cons.mp hx with
      | inl hxb => rw [hxb]; omega
      | inr hxs =>
        have : b.seq < x.seq := hsb.1 x hxs
        omega
    · rw [if_neg h1]
      have hup : b.upper ≤ seq := by
        cases hb b (List.mem_cons_self _ _) with
        | inl h => exact absurd h h1
        | inr h => exact h
      rw [if_pos hup]
      obtain ⟨ihs, ihp⟩ := ih (fun x hx => hb x (List.mem_cons_of_mem _ hx)) hsb.2
        (fun x hx => hnb x (List.mem_cons_of_mem _ hx))
      refine ⟨List.pairwise_cons.mpr ⟨?_, ihs⟩, ?_⟩
      · intro x hx
        show b.seq < x.seq
        cases List.mem_cons.mp (ihp.mem_iff.mp hx) with
        | inl hxn =>
          rw [hxn]
          unfold DataBlock.upper at hup
          show b.seq < seq
          omega
        | inr hxs => exact hsb.1 x hxs
      · exact (List.Perm.cons b ihp).trans (List.Perm.swap _ _ _)

theorem FragReassembler.BlockInserted_block_list (r : FragReassembler) :
    r.BlockInserted.block_list = r.block_list := by
  unfold FragReassembler.BlockInserted
  split
  · rfl
  · split <;> rfl

theorem FragReassembler.BlockInserted_frag_size (r : FragReassembler) :
    r.BlockInserted.frag_size = r.frag_size := by
  unfold FragReassembler.BlockInserted
  split
  · rfl
  · split <;> rfl

theorem FragReassembler.BlockInserted_weirds (r : FragReassembler) :
    r.BlockInserted.weirds = r.weirds := by
  unfold FragReassembler.BlockInserted
  split
  · rfl
  · split <;> rfl

theorem FragReassembler.BlockInserted_proto_hdr (r : FragReassembler) :
    r.BlockInserted.proto_hdr = r.proto_hdr := by
  unfold FragReassembler.BlockInserted
  split
  · rfl
  · split <;> rfl

theorem FragReassembler.BlockInserted_complete (r : FragReassembler) (n : Nat)
    (h1 : r.frag_size = some n) (h2 : DataBlock.covers r.block_list 0 n = true) :
    r.BlockInserted.reassembled_pkt
        = some ⟨r.proto_hdr.getD [], DataBlock.contents r.block_list⟩ ∧
      r.BlockInserted.expire_timer = false := by
  unfold FragReassembler.BlockInserted
  rw [h1]
  simp only [h2, if_true, and_self]

theorem FragReassembler.BlockInserted_incomplete (r : FragReassembler)
    (h : ∀ n, r.frag_size = some n → DataBlock.covers r.block_list 0 n = false) :
    r.BlockInserted = r := by
  unfold FragReassembler.BlockInserted
  cases hf : r.frag_size with
  | none => rfl
  | some n =>
    simp only [h n hf, Bool.false_eq_true, if_false]

theorem FragReassembler.AddFragment_block_list (r : FragReassembler) (f : Fragment) :
    (r.AddFragment f).block_list = DataBlock.insert r.block_list f.offset f.payload := by
  unfold FragReassembler.AddFragment
  simp only [FragReassembler.BlockInserted_block_list]
  by_cases h0 : f.offset = 0 <;> cases hm : f.more_fragments <;>
    simp only [h0, if_true, if_false, Bool.not_true, Bool.not_false, Bool.false_eq_true] <;>
    split <;> rfl

theorem FragReassembler.AddFragment_frag_size (r : FragReassembler) (f : Fragment) :
    (r.AddFragment f).frag_size
      = if f.more_fragments then r.frag_size else some (f.offset + f.payload.length) := by
  unfold FragReassembler.AddFragment
  simp only [FragReassembler.BlockInserted_frag_size]
  by_cases h0 : f.offset = 0 <;> cases hm : f.more_fragments <;>
    simp only [h0, if_true, if_false, Bool.not_true, Bool.not_false, Bool.false_eq_true] <;>
    split <;> rfl

theorem FragReassembler.AddFragment_weirds (r : FragReassembler) (f : Fragment)
    (h : ∀ b ∈ r.block_list, DataBlock.Apart f.toBlock b) :
    (r.AddFragment f).weirds = r.weirds := by
  have hany : r.block_list.any (fun b => b.differs f.offset f.payload) = false := by
    rw [List.any_eq_false]
    intro b hb
    rw [DataBlock.differs_of_apart b f.offset f.payload (h b hb)]
    exact Bool.false_ne_true
  unfold FragReassembler.AddFragment
  simp only [FragReassembler.BlockInserted_weirds]
  by_cases h0 : f.offset = 0 <;> cases hm : f.more_fragments <;>
    simp only [h0, if_true, if_false, Bool.not_true, Bool.not_false, Bool.false_eq_true] <;>
    (try rw [h0] at hany) <;>
    simp only [hany, Bool.false_eq_true, if_false]

/-! ## Fragments that tile a datagram -/

theorem Fragment.tiles_cons (f : Fragment) (fs : List Fragment) (pos n : Nat)
    (h : Fragment.tiles (f :: fs) pos n = true) :
    f.offset = pos ∧ f.payload ≠ [] ∧
      (f.more_fragments = false ↔ f.offset + f.payload.length = n) ∧
      Fragment.tiles fs (pos + f.payload.length) n = true := by
  unfold Fragment.tiles at h
  simp only [Bool.and_eq_true, decide_eq_true_eq] at h
  exact ⟨h.1.1.1, h.1.1.2, h.1.2, h.2⟩

theorem Fragment.tiles_facts (gs : List Fragment) :
    ∀ pos n, Fragment.tiles gs pos n = true →
      gs.Pairwise (fun a b => a.offset + a.payload.length ≤ b.offset) ∧
      (∀ f ∈ gs, pos ≤ f.offset ∧ f.payload ≠ [] ∧ f.offset + f.payload.length ≤ n ∧
        (f.more_fragments = false ↔ f.offset + f.payload.length = n)) ∧
      DataBlock.covers (gs.map Fragment.toBlock) pos n = true ∧
      (DataBlock.contents (gs.map Fragment.toBlock)).length + pos = n ∧
      DataBlock.contents (gs.map Fragment.toBlock) = (gs.map (fun f => f.payload)).flatten ∧
      (gs ≠ [] → ∃ f ∈ gs, f.offset + f.payload.length = n) := by
  induction gs with
  | nil =>
    intro pos n h
    unfold Fragment.tiles at h
    have hp : pos = n := of_decide_eq_true h
    refine ⟨List.Pairwise.nil, ?_, ?_, ?_, rfl, ?_⟩
    · intro f hf; cases hf
    · simp [DataBlock.covers, hp]
    · simp [DataBlock.contents, hp]
    · intro hne; exact absurd rfl hne
  | cons f fs ih =>
    intro pos n h
    obtain ⟨ho, hne, hmf, ht⟩ := Fragment.tiles_cons f fs pos n h
    obtain ⟨ihp, ihm, ihc, ihl, ihe, ihx⟩ := ih (pos + f.payload.length) n ht
    have hle : pos + f.payload.length ≤ n := by omega
    refine ⟨List.pairwise_cons.mpr ⟨?_, ihp⟩, ?_, ?_, ?_, ?_, ?_⟩
    · intro b hb
      have := (ihm b hb).1
      omega
    · intro g hg
      cases List.mem_cons.mp hg with
      | inl hgf =>
        rw [hgf]
        exact ⟨by omega, hne, by omega, hmf⟩
      | inr hgs =>
        obtain ⟨h1, h2, h3, h4⟩ := ihm g hgs
        exact ⟨by omega, h2, h3, h4⟩
    · show (decide (f.offset = pos) &&
        DataBlock.covers (fs.map Fragment.toBlock) (f.offset + f.payload.length) n) = true
      rw [ho]
      simp only [decide_True, Bool.true_and]
      exact ihc
    · show (f.payload ++ DataBlock.contents (fs.map Fragment.toBlock)).length + pos = n
      rw [List.length_append]
      omega
    · show f.payload ++ DataBlock.contents (fs.map Fragment.toBlock)
        = f.payload ++ (fs.map (fun f => f.payload)).flatten
      rw [ihe]
    · intro _
      cases fs with
      | nil =>
        unfold Fragment.tiles at ht
        have hp : pos + f.payload.length = n := of_decide_eq_true ht
        exact ⟨f, List.mem_cons_self _ _, by omega⟩
      | cons g gs' =>
        obtain ⟨x, hx, hxn⟩ := ihx (List.cons_ne_nil _ _)
        exact ⟨x, List.mem_cons_of_mem _ hx, hxn⟩

theorem FragReassembler.fold_block_list (fs : List Fragment) :
    ∀ r : FragReassembler, r.block_list.Pairwise DataBlock.Before →
      (∀ b ∈ r.block_list, b.block ≠ []) →
      (r.block_list ++ fs.map Fragment.toBlock).Pairwise DataBlock.Apart →
      (∀ f ∈ fs, f.payload ≠ []) →
      (fs.foldl FragReassembler.AddFragment r).block_list.Pairwise DataBlock.Before ∧
        (fs.foldl FragReassembler.AddFragment r).block_list.Perm
          (r.block_list ++ fs.map Fragment.toBlock) ∧
        (fs.foldl FragReassembler.AddFragment r).weirds = r.weirds := by
  induction fs with
  | nil =>
    intro r hs _ _ _
    simp only [List.foldl_nil, List.map_nil, List.append_nil]
    exact ⟨hs, List.Perm.refl _, trivial⟩
  | cons f fs ih =>
    intro r hs hnb hap hne
    rw [List.foldl_cons]
    have hpa := List.pairwise_append.mp hap
    have hfb : ∀ b ∈ r.block_list, DataBlock.Apart f.toBlock b := fun b hb =>
      DataBlock.Apart.swap _ _ (hpa.2.2 b hb f.toBlock (List.mem_cons_self _ _))
    have hfne : f.payload ≠ [] := hne f (List.mem_cons_self _ _)
    obtain ⟨his, hip⟩ := DataBlock.insert_of_apart r.block_list f.offset f.payload hfne
      hfb hs hnb
    have hbl := FragReassembler.AddFragment_block_list r f
    have hperm : ((r.AddFragment f).block_list ++ fs.map Fragment.toBlock).Perm
        (r.block_list ++ (f :: fs).map Fragment.toBlock) := by
      rw [hbl, List.map_cons]
      exact (List.Perm.append_right _ hip).trans List.perm_middle.symm
    obtain ⟨h1, h2, h3⟩ := ih (r.AddFragment f) (hbl ▸ his)
      (by
        intro b hb
        rw [hbl] at hb
        cases List.mem_cons.mp (hip.mem_iff.mp hb) with
        | inl hbf => rw [hbf]; exact hfne
        | inr hbr => exact hnb b hbr)
      ((List.Perm.pairwise_iff (fun h => DataBlock.Apart.swap _ _ h) hperm).mpr hap)
      (fun g hg => hne g (List.mem_cons_of_mem _ hg))
    exact ⟨h1, h2.trans hperm, h3.trans (FragReassembler.AddFragment_weirds r f hfb)⟩

theorem FragReassembler.fold_frag_size_known (fs : List Fragment) (n : Nat) :
    ∀ r : FragReassembler, r.frag_size = some n →
      (∀ f ∈ fs, f.more_fragments = false → f.offset + f.payload.length = n) →
      (fs.foldl FragReassembler.AddFragment r).frag_size = some n := by
  induction fs with
  | nil => intro r hr _; exact hr
  | cons f fs ih =>
    intro r hr hm
    rw [List.foldl_cons]
    apply ih
    · rw [FragReassembler.AddFragment_frag_size]
      cases hmf : f.more_fragments with
      | true => simpa using hr
      | false =>
        have := hm f (List.mem_cons_self _ _) hmf
        simp [this]
    · exact fun g hg => hm g (List.mem_cons_of_mem _ hg)

theorem FragReassembler.fold_frag_size (fs : List Fragment) (n : Nat) :
    ∀ r : FragReassembler,
      (∀ f ∈ fs, f.more_fragments = false → f.offset + f.payload.length = n) →
      (∃ f ∈ fs, f.more_fragments = false) →
      (fs.foldl FragReassembler.AddFragment r).frag_size = some n := by
  induction fs with
  | nil =>
    intro r _ hex
    obtain ⟨f, hf, _⟩ := hex
    cases hf
  | cons f fs ih =>
    intro r hm hex
    rw [List.foldl_cons]
    cases hmf : f.more_fragments with
    | false =>
      apply FragReassembler.fold_frag_size_known
      · rw [FragReassembler.AddFragment_frag_size]
        have := hm f (List.mem_cons_self _ _) hmf
        simp [hmf, this]
      · exact fun g hg => hm g (List.mem_cons_of_mem _ hg)
    | true =>
      apply ih
      · exact fun g hg => hm g (List.mem_cons_of_mem _ hg)
      · obtain ⟨g, hg, hgm⟩ := hex
        cases List.mem_cons.mp hg with
        | inl hgf =>
          rw [hgf, hmf] at hgm
          cases hgm
        | inr hgs => exact ⟨g, hgs, hgm⟩

/-! ## Completion of the fragment reassembler -/

theorem DataBlock.covers_length (bs : List DataBlock) :
    ∀ pos n, DataBlock.covers bs pos n = true → (DataBlock.contents bs).length + pos = n := by
  induction bs with
  | nil =>
    intro pos n h
    unfold DataBlock.covers at h
    have hp : pos = n := of_decide_eq_true h
    simp [DataBlock.contents, hp]
  | cons b bs ih =>
    intro pos n h
    unfold DataBlock.covers at h
    simp only [Bool.and_eq_true, decide_eq_true_eq] at h
    have := ih b.upper n h.2
    unfold DataBlock.upper at this
    show (b.block ++ DataBlock.contents bs).length + pos = n
    rw [List.length_append]
    omega

theorem DataBlock.contents_length_perm (as bs : List DataBlock) (h : as.Perm bs) :
    (DataBlock.contents as).length = (DataBlock.contents bs).length := by
  unfold DataBlock.contents
  exact ((h.map (fun b : DataBlock => b.block)).flatten).length_eq

theorem DataBlock.contents_append (as bs : List DataBlock) :
    DataBlock.contents (as ++ bs) = DataBlock.contents as ++ DataBlock.contents bs := by
  unfold DataBlock.contents
  rw [List.map_append, List.flatten_append]

theorem FragReassembler.AddFragment_pre (r : FragReassembler) (f : Fragment) :
    ∃ x : FragReassembler, r.AddFragment f = x.BlockInserted ∧
      x.reassembled_pkt = r.reassembled_pkt := by
  unfold FragReassembler.AddFragment
  refine ⟨_, rfl, ?_⟩
  by_cases h0 : f.offset = 0 <;> cases hm : f.more_fragments <;>
    simp only [h0, if_true, if_false, Bool.not_true, Bool.not_false, Bool.false_eq_true] <;>
    split <;> rfl

theorem FragReassembler.AddFragment_complete (r : FragReassembler) (f : Fragment) (n : Nat)
    (h1 : (r.AddFragment f).frag_size = some n)
    (h2 : DataBlock.covers (r.AddFragment f).block_list 0 n = true) :
    (∃ hdr, (r.AddFragment f).reassembled_pkt
        = some ⟨hdr, DataBlock.contents (r.AddFragment f).block_list⟩) ∧
      (r.AddFragment f).expire_timer = false := by
  obtain ⟨x, hx, _⟩ := FragReassembler.AddFragment_pre r f
  rw [hx] at h1 h2 ⊢
  rw [FragReassembler.BlockInserted_frag_size] at h1
  rw [FragReassembler.BlockInserted_block_list] at h2 ⊢
  have := FragReassembler.BlockInserted_complete x n h1 h2
  exact ⟨⟨_, this.1⟩, this.2⟩

theorem FragReassembler.AddFragment_incomplete (r : FragReassembler) (f : Fragment)
    (h : ∀ n, (r.AddFragment f).frag_size = some n →
      DataBlock.covers (r.AddFragment f).block_list 0 n = false) :
    (r.AddFragment f).reassembled_pkt = r.reassembled_pkt := by
  obtain ⟨x, hx, hr⟩ := FragReassembler.AddFragment_pre r f
  rw [hx] at h ⊢
  rw [FragReassembler.BlockInserted_frag_size, FragReassembler.BlockInserted_block_list] at h
  rw [FragReassembler.BlockInserted_incomplete x h]
  exact hr

theorem FragReassembler.fold_frag_size_or (fs : List Fragment) (n : Nat) :
    ∀ r : FragReassembler, (r.frag_size = none ∨ r.frag_size = some n) →
      (∀ f ∈ fs, f.more_fragments = false → f.offset + f.payload.length = n) →
      (fs.foldl FragReassembler.AddFragment r).frag_size = none ∨
        (fs.foldl FragReassembler.AddFragment r).frag_size = some n := by
  induction fs with
  | nil => intro r hr _; exact hr
  | cons f fs ih =>
    intro r hr hm
    rw [List.foldl_cons]
    apply ih
    · rw [FragReassembler.AddFragment_frag_size]
      cases hmf : f.more_fragments with
      | true => simpa using hr
      | false =>
        have := hm f (List.mem_cons_self _ _) hmf
        right
        simp [this]
    · exact fun g hg => hm g (List.mem_cons_of_mem _ hg)

theorem FragReassembler.fold_fresh (fs : List Fragment)
    (hap : (fs.map Fragment.toBlock).Pairwise DataBlock.Apart)
    (hne : ∀ f ∈ fs, f.payload ≠ []) :
    (fs.foldl FragReassembler.AddFragment FragReassembler.fresh).block_list.Pairwise
        DataBlock.Before ∧
      (fs.foldl FragReassembler.AddFragment FragReassembler.fresh).block_list.Perm
        (fs.map Fragment.toBlock) ∧
      (fs.foldl FragReassembler.AddFragment FragReassembler.fresh).weirds = [] :=
  FragReassembler.fold_block_list fs FragReassembler.fresh List.Pairwise.nil
    (fun _ hb => by cases hb) hap hne

theorem FragReassembler.fold_incomplete (n : Nat) (fs1 : List Fragment) :
    ∀ fs2 : List Fragment, fs2 ≠ [] →
      ((fs1 ++ fs2).map Fragment.toBlock).Pairwise DataBlock.Apart →
      (∀ f ∈ fs1 ++ fs2, f.payload ≠ []) →
      (∀ f ∈ fs1 ++ fs2, f.more_fragments = false → f.offset + f.payload.length = n) →
      (DataBlock.contents ((fs1 ++ fs2).map Fragment.toBlock)).length = n →
      (fs1.foldl FragReassembler.AddFragment FragReassembler.fresh).reassembled_pkt = none := by
  induction fs1 using List.reverseRecOn with
  | nil => intro _ _ _ _ _ _; rfl
  | append_singleton l a ih =>
    intro fs2 h2 hap hne hmf htot
    have hassoc : l ++ [a] ++ fs2 = l ++ (a :: fs2) := by simp
    have hpre := ih (a :: fs2) (List.cons_ne_nil _ _) (hassoc ▸ hap) (hassoc ▸ hne)
      (hassoc ▸ hmf) (hassoc ▸ htot)
    rw [List.foldl_append, List.foldl_cons, List.foldl_nil]
    rw [← hpre]
    apply FragReassembler.AddFragment_incomplete
    intro n' hn'
    have hfold : (l ++ [a]).foldl FragReassembler.AddFragment FragReassembler.fresh
        = (l.foldl FragReassembler.AddFragment FragReassembler.fresh).AddFragment a := by
      rw [List.foldl_append, List.foldl_cons, List.foldl_nil]
    rw [← hfold] at hn' ⊢
    have hap1 : ((l ++ [a]).map Fragment.toBlock).Pairwise DataBlock.Apart := by
      rw [List.map_append] at hap
      exact (List.pairwise_append.mp hap).1
    have hne1 : ∀ f ∈ l ++ [a], f.payload ≠ [] :=
      fun f hf => hne f (List.mem_append_left _ hf)
    have hmf1 : ∀ f ∈ l ++ [a], f.more_fragments = false → f.offset + f.payload.length = n :=
      fun f hf => hmf f (List.mem_append_left _ hf)
    obtain ⟨_, hperm, _⟩ := FragReassembler.fold_fresh (l ++ [a]) hap1 hne1
    have hsz := FragReassembler.fold_frag_size_or (l ++ [a]) n FragReassembler.fresh
      (Or.inl rfl) hmf1
    have hn : n' = n := by
      cases hsz with
      | inl h => rw [h] at hn'; cases hn'
      | inr h => rw [h] at hn'; exact (Option.some.inj hn').symm
    subst hn
    cases hc : DataBlock.covers
        ((l ++ [a]).foldl FragReassembler.AddFragment FragReassembler.fresh).block_list 0 n' with
    | false => rfl
    | true =>
      exfalso
      have hlen := DataBlock.covers_length _ 0 n' hc
      rw [DataBlock.contents_length_perm _ _ hperm] at hlen
      rw [List.map_append, DataBlock.contents_append, List.length_append] at htot
      have h2pos : 0 < (DataBlock.contents (fs2.map Fragment.toBlock)).length := by
        cases fs2 with
        | nil => exact absurd rfl h2
        | cons g gs =>
          have hg : g.payload ≠ [] :=
            hne g (List.mem_append_right _ (List.mem_cons_self _ _))
          have hgl : 0 < g.payload.length := List.length_pos.mpr hg
          show 0 < (g.payload ++ DataBlock.contents (gs.map Fragment.toBlock)).length
          rw [List.length_append]
          omega
      omega

/-- C24: when the fragments handed to `FragReassembler::AddFragment`, in any
arrival order, are a permutation of fragments whose payload ranges tile
`[0, N)` exactly once each, with the more-fragments flag clear on the
fragment that ends at `N` and on no other, the reassembler is complete after the
last call: the reassembled datagram is there, its payload is the concatenation
of the payloads in offset order and has length `N`, the size is known to be `N`,
the expiry timer is cancelled and no weird is raised. The block map then holds
the fragments in offset order, and the reassembler is not complete before the
last fragment has arrived. -/
theorem FragReassembler.tiling_reassembles (fs gs : List Fragment) (n : Nat)
    (hperm : fs.Perm gs) (ht : Fragment.tiles gs 0 n = true) (hne : gs ≠ []) :
    (∃ pkt, (fs.foldl FragReassembler.AddFragment FragReassembler.fresh).reassembled_pkt
        = some pkt ∧
      pkt.payload = (gs.map (fun f => f.payload)).flatten ∧ pkt.payload.length = n) ∧
      (fs.foldl FragReassembler.AddFragment FragReassembler.fresh).frag_size = some n ∧
      (fs.foldl FragReassembler.AddFragment FragReassembler.fresh).expire_timer = false ∧
      (fs.foldl FragReassembler.AddFragment FragReassembler.fresh).weirds = [] ∧
      (fs.foldl FragReassembler.AddFragment FragReassembler.fresh).block_list
        = gs.map Fragment.toBlock ∧
      (∀ fs1 fs2, fs = fs1 ++ fs2 → fs2 ≠ [] →
        (fs1.foldl FragReassembler.AddFragment FragReassembler.fresh).reassembled_pkt
          = none) := by
  obtain ⟨hpw, hmem, hcov, hlen, hcont, hex⟩ := Fragment.tiles_facts gs 0 n ht
  have hAp_gs : (gs.map Fragment.toBlock).Pairwise DataBlock.Apart :=
    List.Pairwise.map Fragment.toBlock (fun _ _ h => Or.inl h) hpw
  have hBef_gs : (gs.map Fragment.toBlock).Pairwise DataBlock.Before := by
    apply List.pairwise_map.mpr
    apply List.Pairwise.imp_of_mem _ hpw
    intro a b ha _ h
    have hpos : 0 < a.payload.length := List.length_pos.mpr (hmem a ha).2.1
    show a.offset < b.offset
    omega
  have hAp_fs : (fs.map Fragment.toBlock).Pairwise DataBlock.Apart :=
    (List.Perm.pairwise_iff (fun h => DataBlock.Apart.swap _ _ h)
      (hperm.map Fragment.toBlock)).mpr hAp_gs
  have hne_fs : ∀ f ∈ fs, f.payload ≠ [] := fun f hf => (hmem f (hperm.mem_iff.mp hf)).2.1
  have hmf_fs : ∀ f ∈ fs, f.more_fragments = false → f.offset + f.payload.length = n :=
    fun f hf h => (hmem f (hperm.mem_iff.mp hf)).2.2.2.mp h
  have hex_fs : ∃ f ∈ fs, f.more_fragments = false := by
    obtain ⟨x, hx, hxn⟩ := hex hne
    exact ⟨x, hperm.mem_iff.mpr hx, (hmem x hx).2.2.2.mpr hxn⟩
  obtain ⟨hsorted, hpermb, hweirds⟩ := FragReassembler.fold_fresh fs hAp_fs hne_fs
  have hbl : (fs.foldl FragReassembler.AddFragment FragReassembler.fresh).block_list
      = gs.map Fragment.toBlock := by
    haveI : IsAntisymm DataBlock DataBlock.Before :=
      ⟨fun a b h1 h2 => absurd h1 (Nat.lt_asymm h2)⟩
    exact List.eq_of_perm_of_sorted (hpermb.trans (hperm.map Fragment.toBlock)) hsorted hBef_gs
  have hfs := FragReassembler.fold_frag_size fs n FragReassembler.fresh hmf_fs hex_fs
  have htot : (DataBlock.contents (fs.map Fragment.toBlock)).length = n := by
    rw [DataBlock.contents_length_perm _ _ (hperm.map Fragment.toBlock)]
    omega
  refine ⟨?_, hfs, ?_, hweirds, hbl, ?_⟩
  · cases List.eq_nil_or_concat fs with
    | inl hnil =>
      rw [hnil] at hperm
      exact absurd hperm.nil_eq.symm hne
    | inr hcat =>
      obtain ⟨L, b, hLb⟩ := hcat
      rw [List.concat_eq_append] at hLb
      have hfold : fs.foldl FragReassembler.AddFragment FragReassembler.fresh
          = (L.foldl FragReassembler.AddFragment FragReassembler.fresh).AddFragment b := by
        rw [hLb, List.foldl_append, List.foldl_cons, List.foldl_nil]
      rw [hfold] at hfs hbl ⊢
      obtain ⟨⟨hdr, hpkt⟩, _⟩ := FragReassembler.AddFragment_complete _ b n hfs
        (by rw [hbl]; exact hcov)
      refine ⟨_, hpkt, ?_, ?_⟩
      · show DataBlock.contents _ = _
        rw [hbl, hcont]
      · show (DataBlock.contents _).length = n
        rw [hbl]
        omega
  · cases List.eq_nil_or_concat fs with
    | inl hnil =>
      rw [hnil] at hperm
      exact absurd hperm.nil_eq.symm hne
    | inr hcat =>
      obtain ⟨L, b, hLb⟩ := hcat
      rw [List.concat_eq_append] at hLb
      have hfold : fs.foldl FragReassembler.AddFragment FragReassembler.fresh
          = (L.foldl FragReassembler.AddFragment FragReassembler.fresh).AddFragment b := by
        rw [hLb, List.foldl_append, List.foldl_cons, List.foldl_nil]
      rw [hfold] at hfs hbl ⊢
      exact (FragReassembler.AddFragment_complete _ b n hfs (by rw [hbl]; exact hcov)).2
  · intro fs1 fs2 hsplit h2
    subst hsplit
    exact FragReassembler.fold_incomplete n fs1 fs2 h2 hAp_fs hne_fs hmf_fs htot

theorem FragReassembler.tiling_reassembles_witness :
    [fragB, fragA].Perm [fragA, fragB] ∧ Fragment.tiles [fragA, fragB] 0 12 = true ∧
      (∃ pkt, ([fragB, fragA].foldl FragReassembler.AddFragment
          FragReassembler.fresh).reassembled_pkt = some pkt ∧
        pkt.payload = ([fragA, fragB].map (fun f => f.payload)).flatten ∧
        pkt.payload.length = 12) ∧
      ([fragB].foldl FragReassembler.AddFragment FragReassembler.fresh).reassembled_pkt
        = none :=
  have h := FragReassembler.tiling_reassembles [fragB, fragA] [fragA, fragB] 12
    (List.Perm.swap fragA fragB []) (by decide) (by decide)
  ⟨List.Perm.swap fragA fragB [], by decide, h.1, h.2.2.2.2.2 [fragB] [fragA] rfl (by decide)⟩

end Zeek
